import Mathlib

/-!
# deadmanssnitch-operator: the DeadmansSnitchIntegration controller

A shallow embedding of
`pkg/controller/deadmanssnitchintegration/deadmanssnitchintegration_controller.go`.

* Go strings are `String`; Go maps (`Labels`, `Annotations`, `Data`) are association lists.
* A Go `error` is an `Option Err` (`none` is `nil`); a Go `(T, error)` is a pair.
* The object store and the monitor service are collaborators: the controller is
  embedded over an arbitrary behaviour of both (`ReconcileDeadmansSnitchIntegration σ`,
  one field per call, over a collaborator state `σ`), every call the controller issues
  is recorded, in order and with its outcome, in a log of `Event`s.
* `World` and `faithful` give one concrete behaviour: a plain key/value object store
  and a monitor service that does what it reports; `withFaults` injects failures.
-/

namespace DeadMansSnitch

/-! ## Errors -/

/-- Errors returned by the collaborators and by the controller. -/
inductive Err where
  | notFound
  | alreadyExists
  | other (msg : String)
deriving DecidableEq, Repr

/-- The test `k8errors.IsNotFound(err)`; it is false on a nil error. -/
def IsNotFound : Option Err → Bool
  | some Err.notFound => true
  | _ => false

/-! ## Data model -/

/-- The key `types.NamespacedName`. -/
structure NamespacedName where
  Namespace : String
  Name : String
deriving DecidableEq, Repr

/-- One entry of `metav1.LabelSelector.MatchExpressions`. -/
structure LabelSelectorRequirement where
  Key : String
  Operator : String
  Values : List String
deriving DecidableEq, Repr

/-- The label selector `metav1.LabelSelector` as written in the intent. -/
structure LabelSelector where
  MatchLabels : List (String × String)
  MatchExpressions : List LabelSelectorRequirement
deriving DecidableEq, Repr

/-- The operators of a converted selector requirement. -/
inductive SelectionOp where
  | isIn
  | notIn
  | present
  | absent
deriving DecidableEq, Repr

/-- One requirement of a converted selector (`labels.Requirement`). -/
structure Requirement where
  key : String
  op : SelectionOp
  values : List String
deriving DecidableEq, Repr

/-- A converted selector (`labels.Selector`): a conjunction of requirements. -/
structure Selector where
  requirements : List Requirement
deriving DecidableEq, Repr

/-- The reference `corev1.SecretReference` (also used for the API key secret). -/
structure SecretReference where
  Name : String
  Namespace : String
deriving DecidableEq, Repr

/-- One configured exclusion pair of the intent. -/
structure ClusterDeploymentAnnotationsToSkip where
  Name : String
  Value : String
deriving DecidableEq, Repr

/-- The spec of a `DeadmansSnitchIntegration`. -/
structure DeadmansSnitchIntegrationSpec where
  DmsAPIKeySecretRef : SecretReference
  ClusterDeploymentSelector : LabelSelector
  ClusterDeploymentAnnotationsToSkip : List ClusterDeploymentAnnotationsToSkip
  SnitchNamePostFix : String
  Tags : List String
  TargetSecretRef : SecretReference
deriving DecidableEq, Repr

/-- The intent record `deadmanssnitchv1alpha1.DeadmansSnitchIntegration`. -/
structure DeadmansSnitchIntegration where
  Name : String
  Namespace : String
  DeletionTimestamp : Option Nat
  Finalizers : List String
  Spec : DeadmansSnitchIntegrationSpec
deriving DecidableEq, Repr

/-- The cluster metadata `hivev1.ClusterMetadata` (the field the controller reads). -/
structure ClusterMetadata where
  ClusterID : String
deriving DecidableEq, Repr

/-- The spec of a `hivev1.ClusterDeployment` (the fields the controller reads). -/
structure ClusterDeploymentSpec where
  ClusterName : String
  BaseDomain : String
  Installed : Bool
  PowerState : String
  ClusterMetadata : Option ClusterMetadata
deriving DecidableEq, Repr

/-- The managed resource `hivev1.ClusterDeployment`. -/
structure ClusterDeployment where
  UID : String
  Name : String
  Namespace : String
  Labels : List (String × String)
  Annotations : List (String × String)
  DeletionTimestamp : Option Nat
  Finalizers : List String
  Spec : ClusterDeploymentSpec
deriving DecidableEq, Repr

/-- The external monitor `dmsclient.Snitch`. Tokens are identifiers issued by the
monitor service; they are numbers here. -/
structure Snitch where
  Name : String
  Token : Nat
  Tags : List String
  Notes : String
  Status : String
  CheckInURL : String
  Interval : String
  AlertType : String
deriving DecidableEq, Repr

/-- The owner reference written by `controllerutil.SetControllerReference`. -/
structure OwnerReference where
  Kind : String
  Name : String
  UID : String
  Controller : Bool
deriving DecidableEq, Repr

/-- The object `corev1.Secret`. -/
structure Secret where
  Name : String
  Namespace : String
  Type_ : String
  Kind : String
  APIVersion : String
  Data : List (String × String)
  OwnerReferences : List OwnerReference
deriving DecidableEq, Repr

/-- One entry `hivev1.SecretMapping` of a SyncSet. -/
structure SecretMapping where
  SourceRef : SecretReference
  TargetRef : SecretReference
deriving DecidableEq, Repr

/-- The distribution manifest `hivev1.SyncSet`. -/
structure SyncSet where
  Name : String
  Namespace : String
  ClusterDeploymentRefs : List String
  ResourceApplyMode : String
  Secrets : List SecretMapping
  OwnerReferences : List OwnerReference
deriving DecidableEq, Repr

/-- The configuration read from package `config` and the naming helper of package
`utils`, neither of which is part of the controller file: the restricted-mode flag
`config.IsFedramp()`, the key `config.KeySnitchURL`, and `utils.SecretName`. -/
structure Config where
  IsFedramp : Bool
  KeySnitchURL : String
  SecretName : String → String → String

/-- The runtime scheme: the kinds registered with it. -/
structure Scheme where
  kinds : List String
deriving DecidableEq, Repr

/-! ## Constants -/

/-- The constant `DeadMansSnitchFinalizerPrefix`. -/
def DeadMansSnitchFinalizerPrefix : String := "dms.managed.openshift.io/deadmanssnitch-"

/-- The constant `deadMansSnitchAPISecretKey`. -/
def deadMansSnitchAPISecretKey : String := "deadmanssnitch-api-key"

/-- The constant `hivev1.HibernatingClusterPowerState`. -/
def HibernatingClusterPowerState : String := "Hibernating"

/-- The constant `hivev1.SyncResourceApplyMode`. -/
def SyncResourceApplyMode : String := "Sync"

/-! ## Label selectors (apimachinery) -/

/-- Conversion of one match expression: the operator must be one of the four known
ones, `In` and `NotIn` need at least one value, `Exists` and `DoesNotExist` none. -/
def requirementOf (e : LabelSelectorRequirement) : Except Err Requirement :=
  if e.Operator = "In" then
    if e.Values = [] then Except.error (Err.other "values set must not be empty for in and notin")
    else Except.ok ⟨e.Key, SelectionOp.isIn, e.Values⟩
  else if e.Operator = "NotIn" then
    if e.Values = [] then Except.error (Err.other "values set must not be empty for in and notin")
    else Except.ok ⟨e.Key, SelectionOp.notIn, e.Values⟩
  else if e.Operator = "Exists" then
    if e.Values = [] then Except.ok ⟨e.Key, SelectionOp.present, []⟩
    else Except.error (Err.other "values set must be empty for exists and does not exist")
  else if e.Operator = "DoesNotExist" then
    if e.Values = [] then Except.ok ⟨e.Key, SelectionOp.absent, []⟩
    else Except.error (Err.other "values set must be empty for exists and does not exist")
  else Except.error (Err.other "not a valid label selector operator")

/-- Conversion of the match expressions, stopping at the first invalid one. -/
def requirementsOf : List LabelSelectorRequirement → Except Err (List Requirement)
  | [] => Except.ok []
  | e :: es =>
    match requirementOf e with
    | Except.error err => Except.error err
    | Except.ok q =>
      match requirementsOf es with
      | Except.error err => Except.error err
      | Except.ok qs => Except.ok (q :: qs)

/-- The conversion `metav1.LabelSelectorAsSelector`: every `MatchLabels` pair is an
equality requirement, every match expression is converted; a malformed expression is
an error. -/
def LabelSelectorAsSelector (ps : LabelSelector) : Except Err Selector :=
  match requirementsOf ps.MatchExpressions with
  | Except.error err => Except.error err
  | Except.ok qs =>
    Except.ok ⟨ps.MatchLabels.map (fun kv => ⟨kv.1, SelectionOp.isIn, [kv.2]⟩) ++ qs⟩

/-- Whether a label set satisfies one requirement. -/
def Requirement.Matches (q : Requirement) (labels : List (String × String)) : Bool :=
  match q.op with
  | SelectionOp.isIn =>
    match labels.lookup q.key with
    | some v => q.values.contains v
    | none => false
  | SelectionOp.notIn =>
    match labels.lookup q.key with
    | some v => !q.values.contains v
    | none => true
  | SelectionOp.present => (labels.lookup q.key).isSome
  | SelectionOp.absent => (labels.lookup q.key).isNone

/-- Whether a label set satisfies a selector: all requirements hold. -/
def Selector.Matches (s : Selector) (labels : List (String × String)) : Bool :=
  s.requirements.all (fun q => q.Matches labels)

/-! ## Finalizer helpers (package `utils`) -/

/-- Modelled from the spec: `utils.HasFinalizer`, not part of the controller file;
whether the finalizer token is recorded on the object. -/
def HasFinalizer (finalizers : List String) (finalizer : String) : Bool :=
  finalizers.contains finalizer

/-- Modelled from the spec: `utils.AddFinalizer`, not part of the controller file;
adds the token to the object's finalizers if absent. -/
def AddFinalizer (finalizers : List String) (finalizer : String) : List String :=
  if finalizers.contains finalizer then finalizers else finalizers ++ [finalizer]

/-- Modelled from the spec: `utils.DeleteFinalizer`, not part of the controller file;
removes the token from the object's finalizers. -/
def DeleteFinalizer (finalizers : List String) (finalizer : String) : List String :=
  finalizers.filter (fun f => f != finalizer)

/-! ## Name and identifier derivation -/

/-- The call `strings.Split(s, sep)` for a separator of one character: the segments
between the occurrences of the separator (one more than there are occurrences). -/
def splitOnChar (sep : Char) : List Char → List (List Char)
  | [] => [[]]
  | c :: cs =>
    if c = sep then [] :: splitOnChar sep cs
    else
      match splitOnChar sep cs with
      | [] => [[c]]
      | seg :: segs => (c :: seg) :: segs

/-- The call `strings.Split(s, "-")`. -/
def strings_Split_dash (s : String) : List String :=
  (splitOnChar '-' s.data).map String.mk

/-- The function `getInternalClusterID`: the last segment of the namespace. -/
def getInternalClusterID (cd : ClusterDeployment) : String :=
  let cns := strings_Split_dash cd.Namespace
  cns.getD (cns.length - 1) ""

/-- The function `getClusterID`: the internal cluster ID in restricted mode and the
external cluster ID otherwise; an error when the cluster has no ID yet. -/
def getClusterID (cd : ClusterDeployment) (isFedramp : Bool) : String × Option Err :=
  match cd.Spec.ClusterMetadata with
  | none => ("", some (Err.other "Unable to get ClusterID from ClusterDeployment"))
  | some md =>
    if md.ClusterID = "" then
      ("", some (Err.other "Unable to get ClusterID from ClusterDeployment"))
    else
      let clusterID := md.ClusterID
      let clusterID := if isFedramp then getInternalClusterID cd else clusterID
      (clusterID, none)

/-- The function `getSnitchName`: the internal cluster ID in restricted mode and
`ClusterName.BaseDomain`, with the optional suffix, otherwise. -/
def getSnitchName (cd : ClusterDeployment) (optionalPostFix : String) (isFedramp : Bool) :
    String :=
  let snitchName := cd.Spec.ClusterName ++ "." ++ cd.Spec.BaseDomain
  let snitchName := if optionalPostFix ≠ "" then snitchName ++ "-" ++ optionalPostFix else snitchName
  let snitchName := if isFedramp then getInternalClusterID cd else snitchName
  snitchName

/-- The function `shouldSkipClusterDeployment`: the nested loops return true at the
first annotation that equals a configured pair in key and value. -/
def shouldSkipClusterDeployment
    (clusterDeploymentAnnotationsToSkip : List ClusterDeploymentAnnotationsToSkip)
    (cd : ClusterDeployment) : Bool :=
  cd.Annotations.any (fun anno =>
    clusterDeploymentAnnotationsToSkip.any (fun skipper =>
      anno.1 == skipper.Name && anno.2 == skipper.Value))

/-- The constructor `newDMSSecret`. -/
def newDMSSecret (cfg : Config) (namespace_ : String) (name : String) (snitchURL : String) :
    Secret :=
  { Name := name
    Namespace := namespace_
    Type_ := "Opaque"
    Kind := "Secret"
    APIVersion := "v1"
    Data := [(cfg.KeySnitchURL, snitchURL)]
    OwnerReferences := [] }

/-- The constructor `newSyncSet`. -/
def newSyncSet (namespace_ : String) (dmsSecret : String) (clusterDeploymentName : String)
    (dmsi : DeadmansSnitchIntegration) : SyncSet :=
  { Name := dmsSecret
    Namespace := namespace_
    ClusterDeploymentRefs := [clusterDeploymentName]
    ResourceApplyMode := SyncResourceApplyMode
    Secrets := [{ SourceRef := { Name := dmsSecret, Namespace := namespace_ }
                  TargetRef := { Name := dmsi.Spec.TargetSecretRef.Name
                                 Namespace := dmsi.Spec.TargetSecretRef.Namespace } }]
    OwnerReferences := [] }

/-- Modelled from the spec: `dmsclient.NewSnitch`, not part of the controller file; a
monitor description with the given name, tags, interval and alert type. -/
def NewSnitch (name : String) (tags : List String) (interval : String) (alertType : String) :
    Snitch :=
  { Name := name, Token := 0, Tags := tags, Notes := "", Status := "", CheckInURL := ""
    Interval := interval, AlertType := alertType }

/-- The owner reference `controllerutil.SetControllerReference` computes for a
ClusterDeployment owner; it fails when the owner's kind is not registered with the
scheme. -/
def controllerReference (owner : ClusterDeployment) (scheme : Scheme) :
    Except Err OwnerReference :=
  if scheme.kinds.contains "ClusterDeployment" then
    Except.ok { Kind := "ClusterDeployment", Name := owner.Name, UID := owner.UID
                Controller := true }
  else Except.error (Err.other "no kind is registered for the type ClusterDeployment")

/-! ## Collaborators, calls and the log of issued calls -/

/-- One call issued by the controller together with its outcome. -/
inductive Event where
  | getDMSI (key : NamespacedName) (err : Option Err)
  | loadSecretData (name : String) (namespace_ : String) (key : String) (err : Option Err)
  | listClusterDeployments (selector : Option Selector) (err : Option Err)
  | getSecret (key : NamespacedName) (err : Option Err)
  | getSyncSet (key : NamespacedName) (err : Option Err)
  | createSecret (obj : Secret) (err : Option Err)
  | createSyncSet (obj : SyncSet) (err : Option Err)
  | deleteSecret (key : NamespacedName) (err : Option Err)
  | deleteSyncSet (key : NamespacedName) (err : Option Err)
  | patchClusterDeployment (obj : ClusterDeployment) (err : Option Err)
  | updateDMSI (obj : DeadmansSnitchIntegration) (err : Option Err)
  | findSnitchesByName (name : String) (found : List Snitch) (err : Option Err)
  | snitchCreate (newSnitch : Snitch) (err : Option Err)
  | snitchDelete (token : Nat) (deleted : Bool) (err : Option Err)
  | snitchCheckIn (s : Snitch) (err : Option Err)
deriving DecidableEq, Repr

/-- The monitor-service client `dmsclient.Client`: each operation reads and updates
the collaborator state and returns what the Go method returns. -/
structure DmsClient (σ : Type) where
  FindSnitchesByName : String → σ → (List Snitch × Option Err) × σ
  Create : Snitch → σ → (Snitch × Option Err) × σ
  CheckIn : Snitch → σ → Option Err × σ
  Delete : Nat → σ → (Bool × Option Err) × σ

/-- The object-store client `client.Client`, one field per kind of call the controller
and its helpers issue. `LoadSecretData` is the credential lookup of package `utils`. -/
structure K8sClient (σ : Type) where
  GetDMSI : NamespacedName → σ → (DeadmansSnitchIntegration × Option Err) × σ
  LoadSecretData : String → String → String → σ → (String × Option Err) × σ
  ListClusterDeployments : Option Selector → σ → (List ClusterDeployment × Option Err) × σ
  GetSecret : NamespacedName → σ → Option Err × σ
  GetSyncSet : NamespacedName → σ → Option Err × σ
  CreateSecret : Secret → σ → Option Err × σ
  CreateSyncSet : SyncSet → σ → Option Err × σ
  DeleteSecret : NamespacedName → σ → Option Err × σ
  DeleteSyncSet : NamespacedName → σ → Option Err × σ
  PatchClusterDeployment : ClusterDeployment → ClusterDeployment → σ → Option Err × σ
  UpdateDMSI : DeadmansSnitchIntegration → σ → Option Err × σ

/-- The reconciler `ReconcileDeadmansSnitchIntegration`: the object-store client, the
scheme and the constructor of the monitor-service client. -/
structure ReconcileDeadmansSnitchIntegration (σ : Type) where
  client : K8sClient σ
  scheme : Scheme
  dmsclient : String → DmsClient σ

/-- The result of running a piece of the controller: the returned value, the
collaborator state afterwards and the calls issued, oldest first. -/
structure Res (σ α : Type) where
  val : α
  world : σ
  log : List Event

/-- A piece of the controller: a function of the collaborator state. -/
def Op (σ α : Type) : Type := σ → Res σ α

/-- Return a value without issuing a call. -/
def Op.pure {σ α : Type} (a : α) : Op σ α := fun w => ⟨a, w, []⟩

/-- Run one piece after another; the logs are concatenated. -/
def Op.bind {σ α β : Type} (m : Op σ α) (f : α → Op σ β) : Op σ β := fun w =>
  ⟨(f (m w).val (m w).world).val, (f (m w).val (m w).world).world,
    (m w).log ++ (f (m w).val (m w).world).log⟩

instance {σ : Type} : Monad (Op σ) where
  pure := Op.pure
  bind := Op.bind

/-- Issue one call: run the collaborator and record the call with its outcome. -/
def call {σ α : Type} (f : σ → α × σ) (ev : α → Event) : Op σ α := fun w =>
  ⟨(f w).1, (f w).2, [ev (f w).1]⟩

/-- The outcome of a loop or of a loop body: fall through to what follows, or make
the enclosing function return the given error value (which may be nil). -/
inductive Ctl where
  | next
  | ret (err : Option Err)
deriving DecidableEq, Repr

section Controller

variable {σ : Type}

/-! ## Object-store and monitor-service calls -/

/-- The call `r.client.Get` for the intent. -/
def getDMSI (r : ReconcileDeadmansSnitchIntegration σ) (key : NamespacedName) :
    Op σ (DeadmansSnitchIntegration × Option Err) :=
  call (r.client.GetDMSI key) (fun x => Event.getDMSI key x.2)

/-- The call `utils.LoadSecretData`. -/
def LoadSecretData (r : ReconcileDeadmansSnitchIntegration σ) (name namespace_ key : String) :
    Op σ (String × Option Err) :=
  call (r.client.LoadSecretData name namespace_ key)
    (fun x => Event.loadSecretData name namespace_ key x.2)

/-- The call `r.client.List` for ClusterDeployments. -/
def listClusterDeployments (r : ReconcileDeadmansSnitchIntegration σ)
    (selector : Option Selector) : Op σ (List ClusterDeployment × Option Err) :=
  call (r.client.ListClusterDeployments selector)
    (fun x => Event.listClusterDeployments selector x.2)

/-- The call `r.client.Get` for a secret. -/
def getSecret (r : ReconcileDeadmansSnitchIntegration σ) (key : NamespacedName) :
    Op σ (Option Err) :=
  call (r.client.GetSecret key) (fun x => Event.getSecret key x)

/-- The call `r.client.Get` for a SyncSet. -/
def getSyncSet (r : ReconcileDeadmansSnitchIntegration σ) (key : NamespacedName) :
    Op σ (Option Err) :=
  call (r.client.GetSyncSet key) (fun x => Event.getSyncSet key x)

/-- The call `r.client.Create` for a secret. -/
def createSecretObject (r : ReconcileDeadmansSnitchIntegration σ) (obj : Secret) :
    Op σ (Option Err) :=
  call (r.client.CreateSecret obj) (fun x => Event.createSecret obj x)

/-- The call `r.client.Create` for a SyncSet. -/
def createSyncSetObject (r : ReconcileDeadmansSnitchIntegration σ) (obj : SyncSet) :
    Op σ (Option Err) :=
  call (r.client.CreateSyncSet obj) (fun x => Event.createSyncSet obj x)

/-- The call `client.Delete` for a secret. -/
def deleteSecretObject (r : ReconcileDeadmansSnitchIntegration σ) (key : NamespacedName) :
    Op σ (Option Err) :=
  call (r.client.DeleteSecret key) (fun x => Event.deleteSecret key x)

/-- The call `client.Delete` for a SyncSet. -/
def deleteSyncSetObject (r : ReconcileDeadmansSnitchIntegration σ) (key : NamespacedName) :
    Op σ (Option Err) :=
  call (r.client.DeleteSyncSet key) (fun x => Event.deleteSyncSet key x)

/-- The call `r.client.Patch` for a ClusterDeployment, with the merge base. -/
def patchClusterDeployment (r : ReconcileDeadmansSnitchIntegration σ)
    (obj base : ClusterDeployment) : Op σ (Option Err) :=
  call (r.client.PatchClusterDeployment obj base) (fun x => Event.patchClusterDeployment obj x)

/-- The call `r.client.Update` for the intent. -/
def updateDMSI (r : ReconcileDeadmansSnitchIntegration σ) (obj : DeadmansSnitchIntegration) :
    Op σ (Option Err) :=
  call (r.client.UpdateDMSI obj) (fun x => Event.updateDMSI obj x)

/-- The call `dmsc.FindSnitchesByName`. -/
def FindSnitchesByName (dmsc : DmsClient σ) (name : String) : Op σ (List Snitch × Option Err) :=
  call (dmsc.FindSnitchesByName name) (fun x => Event.findSnitchesByName name x.1 x.2)

/-- The call `dmsc.Create`. -/
def snitchCreate (dmsc : DmsClient σ) (newSnitch : Snitch) : Op σ (Snitch × Option Err) :=
  call (dmsc.Create newSnitch) (fun x => Event.snitchCreate newSnitch x.2)

/-- The call `dmsc.CheckIn`. -/
def snitchCheckIn (dmsc : DmsClient σ) (s : Snitch) : Op σ (Option Err) :=
  call (dmsc.CheckIn s) (fun x => Event.snitchCheckIn s x)

/-- The call `dmsc.Delete`. -/
def snitchDelete (dmsc : DmsClient σ) (token : Nat) : Op σ (Bool × Option Err) :=
  call (dmsc.Delete token) (fun x => Event.snitchDelete token x.1 x.2)

/-- Modelled from the spec: `utils.DeleteSyncSet`, not part of the controller file;
deletes the SyncSet of the given name if present, absence is not an error. -/
def DeleteSyncSet (r : ReconcileDeadmansSnitchIntegration σ) (name namespace_ : String) :
    Op σ (Option Err) := do
  let err ← getSyncSet r ⟨namespace_, name⟩
  match err with
  | some e => if IsNotFound (some e) then pure none else pure (some e)
  | none =>
    let err ← deleteSyncSetObject r ⟨namespace_, name⟩
    if IsNotFound err then pure none else pure err

/-- Modelled from the spec: `utils.DeleteRefSecret`, not part of the controller file;
deletes the secret of the given name if present, absence is not an error. -/
def DeleteRefSecret (r : ReconcileDeadmansSnitchIntegration σ) (name namespace_ : String) :
    Op σ (Option Err) := do
  let err ← getSecret r ⟨namespace_, name⟩
  match err with
  | some e => if IsNotFound (some e) then pure none else pure (some e)
  | none =>
    let err ← deleteSecretObject r ⟨namespace_, name⟩
    if IsNotFound err then pure none else pure err

/-- The zero value of `dmsclient.Snitch` (a declared, unassigned variable). -/
def Snitch.zero : Snitch :=
  { Name := "", Token := 0, Tags := [], Notes := "", Status := "", CheckInURL := ""
    Interval := "", AlertType := "" }

/-- The call `controllerutil.SetControllerReference(&cd, obj, r.scheme)` on the owner
references of `obj`: it fails when the owner kind is unknown to the scheme or when the
object already has another controller, and records the owner otherwise. -/
def SetControllerReference (owner : ClusterDeployment) (refs : List OwnerReference)
    (scheme : Scheme) : Except Err (List OwnerReference) :=
  match controllerReference owner scheme with
  | Except.error e => Except.error e
  | Except.ok ref =>
    if refs.any (fun x => x.Controller && x.UID != owner.UID) then
      Except.error (Err.other "object is already owned by another controller")
    else Except.ok (refs.filter (fun x => x.UID != owner.UID) ++ [ref])

/-! ## The controller -/

/-- The function `getMatchingClusterDeployment`: the ClusterDeployments the store lists
for the intent's selector, without those an exclusion pair skips. -/
def getMatchingClusterDeployment (r : ReconcileDeadmansSnitchIntegration σ)
    (dmsi : DeadmansSnitchIntegration) : Op σ (List ClusterDeployment × Option Err) :=
  match LabelSelectorAsSelector dmsi.Spec.ClusterDeploymentSelector with
  | Except.error e => pure ([], some e)
  | Except.ok selector => do
    let matchingClusterDeployments ← listClusterDeployments r (some selector)
    let matchedClusterDeployments :=
      if dmsi.Spec.ClusterDeploymentAnnotationsToSkip.length > 0 then
        matchingClusterDeployments.1.filter (fun cd =>
          !shouldSkipClusterDeployment dmsi.Spec.ClusterDeploymentAnnotationsToSkip cd)
      else matchingClusterDeployments.1
    pure (matchedClusterDeployments, matchingClusterDeployments.2)

/-- The function `getAllClusterDeployment`. -/
def getAllClusterDeployment (r : ReconcileDeadmansSnitchIntegration σ) :
    Op σ (List ClusterDeployment × Option Err) :=
  listClusterDeployments r none

/-- The function `dmsAddFinalizer`. It mutates both objects through their pointers:
the objects as they are when the function returns are part of the result. -/
def dmsAddFinalizer (r : ReconcileDeadmansSnitchIntegration σ)
    (dmsi : DeadmansSnitchIntegration) (clusterdeployment : ClusterDeployment) :
    Op σ ((DeadmansSnitchIntegration × ClusterDeployment) × Option Err) := do
  let deadMansSnitchFinalizer := DeadMansSnitchFinalizerPrefix ++ dmsi.Name
  let p ←
    (if !HasFinalizer clusterdeployment.Finalizers deadMansSnitchFinalizer then do
      let baseToPatch := clusterdeployment
      let patched : ClusterDeployment :=
        { clusterdeployment with
          Finalizers := AddFinalizer clusterdeployment.Finalizers deadMansSnitchFinalizer }
      let err ← patchClusterDeployment r patched baseToPatch
      pure (patched, err)
    else pure (clusterdeployment, none) : Op σ (ClusterDeployment × Option Err))
  match p.2 with
  | some e => pure ((dmsi, p.1), some e)
  | none =>
    if !HasFinalizer dmsi.Finalizers deadMansSnitchFinalizer then do
      let updated : DeadmansSnitchIntegration :=
        { dmsi with Finalizers := AddFinalizer dmsi.Finalizers deadMansSnitchFinalizer }
      let err ← updateDMSI r updated
      pure ((updated, p.1), err)
    else pure ((dmsi, p.1), none)

/-- The notes `createSnitch` writes on a new monitor. -/
def snitchNotes (clusterID : String) : String :=
  "```" ++ ("cluster_id: " ++ clusterID ++
    "\\nrunbook: https://github.com/openshift/ops-sop/blob/master/v4/alerts/cluster_has_gone_missing.md")
    ++ "```"

/-- The function `createSnitch`. -/
def createSnitch (r : ReconcileDeadmansSnitchIntegration σ) (cfg : Config)
    (dmsi : DeadmansSnitchIntegration) (cd : ClusterDeployment) (dmsc : DmsClient σ) :
    Op σ (Option Err) :=
  match (getClusterID cd cfg.IsFedramp).2 with
  | some e => pure (some e)
  | none => do
    let clusterID := (getClusterID cd cfg.IsFedramp).1
    let snitchName := getSnitchName cd dmsi.Spec.SnitchNamePostFix cfg.IsFedramp
    let ssName := cfg.SecretName cd.Spec.ClusterName dmsi.Spec.SnitchNamePostFix
    let err ← getSyncSet r ⟨cd.Namespace, ssName⟩
    if err.isSome && IsNotFound err then do
      let found ← FindSnitchesByName dmsc snitchName
      match found.2 with
      | some e => pure (some e)
      | none =>
        let snitches := found.1
        let created ←
          (if snitches.length ≤ 0 then do
            let newSnitch := NewSnitch snitchName dmsi.Spec.Tags "15_minute" "basic"
            let newSnitch := { newSnitch with Notes := snitchNotes clusterID }
            snitchCreate dmsc newSnitch
          else pure (Snitch.zero, none) : Op σ (Snitch × Option Err))
        match created.2 with
        | some e => pure (some e)
        | none =>
          let snitch := if snitches.length > 0 then snitches.headD Snitch.zero else created.1
          let ReSnitches ← FindSnitchesByName dmsc snitchName
          match ReSnitches.2 with
          | some e => pure (some e)
          | none =>
            if ReSnitches.1.length ≤ 0 then pure ReSnitches.2
            else if (ReSnitches.1.headD Snitch.zero).Status = "pending" then do
              let err ← snitchCheckIn dmsc snitch
              match err with
              | some e => pure (some e)
              | none => pure none
            else pure none
    else pure none

/-- The function `snitchResourcesExist`: whether the secret exists, whether the SyncSet
exists, and the error of a failed lookup. -/
def snitchResourcesExist (r : ReconcileDeadmansSnitchIntegration σ) (cfg : Config)
    (dmsi : DeadmansSnitchIntegration) (cd : ClusterDeployment) :
    Op σ (Bool × Bool × Option Err) := do
  let dmsSecret := cfg.SecretName cd.Spec.ClusterName dmsi.Spec.SnitchNamePostFix
  let err ← getSecret r ⟨cd.Namespace, dmsSecret⟩
  if err.isSome && !IsNotFound err then pure (false, false, err)
  else do
    let secretExist := !IsNotFound err
    let err ← getSyncSet r ⟨cd.Namespace, dmsSecret⟩
    if err.isSome && !IsNotFound err then pure (secretExist, false, err)
    else
      let syncSetExist := !IsNotFound err
      pure (secretExist, syncSetExist, none)

/-- The loop of `createSecret` over the monitors found: one secret is built and
created per monitor; the first failure makes `createSecret` return. -/
def createSecretLoop (r : ReconcileDeadmansSnitchIntegration σ) (cfg : Config)
    (cd : ClusterDeployment) (dmsSecret : String) : List Snitch → Op σ Ctl
  | [] => pure Ctl.next
  | CheckInURL :: rest =>
    let newdmsSecret := newDMSSecret cfg cd.Namespace dmsSecret CheckInURL.CheckInURL
    match SetControllerReference cd newdmsSecret.OwnerReferences r.scheme with
    | Except.error e => pure (Ctl.ret (some e))
    | Except.ok refs => do
      let err ← createSecretObject r { newdmsSecret with OwnerReferences := refs }
      match err with
      | some e => pure (Ctl.ret (some e))
      | none => createSecretLoop r cfg cd dmsSecret rest

/-- The function `createSecret`. -/
def createSecret (r : ReconcileDeadmansSnitchIntegration σ) (cfg : Config)
    (dmsi : DeadmansSnitchIntegration) (dmsc : DmsClient σ) (cd : ClusterDeployment) :
    Op σ (Option Err) := do
  let dmsSecret := cfg.SecretName cd.Spec.ClusterName dmsi.Spec.SnitchNamePostFix
  let err ← getSecret r ⟨cd.Namespace, dmsSecret⟩
  if err.isSome && !IsNotFound err then pure err
  else if IsNotFound err then do
    let snitchName := getSnitchName cd dmsi.Spec.SnitchNamePostFix cfg.IsFedramp
    let ReSnitches ← FindSnitchesByName dmsc snitchName
    match ReSnitches.2 with
    | some e => pure (some e)
    | none =>
      let c ← createSecretLoop r cfg cd dmsSecret ReSnitches.1
      match c with
      | Ctl.ret e => pure e
      | Ctl.next => pure none
  else pure none

/-- The function `createSyncset`. -/
def createSyncset (r : ReconcileDeadmansSnitchIntegration σ) (cfg : Config)
    (dmsi : DeadmansSnitchIntegration) (cd : ClusterDeployment) : Op σ (Option Err) := do
  let ssName := cfg.SecretName cd.Spec.ClusterName dmsi.Spec.SnitchNamePostFix
  let err ← getSyncSet r ⟨cd.Namespace, ssName⟩
  if IsNotFound err then
    let newSS := newSyncSet cd.Namespace ssName cd.Name dmsi
    match SetControllerReference cd newSS.OwnerReferences r.scheme with
    | Except.error e => pure (some e)
    | Except.ok refs => do
      let err ← createSyncSetObject r { newSS with OwnerReferences := refs }
      match err with
      | some e => pure (some e)
      | none => pure none
  else pure none

/-- The loop of `deleteDMSClusterDeployment` over the monitors found: each is deleted
by its token; when a delete reports failure or an error the function returns the error
value of that call. -/
def deleteSnitches (dmsc : DmsClient σ) : List Snitch → Op σ Ctl
  | [] => pure Ctl.next
  | s :: rest => do
    let d ← snitchDelete dmsc s.Token
    if !d.1 || d.2.isSome then pure (Ctl.ret d.2)
    else deleteSnitches dmsc rest

/-- The function `deleteDMSClusterDeployment`. It removes the finalizer from the object
behind the pointer before patching: the object as it is when the function returns is
part of the result. -/
def deleteDMSClusterDeployment (r : ReconcileDeadmansSnitchIntegration σ) (cfg : Config)
    (dmsi : DeadmansSnitchIntegration) (clusterDeployment : ClusterDeployment)
    (dmsc : DmsClient σ) : Op σ (ClusterDeployment × Option Err) := do
  let deadMansSnitchFinalizer := DeadMansSnitchFinalizerPrefix ++ dmsi.Name
  let snitchName := getSnitchName clusterDeployment dmsi.Spec.SnitchNamePostFix cfg.IsFedramp
  let found ← FindSnitchesByName dmsc snitchName
  match found.2 with
  | some e => pure (clusterDeployment, some e)
  | none =>
    let c ← deleteSnitches dmsc found.1
    match c with
    | Ctl.ret e => pure (clusterDeployment, e)
    | Ctl.next =>
      let dmsSecret :=
        cfg.SecretName clusterDeployment.Spec.ClusterName dmsi.Spec.SnitchNamePostFix
      let err ← DeleteSyncSet r dmsSecret clusterDeployment.Namespace
      match err with
      | some e => pure (clusterDeployment, some e)
      | none =>
        let err ← DeleteRefSecret r dmsSecret clusterDeployment.Namespace
        match err with
        | some e => pure (clusterDeployment, some e)
        | none =>
          if HasFinalizer clusterDeployment.Finalizers deadMansSnitchFinalizer then do
            let baseToPatch := clusterDeployment
            let patched : ClusterDeployment :=
              { clusterDeployment with
                Finalizers := DeleteFinalizer clusterDeployment.Finalizers deadMansSnitchFinalizer }
            let err ← patchClusterDeployment r patched baseToPatch
            match err with
            | some e => pure (patched, some e)
            | none => pure (patched, none)
          else pure (clusterDeployment, none)

/-- The loop of the deletion branch of `Reconcile`: every listed ClusterDeployment that
carries the intent's finalizer is torn down; the first error makes `Reconcile` return. -/
def teardownGuarded (r : ReconcileDeadmansSnitchIntegration σ) (cfg : Config)
    (dmsi : DeadmansSnitchIntegration) (dmsc : DmsClient σ) (deadMansSnitchFinalizer : String) :
    List ClusterDeployment → Op σ Ctl
  | [] => pure Ctl.next
  | clusterdeployment :: rest =>
    if HasFinalizer clusterdeployment.Finalizers deadMansSnitchFinalizer then do
      let d ← deleteDMSClusterDeployment r cfg dmsi clusterdeployment dmsc
      match d.2 with
      | some e => pure (Ctl.ret (some e))
      | none => teardownGuarded r cfg dmsi dmsc deadMansSnitchFinalizer rest
    else teardownGuarded r cfg dmsi dmsc deadMansSnitchFinalizer rest

/-- The body of the convergence loop of `Reconcile` for one listed ClusterDeployment.
The intent is shared by all iterations through its pointer: the intent as the body
leaves it is part of the result. `Ctl.next` stands for going on with the next
ClusterDeployment. -/
def reconcileClusterDeployment (r : ReconcileDeadmansSnitchIntegration σ) (cfg : Config)
    (dmsc : DmsClient σ) (matchingClusterDeployments : List ClusterDeployment)
    (deadMansSnitchFinalizer : String) (dmsi : DeadmansSnitchIntegration)
    (clusterdeployment : ClusterDeployment) : Op σ (DeadmansSnitchIntegration × Ctl) :=
  let clusterMatched :=
    matchingClusterDeployments.any (fun matchingClusterDeployment =>
      clusterdeployment.UID == matchingClusterDeployment.UID)
  if !clusterMatched || clusterdeployment.DeletionTimestamp.isSome then
    if HasFinalizer clusterdeployment.Finalizers deadMansSnitchFinalizer then do
      let d ← deleteDMSClusterDeployment r cfg dmsi clusterdeployment dmsc
      match d.2 with
      | some e => pure (dmsi, Ctl.ret (some e))
      | none => pure (dmsi, Ctl.next)
    else pure (dmsi, Ctl.next)
  else if !clusterdeployment.Spec.Installed then pure (dmsi, Ctl.next)
  else do
    let a ← dmsAddFinalizer r dmsi clusterdeployment
    let dmsi := a.1.1
    let clusterdeployment := a.1.2
    match a.2 with
    | some e => pure (dmsi, Ctl.ret (some e))
    | none =>
      let x ← snitchResourcesExist r cfg dmsi clusterdeployment
      let secretExist := x.1
      let syncSetExist := x.2.1
      match x.2.2 with
      | some e => pure (dmsi, Ctl.ret (some e))
      | none =>
        let specIsHibernating := clusterdeployment.Spec.PowerState == HibernatingClusterPowerState
        if specIsHibernating then
          if secretExist || syncSetExist then do
            let d ← deleteDMSClusterDeployment r cfg dmsi clusterdeployment dmsc
            match d.2 with
            | some e => pure (dmsi, Ctl.ret (some e))
            | none => pure (dmsi, Ctl.next)
          else pure (dmsi, Ctl.next)
        else if !secretExist || !syncSetExist then do
          let err ← createSnitch r cfg dmsi clusterdeployment dmsc
          match err with
          | some e => pure (dmsi, Ctl.ret (some e))
          | none =>
            let err ← createSecret r cfg dmsi dmsc clusterdeployment
            match err with
            | some e => pure (dmsi, Ctl.ret (some e))
            | none =>
              let err ← createSyncset r cfg dmsi clusterdeployment
              match err with
              | some e => pure (dmsi, Ctl.ret (some e))
              | none => pure (dmsi, Ctl.next)
        else pure (dmsi, Ctl.next)

/-- The convergence loop of `Reconcile` over all listed ClusterDeployments. -/
def reconcileClusterDeployments (r : ReconcileDeadmansSnitchIntegration σ) (cfg : Config)
    (dmsc : DmsClient σ) (matchingClusterDeployments : List ClusterDeployment)
    (deadMansSnitchFinalizer : String) (dmsi : DeadmansSnitchIntegration) :
    List ClusterDeployment → Op σ (DeadmansSnitchIntegration × Ctl)
  | [] => pure (dmsi, Ctl.next)
  | clusterdeployment :: rest => do
    let b ← reconcileClusterDeployment r cfg dmsc matchingClusterDeployments
      deadMansSnitchFinalizer dmsi clusterdeployment
    match b.2 with
    | Ctl.ret e => pure (b.1, Ctl.ret e)
    | Ctl.next =>
      reconcileClusterDeployments r cfg dmsc matchingClusterDeployments
        deadMansSnitchFinalizer b.1 rest

/-- The function `Reconcile`; the returned `reconcile.Result` is always empty, the
result here is the returned error. -/
def Reconcile (r : ReconcileDeadmansSnitchIntegration σ) (cfg : Config)
    (request : NamespacedName) : Op σ (Option Err) := do
  let g ← getDMSI r request
  let dmsi := g.1
  match g.2 with
  | some e => if IsNotFound (some e) then pure none else pure (some e)
  | none =>
    let deadMansSnitchFinalizer := DeadMansSnitchFinalizerPrefix ++ dmsi.Name
    let k ← LoadSecretData r dmsi.Spec.DmsAPIKeySecretRef.Name
      dmsi.Spec.DmsAPIKeySecretRef.Namespace deadMansSnitchAPISecretKey
    match k.2 with
    | some e => pure (some e)
    | none =>
      let dmsc := r.dmsclient k.1
      let m ← getMatchingClusterDeployment r dmsi
      match m.2 with
      | some e => pure (some e)
      | none =>
        let matchingClusterDeployments := m.1
        let a ← getAllClusterDeployment r
        match a.2 with
        | some e => pure (some e)
        | none =>
          let allClusterDeployments := a.1
          if dmsi.DeletionTimestamp.isSome then do
            let c ← teardownGuarded r cfg dmsi dmsc deadMansSnitchFinalizer allClusterDeployments
            match c with
            | Ctl.ret e => pure e
            | Ctl.next =>
              if HasFinalizer dmsi.Finalizers deadMansSnitchFinalizer then do
                let updated : DeadmansSnitchIntegration :=
                  { dmsi with Finalizers := DeleteFinalizer dmsi.Finalizers deadMansSnitchFinalizer }
                let err ← updateDMSI r updated
                match err with
                | some e => pure (some e)
                | none => pure none
              else pure none
          else do
            let c ← reconcileClusterDeployments r cfg dmsc matchingClusterDeployments
              deadMansSnitchFinalizer dmsi allClusterDeployments
            match c.2 with
            | Ctl.ret e => pure e
            | Ctl.next => pure none

end Controller

/-! ## A concrete object store and monitor service -/

/-- The state of the collaborators: the objects of the store by kind and the monitors
of the service. A monitor's token is its position in `snitches`; a deleted monitor
leaves `none` behind, so tokens are never reused. -/
structure World where
  dmsis : List DeadmansSnitchIntegration
  cds : List ClusterDeployment
  secrets : List Secret
  syncsets : List SyncSet
  snitches : List (Option Snitch)
deriving DecidableEq, Repr

/-- The zero value of the intent (what a failed `Get` leaves in the object). -/
def DeadmansSnitchIntegration.zero : DeadmansSnitchIntegration :=
  { Name := "", Namespace := "", DeletionTimestamp := none, Finalizers := []
    Spec := { DmsAPIKeySecretRef := ⟨"", ""⟩, ClusterDeploymentSelector := ⟨[], []⟩
              ClusterDeploymentAnnotationsToSkip := [], SnitchNamePostFix := "", Tags := []
              TargetSecretRef := ⟨"", ""⟩ } }

/-- The key of a stored secret. -/
def Secret.key (s : Secret) : NamespacedName := ⟨s.Namespace, s.Name⟩

/-- The key of a stored SyncSet. -/
def SyncSet.key (s : SyncSet) : NamespacedName := ⟨s.Namespace, s.Name⟩

/-- The key of a stored ClusterDeployment. -/
def ClusterDeployment.key (cd : ClusterDeployment) : NamespacedName := ⟨cd.Namespace, cd.Name⟩

/-- The key of a stored intent. -/
def DeadmansSnitchIntegration.key (d : DeadmansSnitchIntegration) : NamespacedName :=
  ⟨d.Namespace, d.Name⟩

/-- Whether a secret of the given key is stored. -/
def World.hasSecret (w : World) (key : NamespacedName) : Bool :=
  w.secrets.any (fun s => s.key == key)

/-- Whether a SyncSet of the given key is stored. -/
def World.hasSyncSet (w : World) (key : NamespacedName) : Bool :=
  w.syncsets.any (fun s => s.key == key)

/-- The live monitors of the given name among the entries from position `i` on, each
with its token. -/
def findFrom (name : String) : Nat → List (Option Snitch) → List Snitch
  | _, [] => []
  | i, none :: l => findFrom name (i + 1) l
  | i, some d :: l =>
    if d.Name = name then { d with Token := i } :: findFrom name (i + 1) l
    else findFrom name (i + 1) l

/-- The live monitors of the given name. -/
def World.findSnitches (w : World) (name : String) : List Snitch :=
  findFrom name 0 w.snitches

/-- The faithful `Get` of the intent. -/
def World.GetDMSI (key : NamespacedName) (w : World) :
    (DeadmansSnitchIntegration × Option Err) × World :=
  match w.dmsis.find? (fun d => d.key == key) with
  | some d => ((d, none), w)
  | none => ((DeadmansSnitchIntegration.zero, some Err.notFound), w)

/-- The faithful credential lookup: the named key of the referenced secret; an absent
secret or key is an error. -/
def World.LoadSecretData (name namespace_ key : String) (w : World) :
    (String × Option Err) × World :=
  match w.secrets.find? (fun s => s.key == ⟨namespace_, name⟩) with
  | none => (("", some Err.notFound), w)
  | some s =>
    match s.Data.lookup key with
    | none => (("", some (Err.other "secret does not contain the key")), w)
    | some v => ((v, none), w)

/-- The faithful `List`: all stored ClusterDeployments, or those whose labels satisfy
the selector. -/
def World.ListClusterDeployments (selector : Option Selector) (w : World) :
    (List ClusterDeployment × Option Err) × World :=
  match selector with
  | none => ((w.cds, none), w)
  | some sel => ((w.cds.filter (fun cd => sel.Matches cd.Labels), none), w)

/-- The faithful `Get` of a secret. -/
def World.GetSecret (key : NamespacedName) (w : World) : Option Err × World :=
  (if w.hasSecret key then none else some Err.notFound, w)

/-- The faithful `Get` of a SyncSet. -/
def World.GetSyncSet (key : NamespacedName) (w : World) : Option Err × World :=
  (if w.hasSyncSet key then none else some Err.notFound, w)

/-- The faithful `Create` of a secret. -/
def World.CreateSecret (obj : Secret) (w : World) : Option Err × World :=
  if w.hasSecret obj.key then (some Err.alreadyExists, w)
  else (none, { w with secrets := w.secrets ++ [obj] })

/-- The faithful `Create` of a SyncSet. -/
def World.CreateSyncSet (obj : SyncSet) (w : World) : Option Err × World :=
  if w.hasSyncSet obj.key then (some Err.alreadyExists, w)
  else (none, { w with syncsets := w.syncsets ++ [obj] })

/-- The faithful `Delete` of a secret. -/
def World.DeleteSecret (key : NamespacedName) (w : World) : Option Err × World :=
  if w.hasSecret key then (none, { w with secrets := w.secrets.filter (fun s => s.key != key) })
  else (some Err.notFound, w)

/-- The faithful `Delete` of a SyncSet. -/
def World.DeleteSyncSet (key : NamespacedName) (w : World) : Option Err × World :=
  if w.hasSyncSet key then
    (none, { w with syncsets := w.syncsets.filter (fun s => s.key != key) })
  else (some Err.notFound, w)

/-- Whether a ClusterDeployment of the given key is stored. -/
def World.hasCD (w : World) (key : NamespacedName) : Bool :=
  w.cds.any (fun cd => cd.key == key)

/-- Whether an intent of the given key is stored. -/
def World.hasDMSI (w : World) (key : NamespacedName) : Bool :=
  w.dmsis.any (fun d => d.key == key)

/-- The effect of a merge patch on one stored ClusterDeployment: the finalizers, the
one field the controller changes between the base and the patched object, replace those
of the stored object of the same key. -/
def applyPatch (obj base : ClusterDeployment) (cd : ClusterDeployment) : ClusterDeployment :=
  if cd.key == obj.key && obj.Finalizers != base.Finalizers then
    { cd with Finalizers := obj.Finalizers }
  else cd

/-- The effect of an update on one stored intent: the stored object of the same key is
replaced. -/
def applyUpdate (obj : DeadmansSnitchIntegration) (d : DeadmansSnitchIntegration) :
    DeadmansSnitchIntegration :=
  if d.key == obj.key then obj else d

/-- The faithful merge `Patch` of a ClusterDeployment. -/
def World.PatchClusterDeployment (obj base : ClusterDeployment) (w : World) :
    Option Err × World :=
  if w.hasCD obj.key then (none, { w with cds := w.cds.map (applyPatch obj base) })
  else (some Err.notFound, w)

/-- The faithful `Update` of the intent. -/
def World.UpdateDMSI (obj : DeadmansSnitchIntegration) (w : World) : Option Err × World :=
  if w.hasDMSI obj.key then (none, { w with dmsis := w.dmsis.map (applyUpdate obj) })
  else (some Err.notFound, w)

/-- Whether a live monitor of the given name exists. -/
def World.hasSnitch (w : World) (name : String) : Bool :=
  w.snitches.any (fun o =>
    match o with
    | some d => d.Name == name
    | none => false)

/-- The faithful find-by-name. -/
def World.FindSnitchesByName (name : String) (w : World) : (List Snitch × Option Err) × World :=
  ((w.findSnitches name, none), w)

/-- The faithful create: the monitor is stored under a fresh token, pending, with a
check-in URL of its own. -/
def World.Create (newSnitch : Snitch) (w : World) : (Snitch × Option Err) × World :=
  let s : Snitch :=
    { newSnitch with
      Token := w.snitches.length
      Status := "pending"
      CheckInURL := "https://nosnch.in/" ++ toString w.snitches.length }
  ((s, none), { w with snitches := w.snitches ++ [some s] })

/-- The faithful check-in: a live monitor becomes active. -/
def World.CheckIn (s : Snitch) (w : World) : Option Err × World :=
  match w.snitches.getD s.Token none with
  | none => (some (Err.other "check-in failed"), w)
  | some d =>
    (none, { w with snitches := w.snitches.set s.Token (some { d with Status := "active" }) })

/-- The faithful delete-by-token: a live monitor is removed and reported deleted; an
unknown token is an error. -/
def World.Delete (token : Nat) (w : World) : (Bool × Option Err) × World :=
  match w.snitches.getD token none with
  | none => ((false, some (Err.other "Error, Status Code 404")), w)
  | some _ => ((true, none), { w with snitches := w.snitches.set token none })

/-- The registered kinds of the operator's scheme. -/
def operatorScheme : Scheme := ⟨["DeadmansSnitchIntegration", "ClusterDeployment", "SyncSet", "Secret"]⟩

/-- The faithful monitor-service client; the API key plays no role in it. -/
def faithfulDms : DmsClient World :=
  { FindSnitchesByName := World.FindSnitchesByName
    Create := World.Create
    CheckIn := World.CheckIn
    Delete := World.Delete }

/-- The reconciler over the faithful object store and monitor service. -/
def faithful : ReconcileDeadmansSnitchIntegration World :=
  { client :=
      { GetDMSI := World.GetDMSI
        LoadSecretData := World.LoadSecretData
        ListClusterDeployments := World.ListClusterDeployments
        GetSecret := World.GetSecret
        GetSyncSet := World.GetSyncSet
        CreateSecret := World.CreateSecret
        CreateSyncSet := World.CreateSyncSet
        DeleteSecret := World.DeleteSecret
        DeleteSyncSet := World.DeleteSyncSet
        PatchClusterDeployment := World.PatchClusterDeployment
        UpdateDMSI := World.UpdateDMSI }
    scheme := operatorScheme
    dmsclient := fun _ => faithfulDms }

/-! ## Failure injection -/

/-- What happens to one call: it goes through, it fails with an error and has no
effect, or (for a monitor delete) it reports "not deleted" without an error. -/
inductive Fault where
  | pass
  | fail (e : Err)
  | refuse
deriving DecidableEq, Repr

/-- One call under a schedule of faults, one entry per call, oldest first; calls beyond
the schedule go through. -/
def faulty {σ α : Type} (onFail : Err → α) (onRefuse : Option α) (f : σ → α × σ) :
    σ × List Fault → α × (σ × List Fault)
  | (w, []) => ((f w).1, ((f w).2, []))
  | (w, Fault.pass :: fs) => ((f w).1, ((f w).2, fs))
  | (w, Fault.fail e :: fs) => (onFail e, (w, fs))
  | (w, Fault.refuse :: fs) =>
    match onRefuse with
    | some a => (a, (w, fs))
    | none => ((f w).1, ((f w).2, fs))

/-- A monitor-service client under a schedule of faults. -/
def DmsClient.withFaults {σ : Type} (c : DmsClient σ) : DmsClient (σ × List Fault) :=
  { FindSnitchesByName := fun name => faulty (fun e => ([], some e)) none (c.FindSnitchesByName name)
    Create := fun s => faulty (fun e => (Snitch.zero, some e)) none (c.Create s)
    CheckIn := fun s => faulty (fun e => some e) none (c.CheckIn s)
    Delete := fun t => faulty (fun e => (false, some e)) (some (false, none)) (c.Delete t) }

/-- A reconciler whose collaborators follow a schedule of faults. -/
def ReconcileDeadmansSnitchIntegration.withFaults {σ : Type}
    (r : ReconcileDeadmansSnitchIntegration σ) :
    ReconcileDeadmansSnitchIntegration (σ × List Fault) :=
  { client :=
      { GetDMSI := fun k =>
          faulty (fun e => (DeadmansSnitchIntegration.zero, some e)) none (r.client.GetDMSI k)
        LoadSecretData := fun a b c =>
          faulty (fun e => ("", some e)) none (r.client.LoadSecretData a b c)
        ListClusterDeployments := fun s =>
          faulty (fun e => ([], some e)) none (r.client.ListClusterDeployments s)
        GetSecret := fun k => faulty (fun e => some e) none (r.client.GetSecret k)
        GetSyncSet := fun k => faulty (fun e => some e) none (r.client.GetSyncSet k)
        CreateSecret := fun o => faulty (fun e => some e) none (r.client.CreateSecret o)
        CreateSyncSet := fun o => faulty (fun e => some e) none (r.client.CreateSyncSet o)
        DeleteSecret := fun k => faulty (fun e => some e) none (r.client.DeleteSecret k)
        DeleteSyncSet := fun k => faulty (fun e => some e) none (r.client.DeleteSyncSet k)
        PatchClusterDeployment := fun o b =>
          faulty (fun e => some e) none (r.client.PatchClusterDeployment o b)
        UpdateDMSI := fun o => faulty (fun e => some e) none (r.client.UpdateDMSI o) }
    scheme := r.scheme
    dmsclient := fun key => (r.dmsclient key).withFaults }

/-! ## Vocabulary of the statements -/

/-- The calls of a SyncSet teardown that completed: the SyncSet was looked up and found
absent, or it was found and its deletion returned no error or "not found". -/
def syncSetTeardownDone (key : NamespacedName) (log : List Event) : Prop :=
  log = [Event.getSyncSet key (some Err.notFound)] ∨
    log = [Event.getSyncSet key none, Event.deleteSyncSet key none] ∨
    log = [Event.getSyncSet key none, Event.deleteSyncSet key (some Err.notFound)]

/-- The calls of a secret teardown that completed: the secret was looked up and found
absent, or it was found and its deletion returned no error or "not found". -/
def secretTeardownDone (key : NamespacedName) (log : List Event) : Prop :=
  log = [Event.getSecret key (some Err.notFound)] ∨
    log = [Event.getSecret key none, Event.deleteSecret key none] ∨
    log = [Event.getSecret key none, Event.deleteSecret key (some Err.notFound)]

/-- The calls `deleteDMSClusterDeployment` issues before it patches the resource leave
the part `π` of the collaborator state as it is. -/
def teardownCallsPreserve {σ β : Type} (r : ReconcileDeadmansSnitchIntegration σ)
    (dmsc : DmsClient σ) (π : σ → β) : Prop :=
  (∀ n s, π (dmsc.FindSnitchesByName n s).2 = π s) ∧
    (∀ t s, π (dmsc.Delete t s).2 = π s) ∧
    (∀ k s, π (r.client.GetSyncSet k s).2 = π s) ∧
    (∀ k s, π (r.client.DeleteSyncSet k s).2 = π s) ∧
    (∀ k s, π (r.client.GetSecret k s).2 = π s) ∧
    (∀ k s, π (r.client.DeleteSecret k s).2 = π s)

/-- Whether a call only reads: a lookup, a list or a find-by-name. -/
def Event.isRead : Event → Bool
  | Event.getDMSI _ _ => true
  | Event.loadSecretData _ _ _ _ => true
  | Event.listClusterDeployments _ _ => true
  | Event.getSecret _ _ => true
  | Event.getSyncSet _ _ => true
  | Event.findSnitchesByName _ _ _ => true
  | _ => false

/-- Whether a call is the creation of an external monitor. -/
def Event.isSnitchCreate : Event → Bool
  | Event.snitchCreate _ _ => true
  | _ => false

/-- Whether a call creates or deletes an external monitor, a secret or a SyncSet. -/
def Event.isMutation : Event → Bool
  | Event.snitchCreate _ _ => true
  | Event.snitchDelete _ _ _ => true
  | Event.createSecret _ _ => true
  | Event.createSyncSet _ _ => true
  | Event.deleteSecret _ _ => true
  | Event.deleteSyncSet _ _ => true
  | _ => false

/-- The namespaced name of the secret and of the SyncSet of an (intent, resource) pair. -/
def artifactKey (cfg : Config) (dmsi : DeadmansSnitchIntegration) (cd : ClusterDeployment) :
    NamespacedName :=
  ⟨cd.Namespace, cfg.SecretName cd.Spec.ClusterName dmsi.Spec.SnitchNamePostFix⟩

/-- The derived monitor name of an (intent, resource) pair. -/
def monitorName (cfg : Config) (dmsi : DeadmansSnitchIntegration) (cd : ClusterDeployment) :
    String :=
  getSnitchName cd dmsi.Spec.SnitchNamePostFix cfg.IsFedramp

/-- The monitors of a service after all live monitors of the given name are deleted. -/
def killNamed (name : String) (l : List (Option Snitch)) : List (Option Snitch) :=
  l.map (fun o =>
    match o with
    | some d => if d.Name = name then none else some d
    | none => none)

/-- A piece of the controller relates every state it is run on to the state it leaves. -/
structure Op.sat {σ α : Type} (R : σ → σ → Prop) (m : Op σ α) : Prop where
  run : ∀ w, R w (m w).world

/-- A ClusterDeployment without its finalizers: what the controller never changes. -/
def cdCore (cd : ClusterDeployment) : ClusterDeployment :=
  { cd with Finalizers := [] }

/-- An intent without its finalizers: what the controller never changes. -/
def dmsiCore (d : DeadmansSnitchIntegration) : DeadmansSnitchIntegration :=
  { d with Finalizers := [] }

/-- What a piece of the convergence of one resource may change between two states of
the faithful collaborators: the secret and the SyncSet of the given key, the monitors of
the given name, and the finalizers of the stored ClusterDeployments of the given key. -/
def Frame (k : NamespacedName) (n : String) (key : NamespacedName) (w w2 : World) : Prop :=
  (∀ k2, k2 ≠ k → w2.hasSecret k2 = w.hasSecret k2) ∧
    (∀ k2, k2 ≠ k → w2.hasSyncSet k2 = w.hasSyncSet k2) ∧
    (∀ n2, n2 ≠ n → w2.hasSnitch n2 = w.hasSnitch n2) ∧
    (∃ g : ClusterDeployment → ClusterDeployment, w2.cds = w.cds.map g ∧
      (∀ x, x.key ≠ key → g x = x) ∧ ∀ x, cdCore (g x) = cdCore x)

/-- A part of the state of the faithful collaborators is the same in two states. -/
def Keeps {β : Type} (π : World → β) (w w2 : World) : Prop :=
  π w2 = π w

/-- A test that holds in a state of the faithful collaborators holds in another. -/
def StaysTrue (p : World → Bool) (w w2 : World) : Prop :=
  p w = true → p w2 = true

/-- A piece of the controller returns, on every state, a value with the given property. -/
structure Op.yields {σ α : Type} (P : α → Prop) (m : Op σ α) : Prop where
  run : ∀ w, P (m w).val

/-- Whether the convergence loop treats a listed resource as one to release: it is not
in the matched set, or it is being deleted. -/
def unmanaged (matching : List ClusterDeployment) (cd : ClusterDeployment) : Bool :=
  !matching.any (fun m => cd.UID == m.UID) || cd.DeletionTimestamp.isSome

/-- Whether the artifacts of a managed, installed resource are such that its convergence
finds nothing to create or delete: for a hibernating resource neither the secret nor the
SyncSet exists; for any other the SyncSet exists and either the secret exists or there is
no live monitor to take a check-in URL from. -/
def settledArtifacts (cfg : Config) (dmsi : DeadmansSnitchIntegration) (cd : ClusterDeployment)
    (w : World) : Bool :=
  if cd.Spec.PowerState == HibernatingClusterPowerState then
    !w.hasSecret (artifactKey cfg dmsi cd) && !w.hasSyncSet (artifactKey cfg dmsi cd)
  else
    w.hasSyncSet (artifactKey cfg dmsi cd) &&
      (w.hasSecret (artifactKey cfg dmsi cd) || !w.hasSnitch (monitorName cfg dmsi cd))

/-- What the convergence of several resources may change between two states of the
faithful collaborators: the secrets and the SyncSets of the given keys, the monitors of
the given names, and the finalizers of the stored ClusterDeployments of the given keys. -/
def FrameOver (ks : List NamespacedName) (ns : List String) (keys : List NamespacedName)
    (w w2 : World) : Prop :=
  (∀ k2, k2 ∉ ks → w2.hasSecret k2 = w.hasSecret k2) ∧
    (∀ k2, k2 ∉ ks → w2.hasSyncSet k2 = w.hasSyncSet k2) ∧
    (∀ n2, n2 ∉ ns → w2.hasSnitch n2 = w.hasSnitch n2) ∧
    (∃ g : ClusterDeployment → ClusterDeployment, w2.cds = w.cds.map g ∧
      (∀ x, x.key ∉ keys → g x = x) ∧ ∀ x, cdCore (g x) = cdCore x)

/-- Whether a listed resource needs nothing from a pass: no stored ClusterDeployment of
its key carries the finalizer when it is to be released, and its artifacts are settled
when it is managed and installed. -/
def settled (cfg : Config) (matching : List ClusterDeployment) (f : String)
    (dmsi : DeadmansSnitchIntegration) (cd : ClusterDeployment) (w : World) : Prop :=
  if unmanaged matching cd then
    ∀ c ∈ w.cds, c.key = cd.key → HasFinalizer c.Finalizers f = false
  else cd.Spec.Installed = true → settledArtifacts cfg dmsi cd w = true

/-- The intent of the given key as the store holds it, without its finalizers. -/
def intentCore (req : NamespacedName) (w : World) : Option DeadmansSnitchIntegration :=
  (w.dmsis.find? (fun d => d.key == req)).map dmsiCore

/-- The stored intent of the given key is, up to its finalizers, the given one in the
second state when it is in the first. -/
def KeepsIntent (req : NamespacedName) (c : DeadmansSnitchIntegration) (w w2 : World) : Prop :=
  intentCore req w = some c → intentCore req w2 = some c

/-- Whether a call found a live monitor of the given name (a find-by-name that returned
at least one monitor and no error) or created one (a create of that name that returned
no error). -/
def Event.findsOrCreates (n : String) : Event → Bool
  | Event.findSnitchesByName m (_ :: _) none => m == n
  | Event.snitchCreate s none => s.Name == n
  | _ => false

/-- Every monitor create call in a list of calls comes right after a find-by-name of the
same name that returned no monitor and no error. -/
def createsAfterEmptyFind (log : List Event) : Prop :=
  ∀ l1 ns e l2, log = l1 ++ Event.snitchCreate ns e :: l2 →
    ∃ l0, l1 = l0 ++ [Event.findSnitchesByName ns.Name [] none]

/-- The calls a piece of the controller issues have, on every state, the given property. -/
structure Op.logs {σ α : Type} (P : List Event → Prop) (m : Op σ α) : Prop where
  run : ∀ w, P (m w).log

/-! ## Example objects -/

/-- An example configuration: normal mode, secrets named after the cluster. -/
def exampleConfig : Config :=
  { IsFedramp := false
    KeySnitchURL := "SNITCH_URL"
    SecretName := fun clusterName optionalPostFix =>
      if optionalPostFix = "" then clusterName ++ "-dms-secret"
      else clusterName ++ "-" ++ optionalPostFix ++ "-dms-secret" }

/-- An example intent: it selects `tier=prod` and skips `skip-dms=true`. -/
def exampleIntent : DeadmansSnitchIntegration :=
  { Name := "osd", Namespace := "dms", DeletionTimestamp := none, Finalizers := []
    Spec := { DmsAPIKeySecretRef := ⟨"api", "dms"⟩
              ClusterDeploymentSelector := ⟨[("tier", "prod")], []⟩
              ClusterDeploymentAnnotationsToSkip := [⟨"skip-dms", "true"⟩]
              SnitchNamePostFix := "", Tags := ["t"]
              TargetSecretRef := ⟨"dms-secret", "openshift-monitoring"⟩ } }

/-- The finalizer of the example intent. -/
def exampleFinalizer : String := DeadMansSnitchFinalizerPrefix ++ exampleIntent.Name

/-- The request for the example intent. -/
def exampleRequest : NamespacedName := ⟨"dms", "osd"⟩

/-- An example cluster: selected, installed, running. -/
def clusterA : ClusterDeployment :=
  { UID := "uid-a", Name := "a", Namespace := "uhc-a", Labels := [("tier", "prod")]
    Annotations := [], DeletionTimestamp := none, Finalizers := []
    Spec := { ClusterName := "a", BaseDomain := "example.com", Installed := true
              PowerState := "Running", ClusterMetadata := some ⟨"id-a"⟩ } }

/-- An example cluster: selected by its label, excluded by its annotation. -/
def clusterB : ClusterDeployment :=
  { UID := "uid-b", Name := "b", Namespace := "uhc-b", Labels := [("tier", "prod")]
    Annotations := [("skip-dms", "true")], DeletionTimestamp := none, Finalizers := []
    Spec := { ClusterName := "b", BaseDomain := "example.com", Installed := true
              PowerState := "Running", ClusterMetadata := some ⟨"id-b"⟩ } }

/-- An example cluster that the example intent does not select. -/
def clusterC : ClusterDeployment :=
  { UID := "uid-c", Name := "c", Namespace := "uhc-c", Labels := [("tier", "stage")]
    Annotations := [], DeletionTimestamp := none, Finalizers := []
    Spec := { ClusterName := "c", BaseDomain := "example.com", Installed := true
              PowerState := "Running", ClusterMetadata := some ⟨"id-c"⟩ } }

/-- The secret holding the API key of the example intent. -/
def apiKeySecret : Secret :=
  { Name := "api", Namespace := "dms", Type_ := "Opaque", Kind := "Secret", APIVersion := "v1"
    Data := [(deadMansSnitchAPISecretKey, "key")], OwnerReferences := [] }

/-- An example state: the intent, three clusters, no monitor and no artifact. -/
def exampleWorld : World :=
  { dmsis := [exampleIntent], cds := [clusterA, clusterB, clusterC], secrets := [apiKeySecret]
    syncsets := [], snitches := [] }


/-- The example intent while it is being deleted, still carrying its finalizer. -/
def deletingIntent : DeadmansSnitchIntegration :=
  { exampleIntent with DeletionTimestamp := some 1, Finalizers := [exampleFinalizer] }

/-- The example cluster `a` carrying the finalizer of the example intent. -/
def guardedClusterA : ClusterDeployment :=
  { clusterA with Finalizers := [exampleFinalizer] }

/-- A live monitor of the derived name of cluster `a`. -/
def monitorA : Snitch :=
  { Name := "a.example.com", Token := 0, Tags := ["t"], Notes := "", Status := "active"
    CheckInURL := "https://nosnch.in/0", Interval := "15_minute", AlertType := "basic" }

/-- The SyncSet of the example intent for cluster `a`. -/
def syncSetA : SyncSet := newSyncSet "uhc-a" "a-dms-secret" "a" exampleIntent

/-- The secret of the example intent for cluster `a`. -/
def secretA : Secret := newDMSSecret exampleConfig "uhc-a" "a-dms-secret" "https://nosnch.in/0"

/-- An example state: the intent is being deleted, cluster `a` is guarded and fully
provisioned (monitor, secret and SyncSet). -/
def deletingWorld : World :=
  { dmsis := [deletingIntent], cds := [guardedClusterA], secrets := [apiKeySecret, secretA]
    syncsets := [syncSetA], snitches := [some monitorA] }

/-- A schedule in which the sixth call of the pass, the monitor delete, reports
"not deleted" without an error. -/
def refusedDelete : List Fault :=
  [Fault.pass, Fault.pass, Fault.pass, Fault.pass, Fault.pass, Fault.refuse]

/-- An example state: the intent and cluster `a`, selected, installed and running,
with no monitor and no artifact yet. -/
def freshWorld : World :=
  { dmsis := [exampleIntent], cds := [clusterA], secrets := [apiKeySecret], syncsets := []
    snitches := [] }

/-- A schedule in which the ninth call of the pass, the SyncSet lookup of `createSnitch`,
fails with an error other than "not found". -/
def failedSyncSetLookup : List Fault :=
  [Fault.pass, Fault.pass, Fault.pass, Fault.pass, Fault.pass, Fault.pass, Fault.pass,
    Fault.pass, Fault.fail (Err.other "etcdserver: request timed out")]

/-- A schedule in which the last SyncSet lookup of the pass, made by `createSyncset`,
fails with an error other than "not found". -/
def failedLastSyncSetLookup : List Fault :=
  [Fault.pass, Fault.pass, Fault.pass, Fault.pass, Fault.pass, Fault.pass, Fault.pass,
    Fault.pass, Fault.pass, Fault.pass, Fault.pass, Fault.pass, Fault.pass, Fault.pass,
    Fault.pass, Fault.pass, Fault.fail (Err.other "etcdserver: request timed out")]

/-- An example state: cluster `a` has its SyncSet but neither a secret nor a monitor. -/
def orphanedSyncSetWorld : World := { freshWorld with syncsets := [syncSetA] }

/-- A second ClusterDeployment of cluster `a` in the namespace of the first, hibernating:
it has the artifact key and the derived monitor name of `clusterA`. -/
def hibernatingTwinA : ClusterDeployment :=
  { clusterA with UID := "uid-h", Name := "h"
                  Spec := { clusterA.Spec with PowerState := HibernatingClusterPowerState } }

/-- An example state: the hibernating twin is listed before cluster `a`; there is no
monitor and no artifact yet. -/
def twinWorld : World := { freshWorld with cds := [hibernatingTwinA, clusterA] }

/-- A second ClusterDeployment of cluster `a` in the namespace of the first, under another
base domain: it has the artifact key of `clusterA` and another derived monitor name. -/
def otherDomainTwinA : ClusterDeployment :=
  { clusterA with UID := "uid-o", Name := "o"
                  Spec := { clusterA.Spec with BaseDomain := "example.org" } }

/-- An example state: the twin under the other base domain is listed before cluster `a`;
there is no monitor and no artifact yet. -/
def otherDomainWorld : World := { freshWorld with cds := [otherDomainTwinA, clusterA] }

/-- The example cluster `a`, hibernating. -/
def hibernatingA : ClusterDeployment :=
  { clusterA with Spec := { clusterA.Spec with PowerState := HibernatingClusterPowerState } }

/-- An example state: cluster `a` is hibernating and still has its monitor, its secret and
its SyncSet. -/
def hibernatedWorld : World :=
  { dmsis := [exampleIntent], cds := [hibernatingA], secrets := [apiKeySecret, secretA]
    syncsets := [syncSetA], snitches := [some monitorA] }

/-- The state a pass leaves when it starts from `twinWorld`: both ClusterDeployments and
the intent carry the finalizer, and the monitor, the secret and the SyncSet of cluster `a`
exist. -/
def twinWorldConverged : World :=
  { dmsis := [{ exampleIntent with Finalizers := [exampleFinalizer] }]
    cds := [{ hibernatingTwinA with Finalizers := [exampleFinalizer] },
            { clusterA with Finalizers := [exampleFinalizer] }]
    secrets := [apiKeySecret,
      { secretA with OwnerReferences := [⟨"ClusterDeployment", "a", "uid-a", true⟩] }]
    syncsets := [{ syncSetA with OwnerReferences := [⟨"ClusterDeployment", "a", "uid-a", true⟩] }]
    snitches := [some { monitorA with Notes := snitchNotes "id-a" }] }

/-- A second live monitor of the derived name of cluster `a`, with a check-in URL of its
own. -/
def monitorA2 : Snitch :=
  { monitorA with Token := 1, CheckInURL := "https://nosnch.in/1" }

/-- An example state: cluster `a` has no secret and no SyncSet, and two live monitors of
its derived name exist. -/
def duplicateMonitorsWorld : World :=
  { freshWorld with snitches := [some monitorA, some monitorA2] }

/-- The example cluster `c` carrying the finalizer of the example intent. -/
def guardedClusterC : ClusterDeployment :=
  { clusterC with Finalizers := [exampleFinalizer] }

/-- A live monitor of the derived name of cluster `c`. -/
def monitorC : Snitch :=
  { Name := "c.example.com", Token := 0, Tags := ["t"], Notes := "", Status := "active"
    CheckInURL := "https://nosnch.in/0", Interval := "15_minute", AlertType := "basic" }

/-- The SyncSet of the example intent for cluster `c`. -/
def syncSetC : SyncSet := newSyncSet "uhc-c" "c-dms-secret" "c" exampleIntent

/-- The secret of the example intent for cluster `c`. -/
def secretC : Secret := newDMSSecret exampleConfig "uhc-c" "c-dms-secret" "https://nosnch.in/0"

/-- The example cluster `a` before its installation has finished. -/
def uninstalledA : ClusterDeployment :=
  { clusterA with Spec := { clusterA.Spec with Installed := false } }

/-- An example state: the intent is live; cluster `a` is selected and not installed;
cluster `b` is excluded and unguarded; cluster `c` is not selected, and is guarded and
fully provisioned (monitor, secret and SyncSet). -/
def staleWorld : World :=
  { dmsis := [exampleIntent], cds := [uninstalledA, clusterB, guardedClusterC]
    secrets := [apiKeySecret, secretC], syncsets := [syncSetC], snitches := [some monitorC] }

/-- The state `staleWorld` after cluster `c` has been released. -/
def staleWorldReleased : World :=
  { dmsis := [exampleIntent], cds := [uninstalledA, clusterB, clusterC]
    secrets := [apiKeySecret], syncsets := [], snitches := [none] }
/-! ## Reasoning about pieces of the controller -/

theorem bind_apply {σ α β : Type} (m : Op σ α) (f : α → Op σ β) (w : σ) :
    (m >>= f) w = ⟨(f (m w).val (m w).world).val, (f (m w).val (m w).world).world,
      (m w).log ++ (f (m w).val (m w).world).log⟩ := rfl

theorem pure_apply {σ α : Type} (a : α) (w : σ) : (pure a : Op σ α) w = ⟨a, w, []⟩ := rfl

theorem call_apply {σ α : Type} (f : σ → α × σ) (ev : α → Event) (w : σ) :
    call f ev w = ⟨(f w).1, (f w).2, [ev (f w).1]⟩ := rfl

/-! ## Name derivation -/

theorem splitOnChar_ne_nil (sep : Char) (l : List Char) : splitOnChar sep l ≠ [] := by
  induction l with
  | nil => simp [splitOnChar]
  | cons c cs ih =>
    unfold splitOnChar
    split
    · simp
    · split <;> simp

/-- The last segment of a split has no separator and ends the input; what precedes it
is empty, exactly when the split has one segment, or ends with a separator. -/
theorem splitOnChar_getLast (sep : Char) (l : List Char) :
    ∃ pre last, (splitOnChar sep l).getLast? = some last ∧ l = pre ++ last ∧ sep ∉ last ∧
      (pre = [] ∨ ∃ p, pre = p ++ [sep]) ∧ (pre = [] ↔ ∃ a, splitOnChar sep l = [a]) := by
  induction l with
  | nil => exact ⟨[], [], by simp [splitOnChar]⟩
  | cons c cs ih =>
    obtain ⟨pre, last, h1, h2, h3, h4, h5⟩ := ih
    unfold splitOnChar
    by_cases hc : c = sep
    · simp only [hc, if_true]
      refine ⟨sep :: pre, last, ?_, by simp [h2], h3, ?_, ?_⟩
      · cases hs : splitOnChar sep cs with
        | nil => exact absurd hs (splitOnChar_ne_nil sep cs)
        | cons a as => rw [hs] at h1; simpa using h1
      · rcases h4 with h4 | ⟨p, hp⟩
        · exact Or.inr ⟨[], by simp [h4]⟩
        · exact Or.inr ⟨sep :: p, by simp [hp]⟩
      · simp
        exact splitOnChar_ne_nil sep cs
    · simp only [hc, if_false]
      cases hs : splitOnChar sep cs with
      | nil => exact absurd hs (splitOnChar_ne_nil sep cs)
      | cons a as =>
        rw [hs] at h1 h5
        cases as with
        | nil =>
          simp at h1 h5
          subst h1 h5
          refine ⟨[], c :: a, by simp, by simp [h2], ?_, Or.inl rfl, by simp⟩
          simp
          exact ⟨fun h => hc h.symm, h3⟩
        | cons b bs =>
          have hpre : pre ≠ [] := by
            intro h
            have := h5.mp h
            simp at this
          refine ⟨c :: pre, last, ?_, by simp [h2], h3, ?_, by simp⟩
          · simpa using h1
          · rcases h4 with h4 | ⟨p, hp⟩
            · exact absurd h4 hpre
            · exact Or.inr ⟨c :: p, by simp [hp]⟩

theorem getInternalClusterID_last (cd : ClusterDeployment) :
    ∃ pre, cd.Namespace.data = pre ++ (getInternalClusterID cd).data ∧
      '-' ∉ (getInternalClusterID cd).data ∧ (pre = [] ∨ ∃ p, pre = p ++ ['-']) := by
  obtain ⟨pre, last, h1, h2, h3, h4, _⟩ := splitOnChar_getLast '-' cd.Namespace.data
  have hid : getInternalClusterID cd = String.mk last := by
    simp only [getInternalClusterID, strings_Split_dash]
    rw [List.getD_eq_getElem?_getD, ← List.getLast?_eq_getElem?]
    simp [List.getLast?_map, h1]
  exact ⟨pre, by rw [hid]; exact h2, by rw [hid]; exact h3, h4⟩

/-! ## C1: the resource matcher -/

theorem shouldSkipClusterDeployment_iff (skip : List ClusterDeploymentAnnotationsToSkip)
    (cd : ClusterDeployment) :
    shouldSkipClusterDeployment skip cd = true ↔
      ∃ anno ∈ cd.Annotations, ∃ skipper ∈ skip,
        anno.1 = skipper.Name ∧ anno.2 = skipper.Value := by
  simp [shouldSkipClusterDeployment, List.any_eq_true]

/-- C1: `shouldSkipClusterDeployment` is true exactly when some annotation of the
resource equals some configured pair in key and value; when the selector of the intent
converts, `getMatchingClusterDeployment` returns the resources the store lists for it
without the skipped ones, together with the error of the list call, for every behaviour
of the store; over the faithful store it returns exactly the stored resources whose
labels satisfy the selector and that no configured pair skips. -/
theorem getMatchingClusterDeployment_spec {σ : Type} (r : ReconcileDeadmansSnitchIntegration σ)
    (dmsi : DeadmansSnitchIntegration) (sel : Selector) (s : σ) (w : World)
    (hsel : LabelSelectorAsSelector dmsi.Spec.ClusterDeploymentSelector = Except.ok sel) :
    (∀ cd, shouldSkipClusterDeployment dmsi.Spec.ClusterDeploymentAnnotationsToSkip cd = true ↔
        ∃ anno ∈ cd.Annotations, ∃ skipper ∈ dmsi.Spec.ClusterDeploymentAnnotationsToSkip,
          anno.1 = skipper.Name ∧ anno.2 = skipper.Value) ∧
      (getMatchingClusterDeployment r dmsi s).val =
        ((r.client.ListClusterDeployments (some sel) s).1.1.filter (fun cd =>
            !shouldSkipClusterDeployment dmsi.Spec.ClusterDeploymentAnnotationsToSkip cd),
          (r.client.ListClusterDeployments (some sel) s).1.2) ∧
      (getMatchingClusterDeployment faithful dmsi w).val =
        (w.cds.filter (fun cd => sel.Matches cd.Labels &&
            !shouldSkipClusterDeployment dmsi.Spec.ClusterDeploymentAnnotationsToSkip cd), none) ∧
      (∀ cd, cd ∈ (getMatchingClusterDeployment faithful dmsi w).val.1 ↔
        cd ∈ w.cds ∧ sel.Matches cd.Labels = true ∧
          ¬ ∃ anno ∈ cd.Annotations, ∃ skipper ∈ dmsi.Spec.ClusterDeploymentAnnotationsToSkip,
            anno.1 = skipper.Name ∧ anno.2 = skipper.Value) := by
  have hskipNil : ∀ cd : ClusterDeployment,
      dmsi.Spec.ClusterDeploymentAnnotationsToSkip = [] →
      shouldSkipClusterDeployment dmsi.Spec.ClusterDeploymentAnnotationsToSkip cd = false := by
    intro cd h
    simp [shouldSkipClusterDeployment, h]
  have hgen : ∀ {τ : Type} (q : ReconcileDeadmansSnitchIntegration τ) (t : τ),
      (getMatchingClusterDeployment q dmsi t).val =
        ((q.client.ListClusterDeployments (some sel) t).1.1.filter (fun cd =>
            !shouldSkipClusterDeployment dmsi.Spec.ClusterDeploymentAnnotationsToSkip cd),
          (q.client.ListClusterDeployments (some sel) t).1.2) := by
    intro τ q t
    simp only [getMatchingClusterDeployment, hsel, bind_apply, pure_apply, listClusterDeployments,
      call_apply]
    by_cases hlen : dmsi.Spec.ClusterDeploymentAnnotationsToSkip.length > 0
    · simp [hlen]
    · have hnil : dmsi.Spec.ClusterDeploymentAnnotationsToSkip = [] := by
        cases h : dmsi.Spec.ClusterDeploymentAnnotationsToSkip with
        | nil => rfl
        | cons a l => simp [h] at hlen
      have hf : ∀ cd : ClusterDeployment,
          shouldSkipClusterDeployment dmsi.Spec.ClusterDeploymentAnnotationsToSkip cd = false :=
        fun cd => hskipNil cd hnil
      simp [hlen, hf]
  have hfaith : (getMatchingClusterDeployment faithful dmsi w).val =
      (w.cds.filter (fun cd => sel.Matches cd.Labels &&
        !shouldSkipClusterDeployment dmsi.Spec.ClusterDeploymentAnnotationsToSkip cd), none) := by
    rw [hgen faithful w]
    simp [faithful, World.ListClusterDeployments, List.filter_filter, Bool.and_comm]
  refine ⟨fun cd => shouldSkipClusterDeployment_iff _ cd, hgen r s, hfaith, ?_⟩
  intro cd
  rw [hfaith]
  simp only [List.mem_filter, Bool.and_eq_true, Bool.not_eq_true', ← shouldSkipClusterDeployment_iff]
  simp

theorem getMatchingClusterDeployment_spec_witness :
    (getMatchingClusterDeployment faithful exampleIntent exampleWorld).val = ([clusterA], none) := by
  have h := (getMatchingClusterDeployment_spec faithful exampleIntent
    ⟨[⟨"tier", SelectionOp.isIn, ["prod"]⟩]⟩ exampleWorld exampleWorld rfl).2.2.1
  rw [h]
  decide

/-! ## C9, C10: name and identifier derivation -/

/-- C9: `getSnitchName` in normal mode is `ClusterName.BaseDomain`, followed by `-` and
the suffix when the suffix is not empty; in restricted mode it is the internal cluster
identifier, the part of the namespace after its last `-` (the whole namespace when it
has none), whatever the cluster name, base domain and suffix are. -/
theorem getSnitchName_spec (cd : ClusterDeployment) (suffix : String) :
    getSnitchName cd suffix false =
        (if suffix = "" then cd.Spec.ClusterName ++ "." ++ cd.Spec.BaseDomain
         else cd.Spec.ClusterName ++ "." ++ cd.Spec.BaseDomain ++ "-" ++ suffix) ∧
      getSnitchName cd suffix true = getInternalClusterID cd ∧
      (∃ pre, cd.Namespace.data = pre ++ (getSnitchName cd suffix true).data ∧
        '-' ∉ (getSnitchName cd suffix true).data ∧ (pre = [] ∨ ∃ p, pre = p ++ ['-'])) ∧
      (∀ (spec : ClusterDeploymentSpec) (suffix2 : String),
        getSnitchName { cd with Spec := spec } suffix2 true = getSnitchName cd suffix true) := by
  refine ⟨?_, ?_, ?_, ?_⟩
  · by_cases h : suffix = "" <;> simp [getSnitchName, h]
  · simp [getSnitchName]
  · have h : getSnitchName cd suffix true = getInternalClusterID cd := by simp [getSnitchName]
    rw [h]
    exact getInternalClusterID_last cd
  · intro spec suffix2
    simp [getSnitchName, getInternalClusterID]

/-- C10: `getClusterID` returns an error exactly when the cluster metadata is absent or
its ClusterID is empty, in both modes; otherwise it returns the external ClusterID in
normal mode and the internal cluster identifier in restricted mode, which is what
`getSnitchName` returns for the same resource in restricted mode. -/
theorem getClusterID_spec (cd : ClusterDeployment) (isFedramp : Bool) (suffix : String) :
    ((getClusterID cd isFedramp).2.isSome = true ↔
        (cd.Spec.ClusterMetadata = none ∨
          ∃ md, cd.Spec.ClusterMetadata = some md ∧ md.ClusterID = "")) ∧
      (∀ md, cd.Spec.ClusterMetadata = some md → md.ClusterID ≠ "" →
        getClusterID cd false = (md.ClusterID, none) ∧
        getClusterID cd true = (getInternalClusterID cd, none) ∧
        (getClusterID cd true).1 = getSnitchName cd suffix true) := by
  constructor
  · unfold getClusterID
    cases h : cd.Spec.ClusterMetadata with
    | none => simp
    | some md => by_cases h2 : md.ClusterID = "" <;> simp [h2]
  · intro md h h2
    simp [getClusterID, h, h2, getSnitchName]

theorem getClusterID_spec_witness :
    getClusterID clusterA false = ("id-a", none) ∧
      getClusterID clusterA true = (getInternalClusterID clusterA, none) ∧
      (getClusterID clusterA true).1 = getSnitchName clusterA "" true :=
  (getClusterID_spec clusterA true "").2 ⟨"id-a"⟩ rfl (by decide)

/-! ## Properties of all calls a piece issues -/

section LogAll
variable {σ : Type}

theorem logAll_pure {α : Type} (P : Event → Bool) (a : α) (s : σ) :
    ((pure a : Op σ α) s).log.all P = true := rfl

theorem logAll_bind {α β : Type} (P : Event → Bool) (m : Op σ α) (f : α → Op σ β) (s : σ)
    (h1 : (m s).log.all P = true) (h2 : ∀ a s1, (f a s1).log.all P = true) :
    ((m >>= f) s).log.all P = true := by
  simp only [bind_apply, List.all_append, Bool.and_eq_true]
  exact ⟨h1, h2 _ _⟩

theorem logAll_call {α : Type} (P : Event → Bool) (f : σ → α × σ) (ev : α → Event) (s : σ)
    (h : ∀ a, P (ev a) = true) : (call f ev s).log.all P = true := by
  simp [call_apply, h]

theorem createSecretLoop_logAll (P : Event → Bool) (r : ReconcileDeadmansSnitchIntegration σ)
    (cfg : Config) (cd : ClusterDeployment) (dmsSecret : String)
    (hc : ∀ o e, P (Event.createSecret o e) = true) (l : List Snitch) (s : σ) :
    (createSecretLoop r cfg cd dmsSecret l s).log.all P = true := by
  induction l generalizing s with
  | nil => exact logAll_pure P _ s
  | cons x rest ih =>
    unfold createSecretLoop
    dsimp only
    generalize SetControllerReference cd _ r.scheme = x
    cases x
    repeat' first
      | apply logAll_pure
      | exact ih _
      | exact logAll_call P _ _ _ (fun a => hc _ a)
      | apply logAll_bind
      | rintro (_ | _) _
      | intro _
      | split
      | dsimp only

theorem createSecret_logAll (P : Event → Bool) (r : ReconcileDeadmansSnitchIntegration σ)
    (cfg : Config) (dmsi : DeadmansSnitchIntegration) (dmsc : DmsClient σ) (cd : ClusterDeployment)
    (hg : ∀ k e, P (Event.getSecret k e) = true)
    (hf : ∀ n l e, P (Event.findSnitchesByName n l e) = true)
    (hc : ∀ o e, P (Event.createSecret o e) = true) (s : σ) :
    (createSecret r cfg dmsi dmsc cd s).log.all P = true := by
  unfold createSecret
  repeat' first
    | apply logAll_pure
    | exact createSecretLoop_logAll P r cfg cd _ hc _ _
    | exact logAll_call P _ _ _ (fun a => hg _ a)
    | exact logAll_call P _ _ _ (fun a => hf _ _ _)
    | apply logAll_bind
    | rintro ⟨_, _ | _⟩ _
    | rintro (_ | _) _
    | intro _
    | split
    | dsimp only

theorem createSyncset_logAll (P : Event → Bool) (r : ReconcileDeadmansSnitchIntegration σ)
    (cfg : Config) (dmsi : DeadmansSnitchIntegration) (cd : ClusterDeployment)
    (hg : ∀ k e, P (Event.getSyncSet k e) = true)
    (hc : ∀ o e, P (Event.createSyncSet o e) = true) (s : σ) :
    (createSyncset r cfg dmsi cd s).log.all P = true := by
  unfold createSyncset
  apply logAll_bind
  · exact logAll_call P _ _ _ (fun a => hg _ a)
  · intro err s1
    dsimp only
    split
    · generalize SetControllerReference cd _ r.scheme = x
      cases x
      repeat' first
        | apply logAll_pure
        | exact logAll_call P _ _ _ (fun a => hc _ a)
        | apply logAll_bind
        | rintro (_ | _) _
        | dsimp only
    · apply logAll_pure

theorem snitchResourcesExist_logAll (P : Event → Bool)
    (r : ReconcileDeadmansSnitchIntegration σ) (cfg : Config) (dmsi : DeadmansSnitchIntegration)
    (cd : ClusterDeployment) (hg : ∀ k e, P (Event.getSecret k e) = true)
    (hs : ∀ k e, P (Event.getSyncSet k e) = true) (s : σ) :
    (snitchResourcesExist r cfg dmsi cd s).log.all P = true := by
  unfold snitchResourcesExist
  repeat' first
    | apply logAll_pure
    | exact logAll_call P _ _ _ (fun a => hg _ a)
    | exact logAll_call P _ _ _ (fun a => hs _ a)
    | apply logAll_bind
    | intro _
    | split
    | dsimp only

theorem deleteSnitches_logAll (P : Event → Bool) (dmsc : DmsClient σ)
    (hd : ∀ t b e, P (Event.snitchDelete t b e) = true) (l : List Snitch) (s : σ) :
    (deleteSnitches dmsc l s).log.all P = true := by
  induction l generalizing s with
  | nil => exact logAll_pure P _ s
  | cons x rest ih =>
    unfold deleteSnitches
    repeat' first
      | apply logAll_pure
      | exact ih _
      | exact logAll_call P _ _ _ (fun a => hd _ _ _)
      | apply logAll_bind
      | intro _
      | split
      | dsimp only

theorem DeleteSyncSet_logAll (P : Event → Bool) (r : ReconcileDeadmansSnitchIntegration σ)
    (name ns : String) (hg : ∀ k e, P (Event.getSyncSet k e) = true)
    (hd : ∀ k e, P (Event.deleteSyncSet k e) = true) (s : σ) :
    (DeleteSyncSet r name ns s).log.all P = true := by
  unfold DeleteSyncSet
  repeat' first
    | apply logAll_pure
    | exact logAll_call P _ _ _ (fun a => hg _ a)
    | exact logAll_call P _ _ _ (fun a => hd _ a)
    | apply logAll_bind
    | rintro (_ | _) _
    | split
    | dsimp only

theorem DeleteRefSecret_logAll (P : Event → Bool) (r : ReconcileDeadmansSnitchIntegration σ)
    (name ns : String) (hg : ∀ k e, P (Event.getSecret k e) = true)
    (hd : ∀ k e, P (Event.deleteSecret k e) = true) (s : σ) :
    (DeleteRefSecret r name ns s).log.all P = true := by
  unfold DeleteRefSecret
  repeat' first
    | apply logAll_pure
    | exact logAll_call P _ _ _ (fun a => hg _ a)
    | exact logAll_call P _ _ _ (fun a => hd _ a)
    | apply logAll_bind
    | rintro (_ | _) _
    | split
    | dsimp only

theorem deleteDMSClusterDeployment_logAll (P : Event → Bool)
    (r : ReconcileDeadmansSnitchIntegration σ) (cfg : Config) (dmsi : DeadmansSnitchIntegration)
    (cd : ClusterDeployment) (dmsc : DmsClient σ)
    (hf : ∀ n l e, P (Event.findSnitchesByName n l e) = true)
    (hd : ∀ t b e, P (Event.snitchDelete t b e) = true)
    (hgs : ∀ k e, P (Event.getSyncSet k e) = true)
    (hds : ∀ k e, P (Event.deleteSyncSet k e) = true)
    (hg : ∀ k e, P (Event.getSecret k e) = true)
    (hdsec : ∀ k e, P (Event.deleteSecret k e) = true)
    (hp : ∀ o e, P (Event.patchClusterDeployment o e) = true) (s : σ) :
    (deleteDMSClusterDeployment r cfg dmsi cd dmsc s).log.all P = true := by
  unfold deleteDMSClusterDeployment
  repeat' first
    | apply logAll_pure
    | exact deleteSnitches_logAll P dmsc hd _ _
    | exact DeleteSyncSet_logAll P r _ _ hgs hds _
    | exact DeleteRefSecret_logAll P r _ _ hg hdsec _
    | exact logAll_call P _ _ _ (fun a => hf _ _ _)
    | exact logAll_call P _ _ _ (fun a => hp _ a)
    | apply logAll_bind
    | rintro ⟨_, _ | _⟩ _
    | rintro (_ | _) _
    | split
    | dsimp only

theorem dmsAddFinalizer_logAll (P : Event → Bool) (r : ReconcileDeadmansSnitchIntegration σ)
    (dmsi : DeadmansSnitchIntegration) (cd : ClusterDeployment)
    (hp : ∀ o e, P (Event.patchClusterDeployment o e) = true)
    (hu : ∀ o e, P (Event.updateDMSI o e) = true) (s : σ) :
    (dmsAddFinalizer r dmsi cd s).log.all P = true := by
  unfold dmsAddFinalizer
  repeat' first
    | apply logAll_pure
    | exact logAll_call P _ _ _ (fun a => hp _ a)
    | exact logAll_call P _ _ _ (fun a => hu _ a)
    | apply logAll_bind
    | rintro ⟨_, _ | _⟩ _
    | split
    | dsimp only

end LogAll

/-! ## C3: teardown before the finalizer is removed -/

section Generic

variable {σ : Type}


theorem deleteSnitches_log (dmsc : DmsClient σ) (snitches : List Snitch) (s : σ) :
    ((deleteSnitches dmsc snitches s).val = Ctl.next →
        (deleteSnitches dmsc snitches s).log =
          snitches.map (fun x => Event.snitchDelete x.Token true none)) ∧
      (∀ ev ∈ (deleteSnitches dmsc snitches s).log, ∃ t b e, ev = Event.snitchDelete t b e) := by
  induction snitches generalizing s with
  | nil => simp [deleteSnitches, pure_apply]
  | cons x rest ih =>
    simp only [deleteSnitches, bind_apply, snitchDelete, call_apply]
    rcases hd : dmsc.Delete x.Token s with ⟨⟨b, e⟩, s1⟩
    have h1 := ih s1
    cases b <;> cases e <;> simp [pure_apply]
    refine ⟨h1.1, ?_⟩
    intro ev hev
    obtain ⟨t, b, e, h⟩ := h1.2 ev hev
    subst h
    cases b <;> simp

theorem DeleteSyncSet_log (r : ReconcileDeadmansSnitchIntegration σ) (name ns : String) (s : σ) :
    ((DeleteSyncSet r name ns s).val = none →
        syncSetTeardownDone ⟨ns, name⟩ (DeleteSyncSet r name ns s).log) ∧
      (∀ obj err, Event.patchClusterDeployment obj err ∉ (DeleteSyncSet r name ns s).log) := by
  simp only [DeleteSyncSet, bind_apply, getSyncSet, call_apply, deleteSyncSetObject]
  rcases hg : r.client.GetSyncSet ⟨ns, name⟩ s with ⟨e, s1⟩
  cases e with
  | some e =>
    cases e <;> simp [IsNotFound, pure_apply, syncSetTeardownDone]
  | none =>
    simp only [bind_apply, call_apply]
    rcases hd : r.client.DeleteSyncSet ⟨ns, name⟩ s1 with ⟨e2, s2⟩
    cases e2 with
    | none => simp [IsNotFound, pure_apply, syncSetTeardownDone]
    | some e2 => cases e2 <;> simp [IsNotFound, pure_apply, syncSetTeardownDone]

theorem DeleteRefSecret_log (r : ReconcileDeadmansSnitchIntegration σ) (name ns : String) (s : σ) :
    ((DeleteRefSecret r name ns s).val = none →
        secretTeardownDone ⟨ns, name⟩ (DeleteRefSecret r name ns s).log) ∧
      (∀ obj err, Event.patchClusterDeployment obj err ∉ (DeleteRefSecret r name ns s).log) := by
  simp only [DeleteRefSecret, bind_apply, getSecret, call_apply, deleteSecretObject]
  rcases hg : r.client.GetSecret ⟨ns, name⟩ s with ⟨e, s1⟩
  cases e with
  | some e =>
    cases e <;> simp [IsNotFound, pure_apply, secretTeardownDone]
  | none =>
    simp only [bind_apply, call_apply]
    rcases hd : r.client.DeleteSecret ⟨ns, name⟩ s1 with ⟨e2, s2⟩
    cases e2 with
    | none => simp [IsNotFound, pure_apply, secretTeardownDone]
    | some e2 => cases e2 <;> simp [IsNotFound, pure_apply, secretTeardownDone]

theorem deleteDMS_generic (r : ReconcileDeadmansSnitchIntegration σ) (cfg : Config)
    (dmsi : DeadmansSnitchIntegration) (cd : ClusterDeployment) (dmsc : DmsClient σ) (s : σ) :
    (∀ obj err, Event.patchClusterDeployment obj err ∈
        (deleteDMSClusterDeployment r cfg dmsi cd dmsc s).log →
      HasFinalizer cd.Finalizers (DeadMansSnitchFinalizerPrefix ++ dmsi.Name) = true ∧
      obj = { cd with Finalizers :=
        (DeleteFinalizer cd.Finalizers (DeadMansSnitchFinalizerPrefix ++ dmsi.Name)) } ∧
      ∃ snitches ssLog secLog,
        (deleteDMSClusterDeployment r cfg dmsi cd dmsc s).log =
          Event.findSnitchesByName (getSnitchName cd dmsi.Spec.SnitchNamePostFix cfg.IsFedramp)
              snitches none ::
            snitches.map (fun x => Event.snitchDelete x.Token true none) ++ ssLog ++ secLog ++
            [Event.patchClusterDeployment obj err] ∧
        syncSetTeardownDone
          ⟨cd.Namespace, cfg.SecretName cd.Spec.ClusterName dmsi.Spec.SnitchNamePostFix⟩ ssLog ∧
        secretTeardownDone
          ⟨cd.Namespace, cfg.SecretName cd.Spec.ClusterName dmsi.Spec.SnitchNamePostFix⟩ secLog) ∧
    ((∀ obj err, Event.patchClusterDeployment obj err ∉
        (deleteDMSClusterDeployment r cfg dmsi cd dmsc s).log) →
      (deleteDMSClusterDeployment r cfg dmsi cd dmsc s).val.1 = cd) := by
  simp only [deleteDMSClusterDeployment, bind_apply, FindSnitchesByName, call_apply]
  rcases hf : dmsc.FindSnitchesByName (getSnitchName cd dmsi.Spec.SnitchNamePostFix cfg.IsFedramp) s
    with ⟨⟨snitches, e⟩, s1⟩
  cases e with
  | some e => simp [pure_apply]
  | none =>
    simp only [bind_apply]
    have hl := deleteSnitches_log dmsc snitches s1
    generalize deleteSnitches dmsc snitches s1 = r2 at hl ⊢
    rcases r2 with ⟨c, s2, l2⟩
    have hnp2 : ∀ obj err, Event.patchClusterDeployment obj err ∉ l2 := by
      intro obj err hmem
      obtain ⟨t, b, e, h⟩ := hl.2 _ hmem
      cases h
    cases c with
    | ret e =>
      simp only [pure_apply, List.append_nil]
      refine ⟨?_, fun _ => trivial⟩
      intro obj err hmem
      exfalso
      simp [hnp2 obj err] at hmem
    | next =>
      simp only [bind_apply]
      have hl2 : l2 = snitches.map (fun x => Event.snitchDelete x.Token true none) := hl.1 rfl
      have hss := DeleteSyncSet_log r
        (cfg.SecretName cd.Spec.ClusterName dmsi.Spec.SnitchNamePostFix) cd.Namespace s2
      generalize DeleteSyncSet r
        (cfg.SecretName cd.Spec.ClusterName dmsi.Spec.SnitchNamePostFix) cd.Namespace s2 = r3 at hss ⊢
      rcases r3 with ⟨e3, s3, l3⟩
      have hnp3 : ∀ obj err, Event.patchClusterDeployment obj err ∉ l3 := hss.2
      cases e3 with
      | some e =>
        simp only [pure_apply, List.append_nil]
        refine ⟨?_, fun _ => trivial⟩
        intro obj err hmem
        exfalso
        simp [hnp2 obj err, hnp3 obj err] at hmem
      | none =>
        simp only [bind_apply]
        have hsec := DeleteRefSecret_log r
          (cfg.SecretName cd.Spec.ClusterName dmsi.Spec.SnitchNamePostFix) cd.Namespace s3
        generalize DeleteRefSecret r
          (cfg.SecretName cd.Spec.ClusterName dmsi.Spec.SnitchNamePostFix) cd.Namespace s3 = r4
          at hsec ⊢
        rcases r4 with ⟨e4, s4, l4⟩
        have hnp4 : ∀ obj err, Event.patchClusterDeployment obj err ∉ l4 := hsec.2
        cases e4 with
        | some e =>
          simp only [pure_apply, List.append_nil]
          refine ⟨?_, fun _ => trivial⟩
          intro obj err hmem
          exfalso
          simp [hnp2 obj err, hnp3 obj err, hnp4 obj err] at hmem
        | none =>
          by_cases hfin : HasFinalizer cd.Finalizers (DeadMansSnitchFinalizerPrefix ++ dmsi.Name) = true
          · simp only [hfin, if_true, bind_apply, patchClusterDeployment, call_apply]
            generalize r.client.PatchClusterDeployment _ cd s4 = r5
            rcases r5 with ⟨e5, s5⟩
            have key : ∀ (obj : ClusterDeployment) (err : Option Err),
                Event.patchClusterDeployment obj err ∈
                  [Event.findSnitchesByName
                    (getSnitchName cd dmsi.Spec.SnitchNamePostFix cfg.IsFedramp) snitches none] ++
                  (l2 ++ (l3 ++ (l4 ++ [Event.patchClusterDeployment
                    { cd with Finalizers :=
                      (DeleteFinalizer cd.Finalizers (DeadMansSnitchFinalizerPrefix ++ dmsi.Name)) }
                    e5]))) →
                obj = { cd with Finalizers :=
                  (DeleteFinalizer cd.Finalizers (DeadMansSnitchFinalizerPrefix ++ dmsi.Name)) } ∧
                err = e5 := by
              intro obj err hmem
              simpa [hnp2 obj err, hnp3 obj err, hnp4 obj err] using hmem
            cases e5 with
            | some e =>
              simp only [pure_apply, List.append_nil]
              constructor
              · intro obj err hmem
                obtain ⟨h1, h2⟩ := key obj err hmem
                subst h1 h2
                refine ⟨trivial, rfl, snitches, l3, l4, ?_, hss.1 rfl, hsec.1 rfl⟩
                simp [hl2]
              · intro hno
                exact absurd (by simp) (hno ({ cd with Finalizers :=
                  (DeleteFinalizer cd.Finalizers (DeadMansSnitchFinalizerPrefix ++ dmsi.Name)) }) (some e))
            | none =>
              simp only [pure_apply, List.append_nil]
              constructor
              · intro obj err hmem
                obtain ⟨h1, h2⟩ := key obj err hmem
                subst h1 h2
                refine ⟨trivial, rfl, snitches, l3, l4, ?_, hss.1 rfl, hsec.1 rfl⟩
                simp [hl2]
              · intro hno
                exact absurd (by simp) (hno ({ cd with Finalizers :=
                  (DeleteFinalizer cd.Finalizers (DeadMansSnitchFinalizerPrefix ++ dmsi.Name)) }) none)
          · simp only [hfin, Bool.false_eq_true, if_false, pure_apply, List.append_nil]
            refine ⟨?_, fun _ => trivial⟩
            intro obj err hmem
            exfalso
            simp [hnp2 obj err, hnp3 obj err, hnp4 obj err] at hmem

theorem deleteSnitches_world {β : Type} (dmsc : DmsClient σ) (π : σ → β)
    (h : ∀ t s, π (dmsc.Delete t s).2 = π s) (snitches : List Snitch) (s : σ) :
    π (deleteSnitches dmsc snitches s).world = π s := by
  induction snitches generalizing s with
  | nil => simp [deleteSnitches, pure_apply]
  | cons x rest ih =>
    simp only [deleteSnitches, bind_apply, snitchDelete, call_apply]
    rcases hd : dmsc.Delete x.Token s with ⟨⟨b, e⟩, s1⟩
    have h1 := h x.Token s
    rw [hd] at h1
    cases b <;> cases e <;> simp [pure_apply, h1, ih]

theorem DeleteSyncSet_world {β : Type} (r : ReconcileDeadmansSnitchIntegration σ) (π : σ → β)
    (hg : ∀ k s, π (r.client.GetSyncSet k s).2 = π s)
    (hd : ∀ k s, π (r.client.DeleteSyncSet k s).2 = π s) (name ns : String) (s : σ) :
    π (DeleteSyncSet r name ns s).world = π s := by
  simp only [DeleteSyncSet, bind_apply, getSyncSet, call_apply, deleteSyncSetObject]
  have h1 := hg ⟨ns, name⟩ s
  rcases hgs : r.client.GetSyncSet ⟨ns, name⟩ s with ⟨e, s1⟩
  rw [hgs] at h1
  cases e with
  | some e => cases e <;> simp [IsNotFound, pure_apply, h1]
  | none =>
    simp only [bind_apply, call_apply]
    have h2 := hd ⟨ns, name⟩ s1
    rcases hds : r.client.DeleteSyncSet ⟨ns, name⟩ s1 with ⟨e2, s2⟩
    rw [hds] at h2
    cases e2 with
    | none => simpa [IsNotFound, pure_apply, h2] using h1
    | some e2 => cases e2 <;> simpa [IsNotFound, pure_apply, h2] using h1

theorem DeleteRefSecret_world {β : Type} (r : ReconcileDeadmansSnitchIntegration σ) (π : σ → β)
    (hg : ∀ k s, π (r.client.GetSecret k s).2 = π s)
    (hd : ∀ k s, π (r.client.DeleteSecret k s).2 = π s) (name ns : String) (s : σ) :
    π (DeleteRefSecret r name ns s).world = π s := by
  simp only [DeleteRefSecret, bind_apply, getSecret, call_apply, deleteSecretObject]
  have h1 := hg ⟨ns, name⟩ s
  rcases hgs : r.client.GetSecret ⟨ns, name⟩ s with ⟨e, s1⟩
  rw [hgs] at h1
  cases e with
  | some e => cases e <;> simp [IsNotFound, pure_apply, h1]
  | none =>
    simp only [bind_apply, call_apply]
    have h2 := hd ⟨ns, name⟩ s1
    rcases hds : r.client.DeleteSecret ⟨ns, name⟩ s1 with ⟨e2, s2⟩
    rw [hds] at h2
    cases e2 with
    | none => simpa [IsNotFound, pure_apply, h2] using h1
    | some e2 => cases e2 <;> simpa [IsNotFound, pure_apply, h2] using h1

theorem deleteDMS_world {β : Type} (r : ReconcileDeadmansSnitchIntegration σ) (cfg : Config)
    (dmsi : DeadmansSnitchIntegration) (cd : ClusterDeployment) (dmsc : DmsClient σ) (π : σ → β)
    (hπ : teardownCallsPreserve r dmsc π) (s : σ)
    (hno : ∀ obj err, Event.patchClusterDeployment obj err ∉
        (deleteDMSClusterDeployment r cfg dmsi cd dmsc s).log) :
    π (deleteDMSClusterDeployment r cfg dmsi cd dmsc s).world = π s := by
  obtain ⟨hfind, hdel, hgss, hdss, hgsec, hdsec⟩ := hπ
  revert hno
  simp only [deleteDMSClusterDeployment, bind_apply, FindSnitchesByName, call_apply]
  have h1 := hfind (getSnitchName cd dmsi.Spec.SnitchNamePostFix cfg.IsFedramp) s
  rcases hf : dmsc.FindSnitchesByName (getSnitchName cd dmsi.Spec.SnitchNamePostFix cfg.IsFedramp) s
    with ⟨⟨snitches, e⟩, s1⟩
  rw [hf] at h1
  cases e with
  | some e => intro _; simpa [pure_apply] using h1
  | none =>
    simp only [bind_apply]
    have h2 := deleteSnitches_world dmsc π hdel snitches s1
    generalize deleteSnitches dmsc snitches s1 = r2 at h2 ⊢
    rcases r2 with ⟨c, s2, l2⟩
    cases c with
    | ret e => intro _; simp only [pure_apply]; exact h2.trans h1
    | next =>
      simp only [bind_apply]
      have h3 := DeleteSyncSet_world r π hgss hdss
        (cfg.SecretName cd.Spec.ClusterName dmsi.Spec.SnitchNamePostFix) cd.Namespace s2
      generalize DeleteSyncSet r
        (cfg.SecretName cd.Spec.ClusterName dmsi.Spec.SnitchNamePostFix) cd.Namespace s2 = r3 at h3 ⊢
      rcases r3 with ⟨e3, s3, l3⟩
      cases e3 with
      | some e => intro _; simp only [pure_apply]; exact h3.trans (h2.trans h1)
      | none =>
        simp only [bind_apply]
        have h4 := DeleteRefSecret_world r π hgsec hdsec
          (cfg.SecretName cd.Spec.ClusterName dmsi.Spec.SnitchNamePostFix) cd.Namespace s3
        generalize DeleteRefSecret r
          (cfg.SecretName cd.Spec.ClusterName dmsi.Spec.SnitchNamePostFix) cd.Namespace s3 = r4
          at h4 ⊢
        rcases r4 with ⟨e4, s4, l4⟩
        cases e4 with
        | some e => intro _; simp only [pure_apply]; exact h4.trans (h3.trans (h2.trans h1))
        | none =>
          by_cases hfin : HasFinalizer cd.Finalizers (DeadMansSnitchFinalizerPrefix ++ dmsi.Name) = true
          · simp only [hfin, if_true, bind_apply, patchClusterDeployment, call_apply]
            generalize r.client.PatchClusterDeployment _ cd s4 = r5
            rcases r5 with ⟨e5, s5⟩
            intro hno
            exfalso
            refine hno ({ cd with Finalizers :=
              (DeleteFinalizer cd.Finalizers (DeadMansSnitchFinalizerPrefix ++ dmsi.Name)) }) e5 ?_
            simp
          · simp only [hfin, Bool.false_eq_true, if_false, pure_apply]
            intro _
            exact h4.trans (h3.trans (h2.trans h1))

end Generic

theorem faulty_preserves {σ α β : Type} (π : σ → β) (onFail : Err → α) (onRefuse : Option α)
    (f : σ → α × σ) (h : ∀ w, π (f w).2 = π w) (s : σ × List Fault) :
    π (faulty onFail onRefuse f s).2.1 = π s.1 := by
  rcases s with ⟨w, fs⟩
  cases fs with
  | nil => simp [faulty, h]
  | cons x fs =>
    cases x with
    | pass => simp [faulty, h]
    | fail e => simp [faulty]
    | refuse => cases onRefuse <;> simp [faulty, h]

theorem faithful_withFaults_teardownCallsPreserve :
    teardownCallsPreserve faithful.withFaults faithfulDms.withFaults
      (fun x : World × List Fault => x.1.cds) := by
  refine ⟨?_, ?_, ?_, ?_, ?_, ?_⟩ <;> intro k s
  · exact faulty_preserves (fun w : World => w.cds) _ _ _ (fun w => rfl) s
  · refine faulty_preserves (fun w : World => w.cds) _ _ _ (fun w => ?_) s
    simp only [faithfulDms, World.Delete]
    split <;> rfl
  · exact faulty_preserves (fun w : World => w.cds) _ _ _ (fun w => rfl) s
  · refine faulty_preserves (fun w : World => w.cds) _ _ _ (fun w => ?_) s
    simp only [faithful, World.DeleteSyncSet]
    split <;> rfl
  · exact faulty_preserves (fun w : World => w.cds) _ _ _ (fun w => rfl) s
  · refine faulty_preserves (fun w : World => w.cds) _ _ _ (fun w => ?_) s
    simp only [faithful, World.DeleteSecret]
    split <;> rfl

/-- C3: for every behaviour of the object store and the monitor service,
`deleteDMSClusterDeployment` issues the patch that removes the finalizer only as the last
call, after find-by-name returned without error, every monitor it returned was deleted
(reported deleted, no error), and the SyncSet and the secret teardown each completed
(found absent, or deleted); when no such patch is issued the object behind the pointer is
returned as it was, and whatever the earlier calls leave untouched stays untouched; over
the faithful store, under any schedule of faults, these calls leave the stored
ClusterDeployments untouched, so the resource still carries its finalizer. -/
theorem deleteDMSClusterDeployment_unguards_last {σ β : Type}
    (r : ReconcileDeadmansSnitchIntegration σ) (cfg : Config) (dmsi : DeadmansSnitchIntegration)
    (cd : ClusterDeployment) (dmsc : DmsClient σ) (π : σ → β) (s : σ) (w : World)
    (faults : List Fault) :
    (∀ obj err, Event.patchClusterDeployment obj err ∈
        (deleteDMSClusterDeployment r cfg dmsi cd dmsc s).log →
      HasFinalizer cd.Finalizers (DeadMansSnitchFinalizerPrefix ++ dmsi.Name) = true ∧
      obj = { cd with Finalizers :=
        (DeleteFinalizer cd.Finalizers (DeadMansSnitchFinalizerPrefix ++ dmsi.Name)) } ∧
      ∃ snitches ssLog secLog,
        (deleteDMSClusterDeployment r cfg dmsi cd dmsc s).log =
          Event.findSnitchesByName (getSnitchName cd dmsi.Spec.SnitchNamePostFix cfg.IsFedramp)
              snitches none ::
            snitches.map (fun x => Event.snitchDelete x.Token true none) ++ ssLog ++ secLog ++
            [Event.patchClusterDeployment obj err] ∧
        syncSetTeardownDone
          ⟨cd.Namespace, cfg.SecretName cd.Spec.ClusterName dmsi.Spec.SnitchNamePostFix⟩ ssLog ∧
        secretTeardownDone
          ⟨cd.Namespace, cfg.SecretName cd.Spec.ClusterName dmsi.Spec.SnitchNamePostFix⟩ secLog) ∧
    ((∀ obj err, Event.patchClusterDeployment obj err ∉
        (deleteDMSClusterDeployment r cfg dmsi cd dmsc s).log) →
      (deleteDMSClusterDeployment r cfg dmsi cd dmsc s).val.1 = cd) ∧
    (teardownCallsPreserve r dmsc π →
      (∀ obj err, Event.patchClusterDeployment obj err ∉
        (deleteDMSClusterDeployment r cfg dmsi cd dmsc s).log) →
      π (deleteDMSClusterDeployment r cfg dmsi cd dmsc s).world = π s) ∧
    ((∀ obj err, Event.patchClusterDeployment obj err ∉
        (deleteDMSClusterDeployment faithful.withFaults cfg dmsi cd faithfulDms.withFaults
          (w, faults)).log) →
      (deleteDMSClusterDeployment faithful.withFaults cfg dmsi cd faithfulDms.withFaults
        (w, faults)).world.1.cds = w.cds) :=
  ⟨(deleteDMS_generic r cfg dmsi cd dmsc s).1, (deleteDMS_generic r cfg dmsi cd dmsc s).2,
    fun hπ hno => deleteDMS_world r cfg dmsi cd dmsc π hπ s hno,
    fun hno => deleteDMS_world faithful.withFaults cfg dmsi cd faithfulDms.withFaults
      (fun x : World × List Fault => x.1.cds) faithful_withFaults_teardownCallsPreserve (w, faults) hno⟩

/-! ## C8: the finalizer is in place before a monitor is created -/

section Guard
variable {σ : Type}

theorem HasFinalizer_AddFinalizer (fs : List String) (f : String) :
    HasFinalizer (AddFinalizer fs f) f = true := by
  unfold AddFinalizer HasFinalizer
  split
  · assumption
  · simp

theorem HasFinalizer_DeleteFinalizer (fs : List String) (f : String) :
    HasFinalizer (DeleteFinalizer fs f) f = false := by
  simp [DeleteFinalizer, HasFinalizer, List.contains_eq_any_beq, List.any_filter]

theorem not_mem_of_all_not (P : Event → Bool) (l : List Event) (ev : Event)
    (h : l.all (fun x => !P x) = true) (hev : P ev = true) : ev ∉ l := by
  intro hmem
  have := List.all_eq_true.mp h ev hmem
  simp [hev] at this

/-- The calls of `createSnitch` when it creates a monitor: the SyncSet lookup reported
"not found", find-by-name returned no monitor, and the create call follows at once. -/
theorem createSnitch_create (r : ReconcileDeadmansSnitchIntegration σ) (cfg : Config)
    (dmsi : DeadmansSnitchIntegration) (cd : ClusterDeployment) (dmsc : DmsClient σ) (s : σ)
    (ns : Snitch) (e : Option Err)
    (h : Event.snitchCreate ns e ∈ (createSnitch r cfg dmsi cd dmsc s).log) :
    ns.Name = getSnitchName cd dmsi.Spec.SnitchNamePostFix cfg.IsFedramp ∧
    ∃ post, (createSnitch r cfg dmsi cd dmsc s).log =
      [Event.getSyncSet ⟨cd.Namespace, cfg.SecretName cd.Spec.ClusterName dmsi.Spec.SnitchNamePostFix⟩
          (some Err.notFound),
        Event.findSnitchesByName (getSnitchName cd dmsi.Spec.SnitchNamePostFix cfg.IsFedramp) [] none,
        Event.snitchCreate ns e] ++ post ∧
      post.all (fun x => !x.isSnitchCreate) = true := by
  revert h
  unfold createSnitch
  generalize (getClusterID cd cfg.IsFedramp).2 = c
  cases c with
  | some e => simp [pure_apply]
  | none =>
    simp only [bind_apply, getSyncSet, call_apply]
    rcases hg : r.client.GetSyncSet
      ⟨cd.Namespace, cfg.SecretName cd.Spec.ClusterName dmsi.Spec.SnitchNamePostFix⟩ s with ⟨e1, s1⟩
    cases e1 with
    | none => simp [pure_apply, IsNotFound]
    | some e1 =>
      cases e1 with
      | alreadyExists => simp [pure_apply, IsNotFound]
      | other m => simp [pure_apply, IsNotFound]
      | notFound =>
        simp only [Option.isSome_some, IsNotFound, Bool.and_self, if_true, bind_apply,
          FindSnitchesByName, call_apply]
        obtain ⟨⟨⟨found, e2⟩, s2⟩, hf⟩ : ∃ x, dmsc.FindSnitchesByName
          (getSnitchName cd dmsi.Spec.SnitchNamePostFix cfg.IsFedramp) s1 = x := ⟨_, rfl⟩
        simp only [hf]
        cases e2 with
        | some e2 => simp [pure_apply]
        | none =>
          cases found with
          | cons x rest =>
            simp only [List.length_cons, Nat.le_zero_eq, Nat.add_one_ne_zero, if_false, bind_apply,
              pure_apply, FindSnitchesByName, call_apply]
            obtain ⟨⟨⟨found2, e3⟩, s3⟩, hf2⟩ : ∃ x, dmsc.FindSnitchesByName
              (getSnitchName cd dmsi.Spec.SnitchNamePostFix cfg.IsFedramp) s2 = x := ⟨_, rfl⟩
            simp only [hf2]
            cases e3 with
            | some e3 => simp [pure_apply]
            | none =>
              simp only []
              split
              · simp [pure_apply]
              · split
                · simp only [bind_apply, snitchCheckIn, call_apply]
                  generalize dmsc.CheckIn _ s3 = r4
                  rcases r4 with ⟨e4, s4⟩
                  cases e4 <;> simp [pure_apply]
                · simp [pure_apply]
          | nil =>
            simp only [List.length_nil, le_refl, if_true, bind_apply, snitchCreate, call_apply]
            obtain ⟨⟨⟨created, e3⟩, s3⟩, hc⟩ : ∃ x, dmsc.Create
              { NewSnitch (getSnitchName cd dmsi.Spec.SnitchNamePostFix cfg.IsFedramp)
                  dmsi.Spec.Tags "15_minute" "basic" with
                Notes := snitchNotes (getClusterID cd cfg.IsFedramp).1 } s2 = x := ⟨_, rfl⟩
            simp only [hc]
            cases e3 with
            | some e3 =>
              simp only [pure_apply, List.append_nil]
              intro h
              simp only [List.mem_append, List.mem_singleton, reduceCtorEq, false_or,
                Event.snitchCreate.injEq] at h
              obtain ⟨h1, h2⟩ := h
              subst h1 h2
              exact ⟨rfl, [], by simp, rfl⟩
            | none =>
              simp only [pure_apply, List.length_nil, gt_iff_lt, lt_self_iff_false, if_false,
                bind_apply, FindSnitchesByName, call_apply]
              obtain ⟨⟨⟨found2, e4⟩, s4⟩, hf2⟩ : ∃ x, dmsc.FindSnitchesByName
                (getSnitchName cd dmsi.Spec.SnitchNamePostFix cfg.IsFedramp) s3 = x := ⟨_, rfl⟩
              simp only [hf2]
              have key : ∀ post : List Event, post.all (fun x => !x.isSnitchCreate) = true →
                  Event.snitchCreate ns e ∈
                    [Event.getSyncSet ⟨cd.Namespace,
                        cfg.SecretName cd.Spec.ClusterName dmsi.Spec.SnitchNamePostFix⟩
                        (some Err.notFound)] ++
                      ([Event.findSnitchesByName
                        (getSnitchName cd dmsi.Spec.SnitchNamePostFix cfg.IsFedramp) [] none] ++
                      ([Event.snitchCreate
                        { NewSnitch (getSnitchName cd dmsi.Spec.SnitchNamePostFix cfg.IsFedramp)
                            dmsi.Spec.Tags "15_minute" "basic" with
                          Notes := snitchNotes (getClusterID cd cfg.IsFedramp).1 } none] ++ post)) →
                  ns.Name = getSnitchName cd dmsi.Spec.SnitchNamePostFix cfg.IsFedramp ∧
                  ∃ post2,
                    [Event.getSyncSet ⟨cd.Namespace,
                        cfg.SecretName cd.Spec.ClusterName dmsi.Spec.SnitchNamePostFix⟩
                        (some Err.notFound)] ++
                      ([Event.findSnitchesByName
                        (getSnitchName cd dmsi.Spec.SnitchNamePostFix cfg.IsFedramp) [] none] ++
                      ([Event.snitchCreate
                        { NewSnitch (getSnitchName cd dmsi.Spec.SnitchNamePostFix cfg.IsFedramp)
                            dmsi.Spec.Tags "15_minute" "basic" with
                          Notes := snitchNotes (getClusterID cd cfg.IsFedramp).1 } none] ++ post)) =
                    [Event.getSyncSet ⟨cd.Namespace,
                        cfg.SecretName cd.Spec.ClusterName dmsi.Spec.SnitchNamePostFix⟩
                        (some Err.notFound),
                      Event.findSnitchesByName
                        (getSnitchName cd dmsi.Spec.SnitchNamePostFix cfg.IsFedramp) [] none,
                      Event.snitchCreate ns e] ++ post2 ∧
                    post2.all (fun x => !x.isSnitchCreate) = true := by
                intro post hpost h
                simp only [List.mem_append, List.mem_singleton, reduceCtorEq, false_or,
                  Event.snitchCreate.injEq] at h
                rcases h with ⟨h1, h2⟩ | h
                · subst h1 h2
                  exact ⟨rfl, post, by simp, hpost⟩
                · exact absurd h (not_mem_of_all_not Event.isSnitchCreate post _ hpost rfl)
              cases e4 with
              | some e4 =>
                simp only [pure_apply, List.append_nil]
                exact key [_] (by simp [Event.isSnitchCreate])
              | none =>
                simp only []
                split
                · simp only [pure_apply, List.append_nil]
                  exact key [_] (by simp [Event.isSnitchCreate])
                · split
                  · simp only [bind_apply, snitchCheckIn, call_apply]
                    generalize dmsc.CheckIn _ s4 = r5
                    rcases r5 with ⟨e5, s5⟩
                    cases e5 <;> simp only [pure_apply, List.append_nil] <;>
                      exact key [_, _] (by simp [Event.isSnitchCreate])
                  · simp only [pure_apply, List.append_nil]
                    exact key [_] (by simp [Event.isSnitchCreate])

theorem noCreate_deleteDMS (r : ReconcileDeadmansSnitchIntegration σ) (cfg : Config)
    (dmsi : DeadmansSnitchIntegration) (cd : ClusterDeployment) (dmsc : DmsClient σ) (s : σ) :
    (deleteDMSClusterDeployment r cfg dmsi cd dmsc s).log.all (fun x => !x.isSnitchCreate) = true :=
  deleteDMSClusterDeployment_logAll _ r cfg dmsi cd dmsc (fun _ _ _ => rfl) (fun _ _ _ => rfl)
    (fun _ _ => rfl) (fun _ _ => rfl) (fun _ _ => rfl) (fun _ _ => rfl) (fun _ _ => rfl) s

theorem mem_append_of_all_not (P : Event → Bool) (l1 l2 : List Event) (ev : Event)
    (h1 : l1.all (fun x => !P x) = true) (hev : P ev = true) (h : ev ∈ l1 ++ l2) : ev ∈ l2 := by
  rcases List.mem_append.mp h with h | h
  · exact absurd h (not_mem_of_all_not P l1 ev h1 hev)
  · exact h

theorem create_split (l1 l2 l3 tail : List Event) (ev : Event) (hev : ev.isSnitchCreate = true)
    (h1 : l1.all (fun x => !x.isSnitchCreate) = true) (h2r : l2.all Event.isRead = true)
    (h2 : l2.all (fun x => !x.isSnitchCreate) = true)
    (h3 : ev ∈ l3 → ∃ pre3 post3, l3 = pre3 ++ ev :: post3 ∧ pre3.all Event.isRead = true)
    (ht : tail.all (fun x => !x.isSnitchCreate) = true) (h : ev ∈ l1 ++ (l2 ++ (l3 ++ tail))) :
    ∃ pre post, l1 ++ (l2 ++ (l3 ++ tail)) = l1 ++ pre ++ ev :: post ∧
      pre.all Event.isRead = true := by
  have hm := mem_append_of_all_not Event.isSnitchCreate l2 _ ev h2 hev
    (mem_append_of_all_not Event.isSnitchCreate l1 _ ev h1 hev h)
  have hm3 : ev ∈ l3 := by
    rcases List.mem_append.mp hm with h | h
    · exact h
    · exact absurd h (not_mem_of_all_not Event.isSnitchCreate tail ev ht hev)
  obtain ⟨pre3, post3, h3eq, h3r⟩ := h3 hm3
  refine ⟨l2 ++ pre3, post3 ++ tail, ?_, ?_⟩
  · simp [h3eq]
  · simp [h2r, h3r]

/-- In the convergence of one resource a monitor is created only after `dmsAddFinalizer`
returned without error, and only lookups lie between the two. -/
theorem reconcileClusterDeployment_create (r : ReconcileDeadmansSnitchIntegration σ)
    (cfg : Config) (dmsc : DmsClient σ) (matching : List ClusterDeployment)
    (dmsi : DeadmansSnitchIntegration) (cd : ClusterDeployment) (s : σ) (ns : Snitch)
    (e : Option Err)
    (h : Event.snitchCreate ns e ∈ (reconcileClusterDeployment r cfg dmsc matching
      (DeadMansSnitchFinalizerPrefix ++ dmsi.Name) dmsi cd s).log) :
    (dmsAddFinalizer r dmsi cd s).val.2 = none ∧
    ∃ pre post, (reconcileClusterDeployment r cfg dmsc matching
        (DeadMansSnitchFinalizerPrefix ++ dmsi.Name) dmsi cd s).log =
      (dmsAddFinalizer r dmsi cd s).log ++ pre ++ Event.snitchCreate ns e :: post ∧
      pre.all Event.isRead = true := by
  revert h
  unfold reconcileClusterDeployment
  dsimp only
  split
  · split
    · simp only [bind_apply]
      have h1 := noCreate_deleteDMS r cfg dmsi cd dmsc s
      generalize deleteDMSClusterDeployment r cfg dmsi cd dmsc s = r1 at h1 ⊢
      rcases r1 with ⟨⟨cd1, e1⟩, s1, l1⟩
      intro h
      exfalso
      cases e1 <;> simp only [pure_apply, List.append_nil] at h <;>
        exact not_mem_of_all_not Event.isSnitchCreate l1 (Event.snitchCreate ns e) h1 rfl h
    · simp [pure_apply]
  · split
    · simp [pure_apply]
    · simp only [bind_apply]
      have ha := dmsAddFinalizer_logAll (fun x => !x.isSnitchCreate) r dmsi cd
        (fun _ _ => rfl) (fun _ _ => rfl) s
      generalize dmsAddFinalizer r dmsi cd s = a at ha ⊢
      rcases a with ⟨⟨⟨dmsi1, cd1⟩, e1⟩, s1, l1⟩
      cases e1 with
      | some e1 =>
        intro h
        exfalso
        simp only [pure_apply, List.append_nil] at h
        exact not_mem_of_all_not Event.isSnitchCreate l1 (Event.snitchCreate ns e) ha rfl h
      | none =>
        simp only [bind_apply]
        have hx := snitchResourcesExist_logAll Event.isRead r cfg dmsi1 cd1
          (fun _ _ => rfl) (fun _ _ => rfl) s1
        have hx2 := snitchResourcesExist_logAll (fun x => !x.isSnitchCreate) r cfg dmsi1 cd1
          (fun _ _ => rfl) (fun _ _ => rfl) s1
        generalize snitchResourcesExist r cfg dmsi1 cd1 s1 = x at hx hx2 ⊢
        rcases x with ⟨⟨se, sse, e2⟩, s2, l2⟩
        cases e2 with
        | some e2 =>
          intro h
          exfalso
          simp only [pure_apply, List.append_nil] at h
          exact not_mem_of_all_not Event.isSnitchCreate l2 (Event.snitchCreate ns e) hx2 rfl
            (mem_append_of_all_not Event.isSnitchCreate l1 l2 (Event.snitchCreate ns e) ha rfl h)
        | none =>
          dsimp only
          split
          · split
            · simp only [bind_apply]
              have h1 := noCreate_deleteDMS r cfg dmsi1 cd1 dmsc s2
              generalize deleteDMSClusterDeployment r cfg dmsi1 cd1 dmsc s2 = r1 at h1 ⊢
              rcases r1 with ⟨⟨cd3, e3⟩, s3, l3⟩
              intro h
              exfalso
              cases e3 <;> simp only [pure_apply, List.append_nil] at h <;>
                exact not_mem_of_all_not Event.isSnitchCreate l3 (Event.snitchCreate ns e) h1 rfl
                  (mem_append_of_all_not Event.isSnitchCreate l2 l3 (Event.snitchCreate ns e) hx2 rfl
                    (mem_append_of_all_not Event.isSnitchCreate l1 _ (Event.snitchCreate ns e) ha rfl h))
            · intro h
              exfalso
              simp only [pure_apply, List.append_nil] at h
              exact not_mem_of_all_not Event.isSnitchCreate l2 (Event.snitchCreate ns e) hx2 rfl
                (mem_append_of_all_not Event.isSnitchCreate l1 l2 (Event.snitchCreate ns e) ha rfl h)
          · split
            · simp only [bind_apply]
              have hcs := createSnitch_create r cfg dmsi1 cd1 dmsc s2 ns e
              generalize createSnitch r cfg dmsi1 cd1 dmsc s2 = cs at hcs ⊢
              rcases cs with ⟨v, s3, l3⟩
              have h3 : Event.snitchCreate ns e ∈ l3 →
                  ∃ pre3 post3, l3 = pre3 ++ Event.snitchCreate ns e :: post3 ∧
                    pre3.all Event.isRead = true := by
                intro hm
                obtain ⟨_, post, hl, _⟩ := hcs hm
                exact ⟨[_, _], post, hl, rfl⟩
              cases v with
              | some v =>
                simp only [pure_apply]
                intro h
                exact ⟨trivial, create_split l1 l2 l3 [] _ rfl ha hx hx2 h3 rfl h⟩
              | none =>
                simp only [bind_apply]
                have h4 := createSecret_logAll (fun x => !x.isSnitchCreate) r cfg dmsi1 dmsc cd1
                  (fun _ _ => rfl) (fun _ _ _ => rfl) (fun _ _ => rfl) s3
                generalize createSecret r cfg dmsi1 dmsc cd1 s3 = r4 at h4 ⊢
                rcases r4 with ⟨v4, s4, l4⟩
                cases v4 with
                | some v4 =>
                  simp only [pure_apply, List.append_nil]
                  intro h
                  exact ⟨trivial, create_split l1 l2 l3 l4 _ rfl ha hx hx2 h3 h4 h⟩
                | none =>
                  simp only [bind_apply]
                  have h5 := createSyncset_logAll (fun x => !x.isSnitchCreate) r cfg dmsi1 cd1
                    (fun _ _ => rfl) (fun _ _ => rfl) s4
                  generalize createSyncset r cfg dmsi1 cd1 s4 = r5 at h5 ⊢
                  rcases r5 with ⟨v5, s5, l5⟩
                  have h45 : (l4 ++ l5).all (fun x => !x.isSnitchCreate) = true := by
                    simp only [List.all_append, Bool.and_eq_true]
                    exact ⟨h4, h5⟩
                  cases v5 <;> simp only [pure_apply, List.append_nil] <;> intro h <;>
                    exact ⟨trivial, create_split l1 l2 l3 (l4 ++ l5) _ rfl ha hx hx2 h3 h45 h⟩
            · intro h
              exfalso
              simp only [pure_apply, List.append_nil] at h
              exact not_mem_of_all_not Event.isSnitchCreate l2 (Event.snitchCreate ns e) hx2 rfl
                (mem_append_of_all_not Event.isSnitchCreate l1 l2 (Event.snitchCreate ns e) ha rfl h)
theorem dmsAddFinalizer_guards (r : ReconcileDeadmansSnitchIntegration σ)
    (dmsi : DeadmansSnitchIntegration) (cd : ClusterDeployment) (s : σ) :
    ((dmsAddFinalizer r dmsi cd s).val.2 = none →
      HasFinalizer (dmsAddFinalizer r dmsi cd s).val.1.1.Finalizers
          (DeadMansSnitchFinalizerPrefix ++ dmsi.Name) = true ∧
        HasFinalizer (dmsAddFinalizer r dmsi cd s).val.1.2.Finalizers
          (DeadMansSnitchFinalizerPrefix ++ dmsi.Name) = true) ∧
    ∃ e1 e2, (dmsAddFinalizer r dmsi cd s).log =
      (if HasFinalizer cd.Finalizers (DeadMansSnitchFinalizerPrefix ++ dmsi.Name) = true then []
        else [Event.patchClusterDeployment
          { cd with Finalizers :=
            (AddFinalizer cd.Finalizers (DeadMansSnitchFinalizerPrefix ++ dmsi.Name)) } e1]) ++
      (if HasFinalizer dmsi.Finalizers (DeadMansSnitchFinalizerPrefix ++ dmsi.Name) = true ∨
          (HasFinalizer cd.Finalizers (DeadMansSnitchFinalizerPrefix ++ dmsi.Name) = false ∧
            e1.isSome = true) then []
        else [Event.updateDMSI
          { dmsi with Finalizers :=
            (AddFinalizer dmsi.Finalizers (DeadMansSnitchFinalizerPrefix ++ dmsi.Name)) } e2]) := by
  by_cases h1 : HasFinalizer cd.Finalizers (DeadMansSnitchFinalizerPrefix ++ dmsi.Name) = true
  · by_cases h2 : HasFinalizer dmsi.Finalizers (DeadMansSnitchFinalizerPrefix ++ dmsi.Name) = true
    · refine ⟨?_, none, none, ?_⟩ <;> simp [dmsAddFinalizer, bind_apply, h1, h2, pure_apply]
    · refine ⟨?_, none, (r.client.UpdateDMSI ({ dmsi with Finalizers :=
        (AddFinalizer dmsi.Finalizers (DeadMansSnitchFinalizerPrefix ++ dmsi.Name)) }) s).1, ?_⟩ <;>
        simp [dmsAddFinalizer, bind_apply, h1, h2, pure_apply, updateDMSI, call_apply,
          HasFinalizer_AddFinalizer]
  · obtain ⟨⟨e1, s1⟩, hp⟩ : ∃ x, r.client.PatchClusterDeployment
      { cd with Finalizers :=
        (AddFinalizer cd.Finalizers (DeadMansSnitchFinalizerPrefix ++ dmsi.Name)) } cd s = x :=
      ⟨_, rfl⟩
    cases e1 with
    | some e1 =>
      refine ⟨?_, some e1, none, ?_⟩ <;>
        simp [dmsAddFinalizer, bind_apply, h1, pure_apply, patchClusterDeployment, call_apply, hp]
    | none =>
      by_cases h2 : HasFinalizer dmsi.Finalizers (DeadMansSnitchFinalizerPrefix ++ dmsi.Name) = true
      · refine ⟨?_, none, none, ?_⟩ <;>
          simp [dmsAddFinalizer, bind_apply, h1, h2, pure_apply, patchClusterDeployment,
            call_apply, hp, HasFinalizer_AddFinalizer]
      · refine ⟨?_, none, (r.client.UpdateDMSI ({ dmsi with Finalizers :=
        (AddFinalizer dmsi.Finalizers (DeadMansSnitchFinalizerPrefix ++ dmsi.Name)) }) s1).1, ?_⟩ <;>
          simp [dmsAddFinalizer, bind_apply, h1, h2, pure_apply, patchClusterDeployment,
            call_apply, hp, updateDMSI, HasFinalizer_AddFinalizer]

theorem AddFinalizer_ne (fs : List String) (f : String) (h : HasFinalizer fs f = false) :
    AddFinalizer fs f ≠ fs := by
  unfold AddFinalizer
  unfold HasFinalizer at h
  simp only [h, Bool.false_eq_true, if_false]
  intro hc
  have := congrArg List.length hc
  simp at this

theorem hasCD_of_mem (w : World) (cd : ClusterDeployment) (h : cd ∈ w.cds) :
    w.hasCD cd.key = true :=
  List.any_eq_true.mpr ⟨cd, h, by simp⟩

theorem hasDMSI_of_mem (w : World) (d : DeadmansSnitchIntegration) (h : d ∈ w.dmsis) :
    w.hasDMSI d.key = true :=
  List.any_eq_true.mpr ⟨d, h, by simp⟩

theorem mem_patched (cd : ClusterDeployment) (fs : List String) (cds : List ClusterDeployment)
    (hcd : cd ∈ cds) (hne : fs ≠ cd.Finalizers) :
    ({ cd with Finalizers := fs } : ClusterDeployment) ∈
      cds.map (applyPatch { cd with Finalizers := fs } cd) := by
  simp only [List.mem_map]
  refine ⟨cd, hcd, ?_⟩
  simp [applyPatch, ClusterDeployment.key, hne]

theorem mem_updated (dmsi : DeadmansSnitchIntegration) (fs : List String)
    (l : List DeadmansSnitchIntegration) (hd : dmsi ∈ l) :
    ({ dmsi with Finalizers := fs } : DeadmansSnitchIntegration) ∈
      l.map (applyUpdate { dmsi with Finalizers := fs }) := by
  simp only [List.mem_map]
  exact ⟨dmsi, hd, by simp [applyUpdate, DeadmansSnitchIntegration.key]⟩

theorem dmsAddFinalizer_faithful (dmsi : DeadmansSnitchIntegration) (cd : ClusterDeployment)
    (w : World) (hcd : cd ∈ w.cds) (hd : dmsi ∈ w.dmsis)
    (hok : (dmsAddFinalizer faithful dmsi cd w).val.2 = none) :
    (dmsAddFinalizer faithful dmsi cd w).val.1.2 ∈ (dmsAddFinalizer faithful dmsi cd w).world.cds ∧
      (dmsAddFinalizer faithful dmsi cd w).val.1.1 ∈
        (dmsAddFinalizer faithful dmsi cd w).world.dmsis := by
  have hany : ∀ fs, w.hasCD ({ cd with Finalizers := fs } : ClusterDeployment).key = true :=
    fun _ => hasCD_of_mem w cd hcd
  have hanyd : ∀ fs, w.hasDMSI
      ({ dmsi with Finalizers := fs } : DeadmansSnitchIntegration).key = true :=
    fun _ => hasDMSI_of_mem w dmsi hd
  revert hok
  by_cases h1 : HasFinalizer cd.Finalizers (DeadMansSnitchFinalizerPrefix ++ dmsi.Name) = true
  · by_cases h2 : HasFinalizer dmsi.Finalizers (DeadMansSnitchFinalizerPrefix ++ dmsi.Name) = true
    · simp only [dmsAddFinalizer, bind_apply, h1, h2, Bool.not_true, Bool.false_eq_true, if_false,
        pure_apply]
      exact fun _ => ⟨hcd, hd⟩
    · simp only [dmsAddFinalizer, bind_apply, h1, h2, Bool.not_true, Bool.not_false,
        Bool.false_eq_true, if_false, if_true, pure_apply, updateDMSI, call_apply, faithful,
        World.UpdateDMSI, hanyd]
      intro _
      exact ⟨hcd, mem_updated dmsi _ _ hd⟩
  · have hne := AddFinalizer_ne cd.Finalizers (DeadMansSnitchFinalizerPrefix ++ dmsi.Name)
      (by simpa using h1)
    by_cases h2 : HasFinalizer dmsi.Finalizers (DeadMansSnitchFinalizerPrefix ++ dmsi.Name) = true
    · simp only [dmsAddFinalizer, bind_apply, h1, h2, Bool.not_true, Bool.not_false,
        Bool.false_eq_true, if_false, if_true, pure_apply, patchClusterDeployment, call_apply,
        faithful, World.PatchClusterDeployment, hany]
      intro _
      exact ⟨mem_patched cd _ _ hcd hne, hd⟩
    · have hd2 : ∀ cds fs, World.hasDMSI ⟨w.dmsis, cds, w.secrets, w.syncsets, w.snitches⟩
          ({ dmsi with Finalizers := fs } : DeadmansSnitchIntegration).key = true :=
        fun _ _ => hasDMSI_of_mem w dmsi hd
      simp only [dmsAddFinalizer, bind_apply, h1, h2, Bool.not_true, Bool.not_false,
        Bool.false_eq_true, if_false, if_true, pure_apply, patchClusterDeployment, call_apply,
        faithful, World.PatchClusterDeployment, hany, updateDMSI, World.UpdateDMSI, hd2]
      intro _
      exact ⟨mem_patched cd _ _ hcd hne, mem_updated dmsi _ _ hd⟩

end Guard

/-- C8: `dmsAddFinalizer`, when it returns no error, leaves the finalizer on both objects;
it patches the resource first and updates the intent second, each only when the
finalizer is absent (and the update only when the patch did not fail); in the
convergence of one resource a monitor create call is issued only after `dmsAddFinalizer`
returned without error, both objects then carry the finalizer, and only lookups lie
between the end of `dmsAddFinalizer` and the create call; over the faithful store the
objects `dmsAddFinalizer` returns are the stored ones. -/
theorem guard_before_create {σ : Type} (r : ReconcileDeadmansSnitchIntegration σ) (cfg : Config)
    (dmsc : DmsClient σ) (matching : List ClusterDeployment) (dmsi : DeadmansSnitchIntegration)
    (cd : ClusterDeployment) (s : σ) (w : World) :
    ((dmsAddFinalizer r dmsi cd s).val.2 = none →
      HasFinalizer (dmsAddFinalizer r dmsi cd s).val.1.1.Finalizers
          (DeadMansSnitchFinalizerPrefix ++ dmsi.Name) = true ∧
        HasFinalizer (dmsAddFinalizer r dmsi cd s).val.1.2.Finalizers
          (DeadMansSnitchFinalizerPrefix ++ dmsi.Name) = true) ∧
    (∃ e1 e2, (dmsAddFinalizer r dmsi cd s).log =
      (if HasFinalizer cd.Finalizers (DeadMansSnitchFinalizerPrefix ++ dmsi.Name) = true then []
        else [Event.patchClusterDeployment
          { cd with Finalizers :=
            (AddFinalizer cd.Finalizers (DeadMansSnitchFinalizerPrefix ++ dmsi.Name)) } e1]) ++
      (if HasFinalizer dmsi.Finalizers (DeadMansSnitchFinalizerPrefix ++ dmsi.Name) = true ∨
          (HasFinalizer cd.Finalizers (DeadMansSnitchFinalizerPrefix ++ dmsi.Name) = false ∧
            e1.isSome = true) then []
        else [Event.updateDMSI
          { dmsi with Finalizers :=
            (AddFinalizer dmsi.Finalizers (DeadMansSnitchFinalizerPrefix ++ dmsi.Name)) } e2])) ∧
    (∀ ns e, Event.snitchCreate ns e ∈ (reconcileClusterDeployment r cfg dmsc matching
        (DeadMansSnitchFinalizerPrefix ++ dmsi.Name) dmsi cd s).log →
      (dmsAddFinalizer r dmsi cd s).val.2 = none ∧
      HasFinalizer (dmsAddFinalizer r dmsi cd s).val.1.1.Finalizers
          (DeadMansSnitchFinalizerPrefix ++ dmsi.Name) = true ∧
      HasFinalizer (dmsAddFinalizer r dmsi cd s).val.1.2.Finalizers
          (DeadMansSnitchFinalizerPrefix ++ dmsi.Name) = true ∧
      ∃ pre post, (reconcileClusterDeployment r cfg dmsc matching
          (DeadMansSnitchFinalizerPrefix ++ dmsi.Name) dmsi cd s).log =
        (dmsAddFinalizer r dmsi cd s).log ++ pre ++ Event.snitchCreate ns e :: post ∧
        pre.all Event.isRead = true) ∧
    (cd ∈ w.cds → dmsi ∈ w.dmsis → (dmsAddFinalizer faithful dmsi cd w).val.2 = none →
      (dmsAddFinalizer faithful dmsi cd w).val.1.2 ∈
          (dmsAddFinalizer faithful dmsi cd w).world.cds ∧
        (dmsAddFinalizer faithful dmsi cd w).val.1.1 ∈
          (dmsAddFinalizer faithful dmsi cd w).world.dmsis) := by
  refine ⟨(dmsAddFinalizer_guards r dmsi cd s).1, (dmsAddFinalizer_guards r dmsi cd s).2, ?_,
    dmsAddFinalizer_faithful dmsi cd w⟩
  intro ns e h
  obtain ⟨h1, h2⟩ := reconcileClusterDeployment_create r cfg dmsc matching dmsi cd s ns e h
  exact ⟨h1, ((dmsAddFinalizer_guards r dmsi cd s).1 h1).1,
    ((dmsAddFinalizer_guards r dmsi cd s).1 h1).2, h2⟩

/-! ## C2, C4: passes that return success after a step did not complete -/

set_option maxRecDepth 100000 in
/-- C2: the intent is being deleted, one resource carries its finalizer and has a live
monitor, and the monitor delete reports "not deleted" without an error: `Reconcile`
returns success and removes the intent's finalizer although the teardown of the resource
stopped after the delete call; the monitor, the secret, the SyncSet and the finalizer of
the resource are all still there. -/
theorem Reconcile_unguards_intent_after_refused_delete :
    (Reconcile faithful.withFaults exampleConfig exampleRequest
        (deletingWorld, refusedDelete)).val = none ∧
    (Reconcile faithful.withFaults exampleConfig exampleRequest
        (deletingWorld, refusedDelete)).log =
      [Event.getDMSI exampleRequest none,
       Event.loadSecretData "api" "dms" deadMansSnitchAPISecretKey none,
       Event.listClusterDeployments (some ⟨[⟨"tier", SelectionOp.isIn, ["prod"]⟩]⟩) none,
       Event.listClusterDeployments none none,
       Event.findSnitchesByName "a.example.com" [monitorA] none,
       Event.snitchDelete 0 false none,
       Event.updateDMSI { deletingIntent with Finalizers := [] } none] ∧
    (Reconcile faithful.withFaults exampleConfig exampleRequest
        (deletingWorld, refusedDelete)).world.1 =
      { deletingWorld with dmsis := [{ deletingIntent with Finalizers := [] }] } := by
  decide

set_option maxRecDepth 100000 in
/-- C4: on a selected, installed, running resource without monitor or artifacts, the
SyncSet lookup of `createSnitch` fails with an error other than "not found": the error is
dropped, the pass goes on (it looks up the secret and the monitors, then creates the
SyncSet) and `Reconcile` returns success, without any monitor having been looked for or
created by `createSnitch`; and when the SyncSet lookup of `createSyncset` fails in that
way the pass returns success as well, without the SyncSet having been created. -/
theorem Reconcile_drops_syncset_lookup_errors :
    ((Reconcile faithful.withFaults exampleConfig exampleRequest
        (freshWorld, failedSyncSetLookup)).val = none ∧
      (Reconcile faithful.withFaults exampleConfig exampleRequest
          (freshWorld, failedSyncSetLookup)).log.drop 8 =
        [Event.getSyncSet ⟨"uhc-a", "a-dms-secret"⟩
            (some (Err.other "etcdserver: request timed out")),
          Event.getSecret ⟨"uhc-a", "a-dms-secret"⟩ (some Err.notFound),
          Event.findSnitchesByName "a.example.com" [] none,
          Event.getSyncSet ⟨"uhc-a", "a-dms-secret"⟩ (some Err.notFound),
          Event.createSyncSet
            { syncSetA with OwnerReferences := [⟨"ClusterDeployment", "a", "uid-a", true⟩] } none] ∧
      (Reconcile faithful.withFaults exampleConfig exampleRequest
          (freshWorld, failedSyncSetLookup)).world.1.snitches = []) ∧
    ((Reconcile faithful.withFaults exampleConfig exampleRequest
        (freshWorld, failedLastSyncSetLookup)).val = none ∧
      (Reconcile faithful.withFaults exampleConfig exampleRequest
          (freshWorld, failedLastSyncSetLookup)).log.drop 16 =
        [Event.getSyncSet ⟨"uhc-a", "a-dms-secret"⟩
            (some (Err.other "etcdserver: request timed out"))] ∧
      (Reconcile faithful.withFaults exampleConfig exampleRequest
          (freshWorld, failedLastSyncSetLookup)).world.1.syncsets = []) := by
  decide

/-! # The faithful collaborators -/

/-! ## The faithful monitor service -/

theorem findFrom_eq_nil_iff (name : String) (i : Nat) (l : List (Option Snitch)) :
    findFrom name i l = [] ↔
      (l.any fun o => match o with
        | some d => d.Name == name
        | none => false) = false := by
  induction l generalizing i with
  | nil => simp [findFrom]
  | cons o l ih =>
    cases o with
    | none => simp [findFrom, ih]
    | some d =>
      by_cases h : d.Name = name
      · simp [findFrom, h]
      · simp [findFrom, h, ih]

theorem findSnitches_eq_nil_iff (w : World) (name : String) :
    w.findSnitches name = [] ↔ w.hasSnitch name = false :=
  findFrom_eq_nil_iff name 0 w.snitches

theorem deleteSnitches_findFrom (name : String) (suf pre : List (Option Snitch)) (w : World) :
    (deleteSnitches faithfulDms (findFrom name pre.length suf)
        { w with snitches := pre ++ suf }).val = Ctl.next ∧
      (deleteSnitches faithfulDms (findFrom name pre.length suf)
        { w with snitches := pre ++ suf }).world =
        { w with snitches := pre ++ killNamed name suf } := by
  induction suf generalizing pre with
  | nil => simp [findFrom, deleteSnitches, pure_apply, killNamed]
  | cons o t ih =>
    cases o with
    | none =>
      have h := ih (pre ++ [none])
      simp only [List.length_append, List.length_singleton, List.append_assoc,
        List.singleton_append] at h
      simpa [findFrom, killNamed] using h
    | some d =>
      by_cases hn : d.Name = name
      · have h := ih (pre ++ [none])
        simp only [List.length_append, List.length_singleton, List.append_assoc,
          List.singleton_append] at h
        simp only [findFrom, hn, if_true, deleteSnitches, bind_apply, snitchDelete, call_apply,
          faithfulDms, World.Delete]
        have hget : (pre ++ some d :: t).getD pre.length none = some d := by
          rw [List.getD_eq_getElem?_getD, List.getElem?_append_right (le_refl _)]
          simp
        have hset : (pre ++ some d :: t).set pre.length none = pre ++ none :: t := by
          simp [List.set_append]
        simp only [hget, hset]
        simp only [Bool.not_true, Option.isSome_none, Bool.or_self, Bool.false_eq_true, if_false]
        refine ⟨?_, ?_⟩
        · simpa [faithfulDms] using h.1
        · have := h.2
          simp only [faithfulDms] at this
          simp [this, killNamed, hn]
      · have h := ih (pre ++ [some d])
        simp only [List.length_append, List.length_singleton, List.append_assoc,
          List.singleton_append] at h
        simpa [findFrom, killNamed, hn] using h

theorem deleteSnitches_faithful (name : String) (w : World) :
    (deleteSnitches faithfulDms (w.findSnitches name) w).val = Ctl.next ∧
      (deleteSnitches faithfulDms (w.findSnitches name) w).world =
        { w with snitches := killNamed name w.snitches } := by
  have h := deleteSnitches_findFrom name w.snitches [] w
  simpa [World.findSnitches] using h

/-! ## The faithful object store -/

theorem filter_key_ne_of_not_any {α : Type} (key : α → NamespacedName) (k : NamespacedName)
    (l : List α) (h : (l.any fun s => key s == k) = false) :
    l.filter (fun s => key s != k) = l := by
  rw [List.filter_eq_self]
  intro a ha
  have := (List.any_eq_false.mp h) a ha
  simpa [bne] using this

theorem DeleteSyncSet_faithful (name ns : String) (w : World) :
    (DeleteSyncSet faithful name ns w).val = none ∧
      (DeleteSyncSet faithful name ns w).world =
        { w with syncsets := w.syncsets.filter (fun s => s.key != ⟨ns, name⟩) } := by
  by_cases h : w.hasSyncSet ⟨ns, name⟩ = true
  · simp [DeleteSyncSet, bind_apply, getSyncSet, call_apply, faithful, World.GetSyncSet, h,
      deleteSyncSetObject, World.DeleteSyncSet, IsNotFound, pure_apply]
  · have h2 : w.hasSyncSet ⟨ns, name⟩ = false := by simpa using h
    have h3 := filter_key_ne_of_not_any SyncSet.key ⟨ns, name⟩ w.syncsets h2
    simp [DeleteSyncSet, bind_apply, getSyncSet, call_apply, faithful, World.GetSyncSet, h2,
      IsNotFound, pure_apply, h3]

theorem DeleteRefSecret_faithful (name ns : String) (w : World) :
    (DeleteRefSecret faithful name ns w).val = none ∧
      (DeleteRefSecret faithful name ns w).world =
        { w with secrets := w.secrets.filter (fun s => s.key != ⟨ns, name⟩) } := by
  by_cases h : w.hasSecret ⟨ns, name⟩ = true
  · simp [DeleteRefSecret, bind_apply, getSecret, call_apply, faithful, World.GetSecret, h,
      deleteSecretObject, World.DeleteSecret, IsNotFound, pure_apply]
  · have h2 : w.hasSecret ⟨ns, name⟩ = false := by simpa using h
    have h3 := filter_key_ne_of_not_any Secret.key ⟨ns, name⟩ w.secrets h2
    simp [DeleteRefSecret, bind_apply, getSecret, call_apply, faithful, World.GetSecret, h2,
      IsNotFound, pure_apply, h3]

/-- The state after a teardown of a resource, before its finalizer is patched away: the
monitors of its derived name, its SyncSet and its secret are gone. -/
theorem deleteDMS_faithful (cfg : Config) (dmsi : DeadmansSnitchIntegration)
    (cd : ClusterDeployment) (w : World) :
    (deleteDMSClusterDeployment faithful cfg dmsi cd faithfulDms w).world =
      { w with
        snitches := killNamed (monitorName cfg dmsi cd) w.snitches
        syncsets := w.syncsets.filter (fun s => s.key != artifactKey cfg dmsi cd)
        secrets := w.secrets.filter (fun s => s.key != artifactKey cfg dmsi cd)
        cds := if HasFinalizer cd.Finalizers (DeadMansSnitchFinalizerPrefix ++ dmsi.Name) = true ∧
              w.hasCD cd.key = true then
            w.cds.map (applyPatch
              { cd with Finalizers :=
                (DeleteFinalizer cd.Finalizers (DeadMansSnitchFinalizerPrefix ++ dmsi.Name)) } cd)
          else w.cds } ∧
    ((deleteDMSClusterDeployment faithful cfg dmsi cd faithfulDms w).val.2 = none ↔
      (HasFinalizer cd.Finalizers (DeadMansSnitchFinalizerPrefix ++ dmsi.Name) = true →
        w.hasCD cd.key = true)) := by
  have h1 := deleteSnitches_faithful (monitorName cfg dmsi cd) w
  simp only [deleteDMSClusterDeployment, bind_apply, FindSnitchesByName, call_apply]
  have hfind : faithfulDms.FindSnitchesByName
      (getSnitchName cd dmsi.Spec.SnitchNamePostFix cfg.IsFedramp) w =
      ((w.findSnitches (monitorName cfg dmsi cd), none), w) := rfl
  simp only [hfind, bind_apply]
  generalize deleteSnitches faithfulDms (w.findSnitches (monitorName cfg dmsi cd)) w = r2 at h1 ⊢
  rcases r2 with ⟨c, w2, l2⟩
  obtain ⟨hc, hw2⟩ := h1
  simp only at hc hw2
  subst hc hw2
  simp only [bind_apply]
  have h3 := DeleteSyncSet_faithful (cfg.SecretName cd.Spec.ClusterName dmsi.Spec.SnitchNamePostFix)
    cd.Namespace { w with snitches := killNamed (monitorName cfg dmsi cd) w.snitches }
  generalize DeleteSyncSet faithful (cfg.SecretName cd.Spec.ClusterName dmsi.Spec.SnitchNamePostFix)
    cd.Namespace { w with snitches := killNamed (monitorName cfg dmsi cd) w.snitches } = r3
    at h3 ⊢
  rcases r3 with ⟨c3, w3, l3⟩
  obtain ⟨hc3, hw3⟩ := h3
  simp only at hc3 hw3
  subst hc3 hw3
  simp only [bind_apply]
  have h4 := DeleteRefSecret_faithful
    (cfg.SecretName cd.Spec.ClusterName dmsi.Spec.SnitchNamePostFix) cd.Namespace
    { w with
      snitches := killNamed (monitorName cfg dmsi cd) w.snitches
      syncsets := w.syncsets.filter (fun s => s.key != artifactKey cfg dmsi cd) }
  simp only [artifactKey] at h4 ⊢
  generalize DeleteRefSecret faithful
    (cfg.SecretName cd.Spec.ClusterName dmsi.Spec.SnitchNamePostFix) cd.Namespace _ = r4 at h4 ⊢
  rcases r4 with ⟨c4, w4, l4⟩
  obtain ⟨hc4, hw4⟩ := h4
  simp only at hc4 hw4
  subst hc4 hw4
  by_cases hfin : HasFinalizer cd.Finalizers (DeadMansSnitchFinalizerPrefix ++ dmsi.Name) = true
  · by_cases hcd : w.hasCD cd.key = true
    · have hcd2 : ∀ (a : List Secret) (b : List SyncSet) (c : List (Option Snitch)) fs,
          World.hasCD ⟨w.dmsis, w.cds, a, b, c⟩
            ({ cd with Finalizers := fs } : ClusterDeployment).key = true := fun _ _ _ _ => hcd
      simp [hfin, hcd, hcd2, bind_apply, patchClusterDeployment, call_apply, faithful,
        World.PatchClusterDeployment, pure_apply]
    · have hcd' : w.hasCD cd.key = false := by simpa using hcd
      have hcd2 : ∀ (a : List Secret) (b : List SyncSet) (c : List (Option Snitch)) fs,
          World.hasCD ⟨w.dmsis, w.cds, a, b, c⟩
            ({ cd with Finalizers := fs } : ClusterDeployment).key = false := fun _ _ _ _ => hcd'
      simp [hfin, hcd', hcd2, bind_apply, patchClusterDeployment, call_apply, faithful,
        World.PatchClusterDeployment, pure_apply]
  · simp [hfin, pure_apply]

/-! ## Relating the state before and after a piece -/

section Sat
variable {σ : Type}

theorem sat_pure {α : Type} {R : σ → σ → Prop} (hrefl : ∀ w, R w w) (a : α) :
    Op.sat R (pure a : Op σ α) := ⟨fun w => hrefl w⟩

theorem sat_bind {α β : Type} {R : σ → σ → Prop} (htrans : ∀ a b c, R a b → R b c → R a c)
    {m : Op σ α} {f : α → Op σ β} (h1 : Op.sat R m) (h2 : ∀ a, Op.sat R (f a)) :
    Op.sat R (m >>= f) := ⟨fun w => htrans _ _ _ (h1.run w) ((h2 _).run _)⟩

theorem sat_call {α : Type} {R : σ → σ → Prop} {f : σ → α × σ} {ev : α → Event}
    (h : ∀ w, R w (f w).2) : Op.sat R (call f ev) := ⟨fun w => h w⟩

end Sat

theorem Frame_refl (k : NamespacedName) (n : String) (key : NamespacedName) (w : World) :
    Frame k n key w w :=
  ⟨fun _ _ => rfl, fun _ _ => rfl, fun _ _ => rfl, id, by simp, fun _ _ => rfl, fun _ => rfl⟩

theorem Frame_trans (k : NamespacedName) (n : String) (key : NamespacedName) (a b c : World)
    (h1 : Frame k n key a b) (h2 : Frame k n key b c) : Frame k n key a c := by
  obtain ⟨s1, y1, m1, g1, hg1, hk1, hc1⟩ := h1
  obtain ⟨s2, y2, m2, g2, hg2, hk2, hc2⟩ := h2
  refine ⟨fun k2 h => (s2 k2 h).trans (s1 k2 h), fun k2 h => (y2 k2 h).trans (y1 k2 h),
    fun n2 h => (m2 n2 h).trans (m1 n2 h), g2 ∘ g1, ?_, ?_, ?_⟩
  · rw [hg2, hg1, List.map_map]
  · intro x hx
    simp only [Function.comp]
    rw [hk1 x hx, hk2 x hx]
  · intro x
    simp only [Function.comp]
    rw [hc2, hc1]

/-- A step that leaves the stored ClusterDeployments, the names of the live monitors and
the keys of the stored secrets and SyncSets as they are is within every frame. -/
theorem Frame_of_same (k : NamespacedName) (n : String) (key : NamespacedName) (w w2 : World)
    (hcds : w2.cds = w.cds) (hs : ∀ k2, w2.hasSecret k2 = w.hasSecret k2)
    (hy : ∀ k2, w2.hasSyncSet k2 = w.hasSyncSet k2)
    (hm : ∀ n2, w2.hasSnitch n2 = w.hasSnitch n2) : Frame k n key w w2 :=
  ⟨fun k2 _ => hs k2, fun k2 _ => hy k2, fun n2 _ => hm n2, id, by simp [hcds], fun _ _ => rfl,
    fun _ => rfl⟩

theorem any_set_of_getD {α : Type} (p : α → Bool) (d : α) (l : List α) (t : Nat) (a b : α)
    (h : l.getD t d = a) (hlt : t < l.length) (hp : p b = p a) : (l.set t b).any p = l.any p := by
  induction l generalizing t with
  | nil => simp at hlt
  | cons x xs ih =>
    cases t with
    | zero =>
      simp only [List.getD_cons_zero] at h
      subst h
      simp [hp]
    | succ t =>
      simp only [List.getD_cons_succ] at h
      simp only [List.set_cons_succ, List.any_cons]
      rw [ih t h (by simpa using hlt)]

theorem hasSnitch_checkIn (s : Snitch) (w : World) (n : String) :
    (World.CheckIn s w).2.hasSnitch n = w.hasSnitch n := by
  unfold World.CheckIn
  cases h : w.snitches.getD s.Token none with
  | none => rfl
  | some d =>
    simp only [World.hasSnitch]
    by_cases hlt : s.Token < w.snitches.length
    · exact any_set_of_getD _ none w.snitches s.Token (some d) _ h hlt rfl
    · rw [List.getD_eq_default _ _ (by omega)] at h
      cases h

theorem hasSnitch_create (s : Snitch) (w : World) (n : String) :
    (World.Create s w).2.hasSnitch n = (w.hasSnitch n || s.Name == n) := by
  simp [World.Create, World.hasSnitch]

theorem hasSecret_create (obj : Secret) (w : World) (k : NamespacedName) :
    (World.CreateSecret obj w).2.hasSecret k =
      (w.hasSecret k || (!w.hasSecret obj.key && obj.key == k)) := by
  unfold World.CreateSecret
  by_cases h : w.hasSecret obj.key = true
  · simp [h]
  · have h3 : (w.secrets.any fun s => s.key == obj.key) = false := by
      simpa [World.hasSecret] using h
    rw [if_neg h]
    simp [World.hasSecret, h3]

theorem hasSyncSet_create (obj : SyncSet) (w : World) (k : NamespacedName) :
    (World.CreateSyncSet obj w).2.hasSyncSet k =
      (w.hasSyncSet k || (!w.hasSyncSet obj.key && obj.key == k)) := by
  unfold World.CreateSyncSet
  by_cases h : w.hasSyncSet obj.key = true
  · simp [h]
  · have h3 : (w.syncsets.any fun s => s.key == obj.key) = false := by
      simpa [World.hasSyncSet] using h
    rw [if_neg h]
    simp [World.hasSyncSet, h3]

/-! ## What each piece may change over the faithful collaborators -/

theorem Frame_create (k : NamespacedName) (n : String) (key : NamespacedName) (s : Snitch)
    (hs : s.Name = n) (w : World) : Frame k n key w (World.Create s w).2 := by
  refine ⟨fun _ _ => rfl, fun _ _ => rfl, fun n2 h => ?_, id, by simp [World.Create],
    fun _ _ => rfl, fun _ => rfl⟩
  rw [hasSnitch_create, hs]
  have : (n == n2) = false := by simpa using fun h2 => h h2.symm
  simp [this]

theorem Frame_checkIn (k : NamespacedName) (n : String) (key : NamespacedName) (s : Snitch)
    (w : World) : Frame k n key w (World.CheckIn s w).2 := by
  refine Frame_of_same k n key w _ ?_ ?_ ?_ (fun n2 => hasSnitch_checkIn s w n2)
  · unfold World.CheckIn; split <;> rfl
  · intro k2; unfold World.CheckIn; split <;> rfl
  · intro k2; unfold World.CheckIn; split <;> rfl

theorem createSnitch_frame (cfg : Config) (dmsi : DeadmansSnitchIntegration)
    (cd : ClusterDeployment) (k key : NamespacedName) :
    Op.sat (Frame k (monitorName cfg dmsi cd) key)
      (createSnitch faithful cfg dmsi cd faithfulDms) := by
  unfold createSnitch
  repeat' first
    | exact sat_pure (Frame_refl _ _ _) _
    | exact sat_call (fun w => Frame_refl _ _ _ w)
    | exact sat_call (fun w => Frame_create _ _ _ _ rfl w)
    | exact sat_call (fun w => Frame_checkIn _ _ _ _ w)
    | apply sat_bind (Frame_trans _ _ _)
    | split
    | intro _
    | dsimp only

theorem Frame_createSecret (k : NamespacedName) (n : String) (key : NamespacedName)
    (obj : Secret) (hk : obj.key = k) (w : World) :
    Frame k n key w (World.CreateSecret obj w).2 := by
  refine ⟨fun k2 h => ?_, ?_, ?_, id, ?_, fun _ _ => rfl, fun _ => rfl⟩
  · rw [hasSecret_create, hk]
    have : (k == k2) = false := by simpa using fun h2 => h h2.symm
    simp [this]
  · intro k2 _; unfold World.CreateSecret; split <;> rfl
  · intro k2 _; unfold World.CreateSecret; split <;> rfl
  · unfold World.CreateSecret; split <;> simp

theorem Frame_createSyncSet (k : NamespacedName) (n : String) (key : NamespacedName)
    (obj : SyncSet) (hk : obj.key = k) (w : World) :
    Frame k n key w (World.CreateSyncSet obj w).2 := by
  refine ⟨?_, fun k2 h => ?_, ?_, id, ?_, fun _ _ => rfl, fun _ => rfl⟩
  · intro k2 _; unfold World.CreateSyncSet; split <;> rfl
  · rw [hasSyncSet_create, hk]
    have : (k == k2) = false := by simpa using fun h2 => h h2.symm
    simp [this]
  · intro k2 _; unfold World.CreateSyncSet; split <;> rfl
  · unfold World.CreateSyncSet; split <;> simp

theorem cdCore_applyPatch (obj base x : ClusterDeployment) :
    cdCore (applyPatch obj base x) = cdCore x := by
  unfold applyPatch
  split <;> rfl

theorem applyPatch_of_key_ne (obj base x : ClusterDeployment) (h : x.key ≠ obj.key) :
    applyPatch obj base x = x := by
  unfold applyPatch
  have : (x.key == obj.key) = false := by simpa using h
  simp [this]

theorem Frame_patch (k : NamespacedName) (n : String) (obj base : ClusterDeployment) (w : World) :
    Frame k n obj.key w (World.PatchClusterDeployment obj base w).2 := by
  unfold World.PatchClusterDeployment
  split
  · exact ⟨fun _ _ => rfl, fun _ _ => rfl, fun _ _ => rfl, applyPatch obj base, rfl,
      fun x hx => applyPatch_of_key_ne obj base x hx, fun x => cdCore_applyPatch obj base x⟩
  · exact Frame_refl _ _ _ _

theorem Frame_update (k : NamespacedName) (n : String) (key : NamespacedName)
    (obj : DeadmansSnitchIntegration) (w : World) :
    Frame k n key w (World.UpdateDMSI obj w).2 := by
  unfold World.UpdateDMSI
  split
  · exact Frame_of_same _ _ _ _ _ rfl (fun _ => rfl) (fun _ => rfl) (fun _ => rfl)
  · exact Frame_refl _ _ _ _

theorem createSecretLoop_frame (cfg : Config) (dmsi : DeadmansSnitchIntegration)
    (cd : ClusterDeployment) (n : String) (key : NamespacedName) (l : List Snitch) :
    Op.sat (Frame (artifactKey cfg dmsi cd) n key)
      (createSecretLoop faithful cfg cd
        (cfg.SecretName cd.Spec.ClusterName dmsi.Spec.SnitchNamePostFix) l) := by
  induction l with
  | nil => exact sat_pure (Frame_refl _ _ _) _
  | cons x rest ih =>
    unfold createSecretLoop
    dsimp only
    generalize SetControllerReference cd _ faithful.scheme = y
    cases y with
    | error e => exact sat_pure (Frame_refl _ _ _) _
    | ok refs =>
      dsimp only
      repeat' first
        | exact sat_pure (Frame_refl _ _ _) _
        | exact ih
        | exact sat_call (fun w => Frame_createSecret _ _ _ _ (by rfl) w)
        | apply sat_bind (Frame_trans _ _ _)
        | split
        | intro _

theorem createSecret_frame (cfg : Config) (dmsi : DeadmansSnitchIntegration)
    (cd : ClusterDeployment) (n : String) (key : NamespacedName) :
    Op.sat (Frame (artifactKey cfg dmsi cd) n key)
      (createSecret faithful cfg dmsi faithfulDms cd) := by
  unfold createSecret
  repeat' first
    | exact sat_pure (Frame_refl _ _ _) _
    | exact createSecretLoop_frame cfg dmsi cd n key _
    | exact sat_call (fun w => Frame_refl _ _ _ w)
    | apply sat_bind (Frame_trans _ _ _)
    | split
    | intro _
    | dsimp only

theorem createSyncset_frame (cfg : Config) (dmsi : DeadmansSnitchIntegration)
    (cd : ClusterDeployment) (n : String) (key : NamespacedName) :
    Op.sat (Frame (artifactKey cfg dmsi cd) n key) (createSyncset faithful cfg dmsi cd) := by
  unfold createSyncset
  apply sat_bind (Frame_trans _ _ _)
  · exact sat_call (fun w => Frame_refl _ _ _ w)
  · intro err
    dsimp only
    split
    · generalize SetControllerReference cd _ faithful.scheme = y
      cases y with
      | error e => exact sat_pure (Frame_refl _ _ _) _
      | ok refs =>
        dsimp only
        repeat' first
          | exact sat_pure (Frame_refl _ _ _) _
          | exact sat_call (fun w => Frame_createSyncSet _ _ _ _ (by rfl) w)
          | apply sat_bind (Frame_trans _ _ _)
          | split
          | intro _
    · exact sat_pure (Frame_refl _ _ _) _

theorem dmsAddFinalizer_frame (dmsi : DeadmansSnitchIntegration) (cd : ClusterDeployment)
    (k : NamespacedName) (n : String) :
    Op.sat (Frame k n cd.key) (dmsAddFinalizer faithful dmsi cd) := by
  unfold dmsAddFinalizer
  repeat' first
    | exact sat_pure (Frame_refl _ _ _) _
    | exact sat_call (fun w => Frame_patch k n _ cd w)
    | exact sat_call (fun w => Frame_update _ _ _ _ w)
    | apply sat_bind (Frame_trans _ _ _)
    | split
    | intro _
    | dsimp only

theorem snitchResourcesExist_faithful (cfg : Config) (dmsi : DeadmansSnitchIntegration)
    (cd : ClusterDeployment) (w : World) :
    (snitchResourcesExist faithful cfg dmsi cd w).val =
        (w.hasSecret (artifactKey cfg dmsi cd), w.hasSyncSet (artifactKey cfg dmsi cd), none) ∧
      (snitchResourcesExist faithful cfg dmsi cd w).world = w := by
  by_cases h1 : w.hasSecret (artifactKey cfg dmsi cd) = true <;>
    by_cases h2 : w.hasSyncSet (artifactKey cfg dmsi cd) = true <;>
    simp [artifactKey] at h1 h2 <;>
    simp [snitchResourcesExist, bind_apply, getSecret, getSyncSet, call_apply, faithful,
      World.GetSecret, World.GetSyncSet, h1, h2, IsNotFound, pure_apply, artifactKey]

/-! ## What each piece leaves untouched over the faithful collaborators -/

theorem Keeps_refl {β : Type} (π : World → β) (w : World) : Keeps π w w := rfl

theorem Keeps_trans {β : Type} (π : World → β) (a b c : World) (h1 : Keeps π a b)
    (h2 : Keeps π b c) : Keeps π a c := Eq.trans h2 h1

theorem StaysTrue_refl (p : World → Bool) (w : World) : StaysTrue p w w := fun h => h

theorem StaysTrue_trans (p : World → Bool) (a b c : World) (h1 : StaysTrue p a b)
    (h2 : StaysTrue p b c) : StaysTrue p a c := fun h => h2 (h1 h)

theorem createSnitch_keeps (cfg : Config) (dmsi : DeadmansSnitchIntegration)
    (cd : ClusterDeployment) :
    Op.sat (Keeps fun w => (w.secrets, w.syncsets, w.dmsis, w.cds))
      (createSnitch faithful cfg dmsi cd faithfulDms) := by
  unfold createSnitch
  repeat' first
    | exact sat_pure (Keeps_refl _) _
    | exact sat_call (fun w => Keeps_refl _ w)
    | exact sat_call (fun w => by
        show Keeps _ w (World.Create _ w).2
        rfl)
    | exact sat_call (fun w => by
        show Keeps _ w (World.CheckIn _ w).2
        unfold World.CheckIn Keeps
        split <;> rfl)
    | apply sat_bind (Keeps_trans _)
    | split
    | intro _
    | dsimp only

theorem createSecretLoop_keeps (cfg : Config) (cd : ClusterDeployment) (dmsSecret : String)
    (l : List Snitch) :
    Op.sat (Keeps fun w => (w.syncsets, w.snitches, w.dmsis, w.cds))
      (createSecretLoop faithful cfg cd dmsSecret l) := by
  induction l with
  | nil => exact sat_pure (Keeps_refl _) _
  | cons x rest ih =>
    unfold createSecretLoop
    dsimp only
    generalize SetControllerReference cd _ faithful.scheme = y
    cases y with
    | error e => exact sat_pure (Keeps_refl _) _
    | ok refs =>
      dsimp only
      repeat' first
        | exact sat_pure (Keeps_refl _) _
        | exact ih
        | exact sat_call (fun w => by
            show Keeps _ w (World.CreateSecret _ w).2
            unfold World.CreateSecret Keeps
            split <;> rfl)
        | apply sat_bind (Keeps_trans _)
        | split
        | intro _

theorem createSecret_keeps (cfg : Config) (dmsi : DeadmansSnitchIntegration)
    (cd : ClusterDeployment) :
    Op.sat (Keeps fun w => (w.syncsets, w.snitches, w.dmsis, w.cds))
      (createSecret faithful cfg dmsi faithfulDms cd) := by
  unfold createSecret
  repeat' first
    | exact sat_pure (Keeps_refl _) _
    | exact createSecretLoop_keeps cfg cd _ _
    | exact sat_call (fun w => Keeps_refl _ w)
    | apply sat_bind (Keeps_trans _)
    | split
    | intro _
    | dsimp only

theorem createSyncset_keeps (cfg : Config) (dmsi : DeadmansSnitchIntegration)
    (cd : ClusterDeployment) :
    Op.sat (Keeps fun w => (w.secrets, w.snitches, w.dmsis, w.cds))
      (createSyncset faithful cfg dmsi cd) := by
  unfold createSyncset
  apply sat_bind (Keeps_trans _)
  · exact sat_call (fun w => Keeps_refl _ w)
  · intro err
    dsimp only
    split
    · generalize SetControllerReference cd _ faithful.scheme = y
      cases y with
      | error e => exact sat_pure (Keeps_refl _) _
      | ok refs =>
        dsimp only
        repeat' first
          | exact sat_pure (Keeps_refl _) _
          | exact sat_call (fun w => by
              show Keeps _ w (World.CreateSyncSet _ w).2
              unfold World.CreateSyncSet Keeps
              split <;> rfl)
          | apply sat_bind (Keeps_trans _)
          | split
          | intro _
    · exact sat_pure (Keeps_refl _) _

theorem dmsAddFinalizer_keeps (dmsi : DeadmansSnitchIntegration) (cd : ClusterDeployment) :
    Op.sat (Keeps fun w => (w.secrets, w.syncsets, w.snitches))
      (dmsAddFinalizer faithful dmsi cd) := by
  unfold dmsAddFinalizer
  repeat' first
    | exact sat_pure (Keeps_refl _) _
    | exact sat_call (fun w => by
        show Keeps _ w (World.PatchClusterDeployment _ _ w).2
        unfold World.PatchClusterDeployment Keeps
        split <;> rfl)
    | exact sat_call (fun w => by
        show Keeps _ w (World.UpdateDMSI _ w).2
        unfold World.UpdateDMSI Keeps
        split <;> rfl)
    | apply sat_bind (Keeps_trans _)
    | split
    | intro _
    | dsimp only

/-- A live monitor of the given name stays live through `createSnitch`. -/
theorem createSnitch_mono (cfg : Config) (dmsi : DeadmansSnitchIntegration)
    (cd : ClusterDeployment) (n : String) :
    Op.sat (StaysTrue fun w => w.hasSnitch n)
      (createSnitch faithful cfg dmsi cd faithfulDms) := by
  unfold createSnitch
  repeat' first
    | exact sat_pure (StaysTrue_refl _) _
    | exact sat_call (fun w => StaysTrue_refl _ w)
    | exact sat_call (fun w => by
        show StaysTrue _ w (World.Create _ w).2
        intro h
        show (World.Create _ w).2.hasSnitch n = true
        rw [hasSnitch_create, show w.hasSnitch n = true from h]; rfl)
    | exact sat_call (fun w => by
        show StaysTrue _ w (World.CheckIn _ w).2
        intro h
        show (World.CheckIn _ w).2.hasSnitch n = true
        rw [hasSnitch_checkIn]; exact h)
    | apply sat_bind (StaysTrue_trans _)
    | split
    | intro _
    | dsimp only

/-- A stored secret of the given key stays stored through the loop of `createSecret`. -/
theorem createSecretLoop_mono (cfg : Config) (cd : ClusterDeployment) (dmsSecret : String)
    (k : NamespacedName) (l : List Snitch) :
    Op.sat (StaysTrue fun w => w.hasSecret k)
      (createSecretLoop faithful cfg cd dmsSecret l) := by
  induction l with
  | nil => exact sat_pure (StaysTrue_refl _) _
  | cons x rest ih =>
    unfold createSecretLoop
    dsimp only
    generalize SetControllerReference cd _ faithful.scheme = y
    cases y with
    | error e => exact sat_pure (StaysTrue_refl _) _
    | ok refs =>
      dsimp only
      repeat' first
        | exact sat_pure (StaysTrue_refl _) _
        | exact ih
        | exact sat_call (fun w => by
            show StaysTrue _ w (World.CreateSecret _ w).2
            intro h
            show (World.CreateSecret _ w).2.hasSecret k = true
            rw [hasSecret_create, show w.hasSecret k = true from h]; rfl)
        | apply sat_bind (StaysTrue_trans _)
        | split
        | intro _

/-! ## What each piece establishes over the faithful collaborators -/

theorem createSyncset_establish (cfg : Config) (dmsi : DeadmansSnitchIntegration)
    (cd : ClusterDeployment) (w : World)
    (h : (createSyncset faithful cfg dmsi cd w).val = none) :
    (createSyncset faithful cfg dmsi cd w).world.hasSyncSet (artifactKey cfg dmsi cd) = true := by
  revert h
  by_cases hy : w.hasSyncSet (artifactKey cfg dmsi cd) = true
  · have hy2 := hy
    simp only [artifactKey] at hy2
    simp [createSyncset, bind_apply, getSyncSet, call_apply, faithful, World.GetSyncSet, hy2,
      IsNotFound, pure_apply, hy]
  · have hy2 : w.hasSyncSet (artifactKey cfg dmsi cd) = false := by simpa using hy
    have hy3 := hy2
    simp only [artifactKey] at hy3
    simp only [createSyncset, bind_apply, getSyncSet, call_apply, faithful, World.GetSyncSet, hy3,
      IsNotFound, Bool.false_eq_true, if_false, if_true]
    generalize SetControllerReference cd _ operatorScheme = y
    cases y with
    | error e => simp [pure_apply]
    | ok refs =>
      simp only [bind_apply, createSyncSetObject, call_apply]
      intro _
      have hc := hasSyncSet_create
        { newSyncSet cd.Namespace (cfg.SecretName cd.Spec.ClusterName dmsi.Spec.SnitchNamePostFix)
            cd.Name dmsi with OwnerReferences := refs } w (artifactKey cfg dmsi cd)
      have hk : ({ newSyncSet cd.Namespace
          (cfg.SecretName cd.Spec.ClusterName dmsi.Spec.SnitchNamePostFix) cd.Name dmsi with
          OwnerReferences := refs } : SyncSet).key = artifactKey cfg dmsi cd := rfl
      rw [hk, hy2] at hc
      simp only [Bool.not_false, beq_self_eq_true, Bool.and_self, Bool.or_true] at hc
      generalize World.CreateSyncSet _ w = X at hc ⊢
      rcases X with ⟨e, w2⟩
      cases e <;> simpa [pure_apply] using hc

theorem createSyncset_quiet (cfg : Config) (dmsi : DeadmansSnitchIntegration)
    (cd : ClusterDeployment) (w : World)
    (hy : w.hasSyncSet (artifactKey cfg dmsi cd) = true) :
    (createSyncset faithful cfg dmsi cd w).world = w ∧
      (createSyncset faithful cfg dmsi cd w).log.all (fun x => !x.isMutation) = true := by
  simp only [artifactKey] at hy
  simp [createSyncset, bind_apply, getSyncSet, call_apply, faithful, World.GetSyncSet, hy,
    IsNotFound, pure_apply, Event.isMutation]

theorem createSnitch_quiet (cfg : Config) (dmsi : DeadmansSnitchIntegration)
    (cd : ClusterDeployment) (w : World)
    (hy : w.hasSyncSet (artifactKey cfg dmsi cd) = true) :
    (createSnitch faithful cfg dmsi cd faithfulDms w).world = w ∧
      (createSnitch faithful cfg dmsi cd faithfulDms w).log.all (fun x => !x.isMutation) = true := by
  simp only [artifactKey] at hy
  unfold createSnitch
  generalize (getClusterID cd cfg.IsFedramp).2 = c
  cases c with
  | some e => simp [pure_apply]
  | none =>
    simp [bind_apply, getSyncSet, call_apply, faithful, World.GetSyncSet, hy, IsNotFound,
      pure_apply, Event.isMutation]

theorem createSecret_quiet (cfg : Config) (dmsi : DeadmansSnitchIntegration)
    (cd : ClusterDeployment) (w : World)
    (h : w.hasSecret (artifactKey cfg dmsi cd) = true ∨
      w.hasSnitch (monitorName cfg dmsi cd) = false) :
    (createSecret faithful cfg dmsi faithfulDms cd w).world = w ∧
      (createSecret faithful cfg dmsi faithfulDms cd w).log.all (fun x => !x.isMutation) = true := by
  by_cases hs : w.hasSecret (artifactKey cfg dmsi cd) = true
  · simp only [artifactKey] at hs
    simp [createSecret, bind_apply, getSecret, call_apply, faithful, World.GetSecret, hs,
      IsNotFound, pure_apply, Event.isMutation]
  · have hs2 : w.hasSecret (artifactKey cfg dmsi cd) = false := by simpa using hs
    have hm : w.hasSnitch (monitorName cfg dmsi cd) = false := by
      rcases h with h | h
      · exact absurd h hs
      · exact h
    have hf := (findSnitches_eq_nil_iff w (monitorName cfg dmsi cd)).mpr hm
    simp only [artifactKey] at hs2
    simp only [monitorName] at hf
    simp [createSecret, bind_apply, getSecret, call_apply, faithful, World.GetSecret, hs2,
      IsNotFound, pure_apply, Event.isMutation, FindSnitchesByName, faithfulDms,
      World.FindSnitchesByName, hf, createSecretLoop]

theorem SetControllerReference_fresh (cd : ClusterDeployment) :
    SetControllerReference cd [] faithful.scheme =
      Except.ok [⟨"ClusterDeployment", cd.Name, cd.UID, true⟩] := by
  simp [SetControllerReference, controllerReference, faithful, operatorScheme]

theorem createSecretLoop_establish (cfg : Config) (cd : ClusterDeployment) (name : String)
    (x : Snitch) (rest : List Snitch) (w : World)
    (h : w.hasSecret ⟨cd.Namespace, name⟩ = false) :
    (createSecretLoop faithful cfg cd name (x :: rest) w).world.hasSecret ⟨cd.Namespace, name⟩ =
      true := by
  have hc := hasSecret_create
    { newDMSSecret cfg cd.Namespace name x.CheckInURL with
      OwnerReferences := [⟨"ClusterDeployment", cd.Name, cd.UID, true⟩] } w ⟨cd.Namespace, name⟩
  have hk : ({ newDMSSecret cfg cd.Namespace name x.CheckInURL with
      OwnerReferences := [⟨"ClusterDeployment", cd.Name, cd.UID, true⟩] } : Secret).key =
      ⟨cd.Namespace, name⟩ := rfl
  rw [hk, h] at hc
  simp only [Bool.not_false, beq_self_eq_true, Bool.and_self, Bool.or_true] at hc
  have hS : SetControllerReference cd (newDMSSecret cfg cd.Namespace name x.CheckInURL).OwnerReferences
      faithful.scheme = Except.ok [⟨"ClusterDeployment", cd.Name, cd.UID, true⟩] :=
    SetControllerReference_fresh cd
  rw [createSecretLoop]
  simp only [hS, bind_apply, createSecretObject, call_apply,
    show faithful.client.CreateSecret = World.CreateSecret from rfl]
  generalize World.CreateSecret _ w = X at hc ⊢
  rcases X with ⟨e, w2⟩
  cases e with
  | some e => simpa [pure_apply] using hc
  | none => exact (createSecretLoop_mono cfg cd name ⟨cd.Namespace, name⟩ rest).run w2 hc

theorem createSecret_establish (cfg : Config) (dmsi : DeadmansSnitchIntegration)
    (cd : ClusterDeployment) (w : World) :
    (createSecret faithful cfg dmsi faithfulDms cd w).world.hasSecret (artifactKey cfg dmsi cd) =
        true ∨
      (createSecret faithful cfg dmsi faithfulDms cd w).world.hasSnitch (monitorName cfg dmsi cd) =
        false := by
  by_cases hs : w.hasSecret (artifactKey cfg dmsi cd) = true
  · rw [(createSecret_quiet cfg dmsi cd w (Or.inl hs)).1]
    exact Or.inl hs
  · by_cases hm : w.hasSnitch (monitorName cfg dmsi cd) = true
    · left
      have hs2 : w.hasSecret (artifactKey cfg dmsi cd) = false := by simpa using hs
      have hne : w.findSnitches (monitorName cfg dmsi cd) ≠ [] := by
        intro hnil
        rw [(findSnitches_eq_nil_iff w _).mp hnil] at hm
        cases hm
      obtain ⟨x, rest, hx⟩ := List.exists_cons_of_ne_nil hne
      have hs3 := hs2
      simp only [artifactKey] at hs3
      simp only [monitorName] at hx
      have key : (createSecret faithful cfg dmsi faithfulDms cd w).world =
          (createSecretLoop faithful cfg cd
            (cfg.SecretName cd.Spec.ClusterName dmsi.Spec.SnitchNamePostFix) (x :: rest) w).world := by
        simp only [createSecret, bind_apply, getSecret, call_apply,
          show faithful.client.GetSecret = World.GetSecret from rfl, World.GetSecret, hs3,
          IsNotFound, Bool.false_eq_true, if_false, Option.isSome_some, Bool.not_true,
          Bool.and_false, if_true, Bool.true_and, FindSnitchesByName,
          show faithfulDms.FindSnitchesByName = World.FindSnitchesByName from rfl,
          World.FindSnitchesByName, hx]
        generalize createSecretLoop faithful cfg cd _ (x :: rest) w = r
        rcases r with ⟨c, w2, l⟩
        cases c <;> rfl
      rw [key]
      exact createSecretLoop_establish cfg cd _ x rest w hs3
    · have hm2 : w.hasSnitch (monitorName cfg dmsi cd) = false := by simpa using hm
      rw [(createSecret_quiet cfg dmsi cd w (Or.inr hm2)).1]
      exact Or.inr hm2

theorem createSnitch_establish (cfg : Config) (dmsi : DeadmansSnitchIntegration)
    (cd : ClusterDeployment) (w : World)
    (h : (createSnitch faithful cfg dmsi cd faithfulDms w).val = none)
    (hy : w.hasSyncSet (artifactKey cfg dmsi cd) = false) :
    (createSnitch faithful cfg dmsi cd faithfulDms w).world.hasSnitch (monitorName cfg dmsi cd) =
      true := by
  by_cases hm : w.hasSnitch (monitorName cfg dmsi cd) = true
  · exact (createSnitch_mono cfg dmsi cd _).run w hm
  · have hm2 : w.hasSnitch (monitorName cfg dmsi cd) = false := by simpa using hm
    have hf := (findSnitches_eq_nil_iff w (monitorName cfg dmsi cd)).mpr hm2
    simp only [artifactKey] at hy
    simp only [monitorName] at hf
    revert h
    unfold createSnitch
    generalize (getClusterID cd cfg.IsFedramp).2 = c
    cases c with
    | some e => simp [pure_apply]
    | none =>
      intro _
      simp only [bind_apply, getSyncSet, call_apply,
        show faithful.client.GetSyncSet = World.GetSyncSet from rfl, World.GetSyncSet, hy,
        IsNotFound, Bool.false_eq_true, if_false, Option.isSome_some, Bool.and_self, if_true,
        FindSnitchesByName, show faithfulDms.FindSnitchesByName = World.FindSnitchesByName from rfl,
        World.FindSnitchesByName, hf, List.length_nil, Nat.le_refl, snitchCreate,
        show faithfulDms.Create = World.Create from rfl, snitchCheckIn,
        show faithfulDms.CheckIn = World.CheckIn from rfl]
      have hc : ∀ s : Snitch, s.Name = getSnitchName cd dmsi.Spec.SnitchNamePostFix cfg.IsFedramp →
          (World.Create s w).2.hasSnitch (monitorName cfg dmsi cd) = true := by
        intro s hs
        rw [hasSnitch_create, hs]
        simp [monitorName]
      have hc2 := hc _ (rfl : ({ NewSnitch (getSnitchName cd dmsi.Spec.SnitchNamePostFix cfg.IsFedramp)
        dmsi.Spec.Tags "15_minute" "basic" with
          Notes := snitchNotes (getClusterID cd cfg.IsFedramp).1 } : Snitch).Name = _)
      have he : ∀ s : Snitch, (World.Create s w).1.2 = none := fun _ => rfl
      simp only [he]
      generalize World.Create _ w = X at hc2 ⊢
      rcases X with ⟨⟨s1, e1⟩, w1⟩
      simp only at hc2 ⊢
      simp only [gt_iff_lt, Nat.lt_irrefl, if_false]
      refine Op.sat.run (R := StaysTrue fun w => w.hasSnitch (monitorName cfg dmsi cd)) ?_ w1 hc2
      repeat' first
        | exact sat_pure (StaysTrue_refl _) _
        | exact sat_call (fun w => StaysTrue_refl _ w)
        | exact sat_call (fun w => by
            show StaysTrue _ w (World.CheckIn _ w).2
            intro h
            show (World.CheckIn _ w).2.hasSnitch _ = true
            rw [hasSnitch_checkIn]; exact h)
        | apply sat_bind (StaysTrue_trans _)
        | split
        | intro _
        | dsimp only

/-! ## The teardown of one resource over the faithful collaborators -/

theorem any_filter_key_ne {α : Type} (key : α → NamespacedName) (k k2 : NamespacedName)
    (l : List α) :
    ((l.filter fun s => key s != k).any fun s => key s == k2) =
      (!(k2 == k) && l.any fun s => key s == k2) := by
  rw [List.any_filter]
  by_cases h : k2 = k
  · subst h
    simp
  · have hf : (fun s => key s != k && key s == k2) = fun s => key s == k2 := by
      funext s
      by_cases h3 : key s = k2
      · simp [h3, h]
      · simp [h3]
    simp [hf, h]

theorem hasSnitch_killNamed (n n2 : String) (l : List (Option Snitch)) :
    ((killNamed n l).any fun o =>
      match o with
      | some d => d.Name == n2
      | none => false) =
    (!(n2 == n) && l.any fun o =>
      match o with
      | some d => d.Name == n2
      | none => false) := by
  unfold killNamed
  rw [List.any_map]
  by_cases h : n2 = n
  · subst h
    simp only [beq_self_eq_true, Bool.not_true, Bool.false_and]
    rw [List.any_eq_false]
    intro o _
    cases o with
    | none => simp
    | some d => by_cases h1 : d.Name = n2 <;> simp [h1]
  · have hf : ((fun o : Option Snitch =>
          match o with
          | some d => d.Name == n2
          | none => false) ∘
        fun o : Option Snitch =>
          match o with
          | some d => if d.Name = n then none else some d
          | none => none) =
        fun o : Option Snitch =>
          match o with
          | some d => d.Name == n2
          | none => false := by
      funext o
      cases o with
      | none => simp
      | some d =>
        by_cases h1 : d.Name = n
        · have : ¬ d.Name = n2 := fun h2 => h (h2.symm.trans h1)
          simp [h1, this]
          exact fun h2 => h h2.symm
        · simp [h1]
    rw [hf]
    simp [h]

theorem key_applyPatch (obj base x : ClusterDeployment) : (applyPatch obj base x).key = x.key := by
  unfold applyPatch
  split <;> rfl

theorem deleteDMS_gone (cfg : Config) (dmsi : DeadmansSnitchIntegration)
    (cd : ClusterDeployment) (w : World) :
    (deleteDMSClusterDeployment faithful cfg dmsi cd faithfulDms w).world.hasSecret
        (artifactKey cfg dmsi cd) = false ∧
      (deleteDMSClusterDeployment faithful cfg dmsi cd faithfulDms w).world.hasSyncSet
        (artifactKey cfg dmsi cd) = false ∧
      (deleteDMSClusterDeployment faithful cfg dmsi cd faithfulDms w).world.hasSnitch
        (monitorName cfg dmsi cd) = false := by
  rw [(deleteDMS_faithful cfg dmsi cd w).1]
  refine ⟨?_, ?_, ?_⟩
  · simp only [World.hasSecret]
    rw [any_filter_key_ne Secret.key]
    simp
  · simp only [World.hasSyncSet]
    rw [any_filter_key_ne SyncSet.key]
    simp
  · simp only [World.hasSnitch]
    rw [hasSnitch_killNamed]
    simp

theorem deleteDMS_frame (cfg : Config) (dmsi : DeadmansSnitchIntegration)
    (cd : ClusterDeployment) (w : World) :
    Frame (artifactKey cfg dmsi cd) (monitorName cfg dmsi cd) cd.key w
      (deleteDMSClusterDeployment faithful cfg dmsi cd faithfulDms w).world := by
  rw [(deleteDMS_faithful cfg dmsi cd w).1]
  refine ⟨fun k2 h => ?_, fun k2 h => ?_, fun n2 h => ?_, ?_⟩
  · simp only [World.hasSecret]
    rw [any_filter_key_ne Secret.key]
    simp [h]
  · simp only [World.hasSyncSet]
    rw [any_filter_key_ne SyncSet.key]
    simp [h]
  · simp only [World.hasSnitch]
    rw [hasSnitch_killNamed]
    simp [h]
  · dsimp only
    split
    · exact ⟨_, rfl, fun x hx => applyPatch_of_key_ne _ _ x hx, fun x => cdCore_applyPatch _ _ x⟩
    · exact ⟨id, by simp, fun _ _ => rfl, fun _ => rfl⟩

theorem deleteDMS_keeps (cfg : Config) (dmsi : DeadmansSnitchIntegration)
    (cd : ClusterDeployment) (w : World) :
    (deleteDMSClusterDeployment faithful cfg dmsi cd faithfulDms w).world.dmsis = w.dmsis := by
  rw [(deleteDMS_faithful cfg dmsi cd w).1]

/-- After a teardown that returned without error no stored ClusterDeployment of the
resource's key carries the finalizer. -/
theorem deleteDMS_unguards (cfg : Config) (dmsi : DeadmansSnitchIntegration)
    (cd : ClusterDeployment) (w : World)
    (hok : (deleteDMSClusterDeployment faithful cfg dmsi cd faithfulDms w).val.2 = none)
    (hf : HasFinalizer cd.Finalizers (DeadMansSnitchFinalizerPrefix ++ dmsi.Name) = true) :
    (deleteDMSClusterDeployment faithful cfg dmsi cd faithfulDms w).world.cds =
        w.cds.map (applyPatch
          { cd with Finalizers :=
            (DeleteFinalizer cd.Finalizers (DeadMansSnitchFinalizerPrefix ++ dmsi.Name)) } cd) ∧
      ∀ c ∈ (deleteDMSClusterDeployment faithful cfg dmsi cd faithfulDms w).world.cds,
        c.key = cd.key →
          HasFinalizer c.Finalizers (DeadMansSnitchFinalizerPrefix ++ dmsi.Name) = false := by
  have hcd := (deleteDMS_faithful cfg dmsi cd w).2.mp hok hf
  rw [(deleteDMS_faithful cfg dmsi cd w).1]
  dsimp only
  rw [if_pos ⟨hf, hcd⟩]
  refine ⟨rfl, ?_⟩
  intro c hc hkey
  obtain ⟨c0, _, rfl⟩ := List.mem_map.mp hc
  have hne : ({ cd with Finalizers :=
      (DeleteFinalizer cd.Finalizers (DeadMansSnitchFinalizerPrefix ++ dmsi.Name)) } :
      ClusterDeployment).Finalizers ≠ cd.Finalizers := by
    intro heq
    have := HasFinalizer_DeleteFinalizer cd.Finalizers (DeadMansSnitchFinalizerPrefix ++ dmsi.Name)
    dsimp only at heq
    rw [heq, hf] at this
    cases this
  have hk0 : c0.key = cd.key := by
    rw [key_applyPatch] at hkey
    exact hkey
  unfold applyPatch
  have hb : (c0.key == ({ cd with Finalizers :=
      (DeleteFinalizer cd.Finalizers (DeadMansSnitchFinalizerPrefix ++ dmsi.Name)) } :
      ClusterDeployment).key) = true := by
    simpa [ClusterDeployment.key] using hk0
  simp only [hb, Bool.true_and]
  rw [if_pos (by simpa using hne)]
  exact HasFinalizer_DeleteFinalizer _ _

/-! ## What the convergence of one resource depends on -/

theorem artifactKey_core (cfg : Config) (d d2 : DeadmansSnitchIntegration)
    (c c2 : ClusterDeployment) (hd : dmsiCore d2 = dmsiCore d) (hc : cdCore c2 = cdCore c) :
    artifactKey cfg d2 c2 = artifactKey cfg d c := by
  have h1 : d2.Spec = d.Spec :=
    (congrArg DeadmansSnitchIntegration.Spec hd : (dmsiCore d2).Spec = (dmsiCore d).Spec)
  have h2 : c2.Spec = c.Spec :=
    (congrArg ClusterDeployment.Spec hc : (cdCore c2).Spec = (cdCore c).Spec)
  have h3 : c2.Namespace = c.Namespace :=
    (congrArg ClusterDeployment.Namespace hc : (cdCore c2).Namespace = (cdCore c).Namespace)
  simp only [artifactKey, h1, h2, h3]

theorem monitorName_core (cfg : Config) (d d2 : DeadmansSnitchIntegration)
    (c c2 : ClusterDeployment) (hd : dmsiCore d2 = dmsiCore d) (hc : cdCore c2 = cdCore c) :
    monitorName cfg d2 c2 = monitorName cfg d c := by
  have h1 : d2.Spec = d.Spec :=
    (congrArg DeadmansSnitchIntegration.Spec hd : (dmsiCore d2).Spec = (dmsiCore d).Spec)
  have h2 : c2.Spec = c.Spec :=
    (congrArg ClusterDeployment.Spec hc : (cdCore c2).Spec = (cdCore c).Spec)
  have h3 : c2.Namespace = c.Namespace :=
    (congrArg ClusterDeployment.Namespace hc : (cdCore c2).Namespace = (cdCore c).Namespace)
  simp only [monitorName, getSnitchName, getInternalClusterID, h1, h2, h3]

theorem key_core (c c2 : ClusterDeployment) (hc : cdCore c2 = cdCore c) : c2.key = c.key := by
  have h2 : c2.Name = c.Name :=
    (congrArg ClusterDeployment.Name hc : (cdCore c2).Name = (cdCore c).Name)
  have h3 : c2.Namespace = c.Namespace :=
    (congrArg ClusterDeployment.Namespace hc : (cdCore c2).Namespace = (cdCore c).Namespace)
  simp only [ClusterDeployment.key, h2, h3]

theorem name_core (d d2 : DeadmansSnitchIntegration) (hd : dmsiCore d2 = dmsiCore d) :
    d2.Name = d.Name :=
  (congrArg DeadmansSnitchIntegration.Name hd : (dmsiCore d2).Name = (dmsiCore d).Name)

/-- The objects `dmsAddFinalizer` returns differ from those it was given in their
finalizers only. -/
theorem dmsAddFinalizer_core {σ : Type} (r : ReconcileDeadmansSnitchIntegration σ)
    (dmsi : DeadmansSnitchIntegration) (cd : ClusterDeployment) (s : σ) :
    dmsiCore (dmsAddFinalizer r dmsi cd s).val.1.1 = dmsiCore dmsi ∧
      cdCore (dmsAddFinalizer r dmsi cd s).val.1.2 = cdCore cd := by
  simp only [dmsAddFinalizer, bind_apply]
  by_cases h1 : HasFinalizer cd.Finalizers (DeadMansSnitchFinalizerPrefix ++ dmsi.Name) = true
  · simp only [h1, Bool.not_true, Bool.false_eq_true, if_false, pure_apply]
    by_cases h2 : HasFinalizer dmsi.Finalizers (DeadMansSnitchFinalizerPrefix ++ dmsi.Name) = true
    · simp only [h2, Bool.not_true, Bool.false_eq_true, if_false, pure_apply, and_self]
    · simp only [h2, Bool.not_false, if_true, bind_apply, pure_apply]
      refine ⟨?_, ?_⟩ <;> first | rfl | trivial
  · simp only [h1, Bool.not_false, if_true, bind_apply, pure_apply]
    generalize patchClusterDeployment r _ cd s = p
    rcases p with ⟨e, s1, l⟩
    cases e with
    | some e => refine ⟨?_, ?_⟩ <;> first | rfl | trivial
    | none =>
      simp only
      by_cases h2 : HasFinalizer dmsi.Finalizers (DeadMansSnitchFinalizerPrefix ++ dmsi.Name) = true
      · simp only [h2, Bool.not_true, Bool.false_eq_true, if_false, pure_apply]
        refine ⟨?_, ?_⟩ <;> first | rfl | trivial
      · simp only [h2, Bool.not_false, if_true, bind_apply, pure_apply]
        refine ⟨?_, ?_⟩ <;> first | rfl | trivial

/-! ## The convergence of one resource over the faithful collaborators -/

theorem sat_bind_val {σ α β : Type} {R : σ → σ → Prop}
    (htrans : ∀ a b c, R a b → R b c → R a c) (V : α → Prop)
    {m : Op σ α} {f : α → Op σ β} (h1 : Op.sat R m) (hv : ∀ w, V (m w).val)
    (h2 : ∀ a, V a → Op.sat R (f a)) : Op.sat R (m >>= f) :=
  ⟨fun w => htrans _ _ _ (h1.run w) ((h2 _ (hv w)).run _)⟩

/-- The convergence of one resource changes at most the secret and the SyncSet of the
resource's artifact key, the monitors of its derived name and the finalizers of the
stored ClusterDeployments of its key. -/
theorem reconcileClusterDeployment_frame (cfg : Config) (matching : List ClusterDeployment)
    (f : String) (dmsi : DeadmansSnitchIntegration) (cd : ClusterDeployment) :
    Op.sat (Frame (artifactKey cfg dmsi cd) (monitorName cfg dmsi cd) cd.key)
      (reconcileClusterDeployment faithful cfg faithfulDms matching f dmsi cd) := by
  unfold reconcileClusterDeployment
  dsimp only
  split
  · split
    · apply sat_bind (Frame_trans _ _ _) ⟨deleteDMS_frame cfg dmsi cd⟩
      intro d
      split <;> exact sat_pure (Frame_refl _ _ _) _
    · exact sat_pure (Frame_refl _ _ _) _
  · split
    · exact sat_pure (Frame_refl _ _ _) _
    · apply sat_bind_val (Frame_trans _ _ _)
        (fun a => dmsiCore a.1.1 = dmsiCore dmsi ∧ cdCore a.1.2 = cdCore cd)
        (dmsAddFinalizer_frame dmsi cd _ _) (dmsAddFinalizer_core faithful dmsi cd)
      rintro a ⟨h1, h2⟩
      have hk := artifactKey_core cfg dmsi a.1.1 cd a.1.2 h1 h2
      have hn := monitorName_core cfg dmsi a.1.1 cd a.1.2 h1 h2
      have hkey := key_core cd a.1.2 h2
      repeat' first
        | exact sat_pure (Frame_refl _ _ _) _
        | exact ⟨fun w => by
            rw [(snitchResourcesExist_faithful cfg _ _ w).2]
            exact Frame_refl _ _ _ w⟩
        | exact ⟨fun w => by
            rw [← hk, ← hn, ← hkey]
            exact deleteDMS_frame cfg _ _ w⟩
        | exact (by rw [← hn]; exact createSnitch_frame cfg _ _ _ _)
        | exact (by rw [← hk]; exact createSecret_frame cfg _ _ _ _)
        | exact (by rw [← hk]; exact createSyncset_frame cfg _ _ _ _)
        | apply sat_bind (Frame_trans _ _ _)
        | split
        | intro _
        | dsimp only

section Yields
variable {σ : Type}

theorem yields_pure {α : Type} {P : α → Prop} {a : α} (h : P a) :
    Op.yields P (pure a : Op σ α) := ⟨fun _ => h⟩

theorem yields_bind {α β : Type} {P : β → Prop} {m : Op σ α} {f : α → Op σ β}
    (h : ∀ a, Op.yields P (f a)) : Op.yields P (m >>= f) := ⟨fun _ => (h _).run _⟩

theorem yields_bind_val {α β : Type} {P : β → Prop} (V : α → Prop) {m : Op σ α}
    {f : α → Op σ β} (hv : ∀ w, V (m w).val) (h : ∀ a, V a → Op.yields P (f a)) :
    Op.yields P (m >>= f) := ⟨fun w => (h _ (hv w)).run _⟩

/-- The convergence of one resource leaves the intent as it is up to its finalizers, and
when it makes `Reconcile` return, it does so with an error. -/
theorem reconcileClusterDeployment_yields (r : ReconcileDeadmansSnitchIntegration σ)
    (cfg : Config) (dmsc : DmsClient σ) (matching : List ClusterDeployment) (f : String)
    (dmsi : DeadmansSnitchIntegration) (cd : ClusterDeployment) :
    Op.yields (fun b => dmsiCore b.1 = dmsiCore dmsi ∧ b.2 ≠ Ctl.ret none)
      (reconcileClusterDeployment r cfg dmsc matching f dmsi cd) := by
  unfold reconcileClusterDeployment
  dsimp only
  split
  · repeat' first
      | exact yields_pure ⟨rfl, by simp⟩
      | apply yields_bind
      | split
      | intro _
  · split
    · exact yields_pure ⟨rfl, by simp⟩
    · apply yields_bind_val (fun a => dmsiCore a.1.1 = dmsiCore dmsi)
        (fun w => (dmsAddFinalizer_core r dmsi cd w).1)
      intro a h1
      repeat' first
        | exact yields_pure ⟨h1, by simp⟩
        | apply yields_bind
        | split
        | intro _

theorem reconcileClusterDeployments_yields (r : ReconcileDeadmansSnitchIntegration σ)
    (cfg : Config) (dmsc : DmsClient σ) (matching : List ClusterDeployment) (f : String)
    (l : List ClusterDeployment) (dmsi d0 : DeadmansSnitchIntegration)
    (h0 : dmsiCore dmsi = dmsiCore d0) :
    Op.yields (fun b => dmsiCore b.1 = dmsiCore d0 ∧ b.2 ≠ Ctl.ret none)
      (reconcileClusterDeployments r cfg dmsc matching f dmsi l) := by
  induction l generalizing dmsi with
  | nil => exact yields_pure ⟨h0, by simp⟩
  | cons x rest ih =>
    unfold reconcileClusterDeployments
    apply yields_bind_val (fun b => dmsiCore b.1 = dmsiCore d0 ∧ b.2 ≠ Ctl.ret none)
      (fun w => by
        have := (reconcileClusterDeployment_yields r cfg dmsc matching f dmsi x).run w
        exact ⟨this.1.trans h0, this.2⟩)
    rintro b ⟨hb1, hb2⟩
    split
    · rename_i e he
      refine yields_pure ⟨hb1, ?_⟩
      rw [← he]
      exact hb2
    · exact ih b.1 hb1

theorem teardownGuarded_yields (r : ReconcileDeadmansSnitchIntegration σ) (cfg : Config)
    (dmsi : DeadmansSnitchIntegration) (dmsc : DmsClient σ) (f : String)
    (l : List ClusterDeployment) :
    Op.yields (fun c => c ≠ Ctl.ret none) (teardownGuarded r cfg dmsi dmsc f l) := by
  induction l with
  | nil => exact yields_pure (by simp)
  | cons x rest ih =>
    unfold teardownGuarded
    repeat' first
      | exact ih
      | exact yields_pure (by simp)
      | apply yields_bind
      | split
      | intro _

end Yields

/-- The convergence of a managed, installed resource, step by step: `dmsAddFinalizer`
runs first; when it succeeds the two artifacts are looked up, and a hibernating resource
with an artifact is torn down, while any other resource with a missing artifact goes
through `createSnitch`, `createSecret` and `createSyncset` until one of them fails. -/
theorem reconcileClusterDeployment_main (cfg : Config) (matching : List ClusterDeployment)
    (f : String) (dmsi : DeadmansSnitchIntegration) (cd : ClusterDeployment) (w : World)
    (hA : unmanaged matching cd = false) (hI : cd.Spec.Installed = true) :
    ((dmsAddFinalizer faithful dmsi cd w).val.2 ≠ none ∧
      (reconcileClusterDeployment faithful cfg faithfulDms matching f dmsi cd w).val.2 ≠ Ctl.next ∧
      (reconcileClusterDeployment faithful cfg faithfulDms matching f dmsi cd w).world =
        (dmsAddFinalizer faithful dmsi cd w).world ∧
      (reconcileClusterDeployment faithful cfg faithfulDms matching f dmsi cd w).log =
        (dmsAddFinalizer faithful dmsi cd w).log) ∨
    (∃ d1 c1 w1 l1 lx, dmsAddFinalizer faithful dmsi cd w = ⟨((d1, c1), none), w1, l1⟩ ∧
      lx.all Event.isRead = true ∧
        if cd.Spec.PowerState == HibernatingClusterPowerState then
          if w1.hasSecret (artifactKey cfg dmsi cd) || w1.hasSyncSet (artifactKey cfg dmsi cd) then
            (reconcileClusterDeployment faithful cfg faithfulDms matching f dmsi cd w).world =
                (deleteDMSClusterDeployment faithful cfg d1 c1 faithfulDms w1).world ∧
              (reconcileClusterDeployment faithful cfg faithfulDms matching f dmsi cd w).log =
                l1 ++ (lx ++ (deleteDMSClusterDeployment faithful cfg d1 c1 faithfulDms w1).log)
          else
            (reconcileClusterDeployment faithful cfg faithfulDms matching f dmsi cd w).world = w1 ∧
              (reconcileClusterDeployment faithful cfg faithfulDms matching f dmsi cd w).log =
                l1 ++ lx
        else
          if w1.hasSecret (artifactKey cfg dmsi cd) && w1.hasSyncSet (artifactKey cfg dmsi cd) then
            (reconcileClusterDeployment faithful cfg faithfulDms matching f dmsi cd w).world = w1 ∧
              (reconcileClusterDeployment faithful cfg faithfulDms matching f dmsi cd w).log =
                l1 ++ lx
          else
            (reconcileClusterDeployment faithful cfg faithfulDms matching f dmsi cd w).world =
                (if (createSnitch faithful cfg d1 c1 faithfulDms w1).val = none then
                  if (createSecret faithful cfg d1 faithfulDms c1
                      (createSnitch faithful cfg d1 c1 faithfulDms w1).world).val = none then
                    (createSyncset faithful cfg d1 c1
                      (createSecret faithful cfg d1 faithfulDms c1
                        (createSnitch faithful cfg d1 c1 faithfulDms w1).world).world).world
                  else
                    (createSecret faithful cfg d1 faithfulDms c1
                      (createSnitch faithful cfg d1 c1 faithfulDms w1).world).world
                else (createSnitch faithful cfg d1 c1 faithfulDms w1).world) ∧
              (reconcileClusterDeployment faithful cfg faithfulDms matching f dmsi cd w).log =
                l1 ++ (lx ++ ((createSnitch faithful cfg d1 c1 faithfulDms w1).log ++
                  if (createSnitch faithful cfg d1 c1 faithfulDms w1).val = none then
                    (createSecret faithful cfg d1 faithfulDms c1
                      (createSnitch faithful cfg d1 c1 faithfulDms w1).world).log ++
                    (if (createSecret faithful cfg d1 faithfulDms c1
                        (createSnitch faithful cfg d1 c1 faithfulDms w1).world).val = none then
                      (createSyncset faithful cfg d1 c1
                        (createSecret faithful cfg d1 faithfulDms c1
                          (createSnitch faithful cfg d1 c1 faithfulDms w1).world).world).log
                    else [])
                  else [])) ∧
              ((reconcileClusterDeployment faithful cfg faithfulDms matching f dmsi cd w).val.2 =
                  Ctl.next →
                (createSnitch faithful cfg d1 c1 faithfulDms w1).val = none ∧
                (createSecret faithful cfg d1 faithfulDms c1
                  (createSnitch faithful cfg d1 c1 faithfulDms w1).world).val = none ∧
                (createSyncset faithful cfg d1 c1
                  (createSecret faithful cfg d1 faithfulDms c1
                    (createSnitch faithful cfg d1 c1 faithfulDms w1).world).world).val = none)) := by
  unfold unmanaged at hA
  simp only [reconcileClusterDeployment, hA, hI, Bool.false_eq_true, if_false, Bool.not_true,
    bind_apply]
  have hcore := dmsAddFinalizer_core faithful dmsi cd w
  generalize dmsAddFinalizer faithful dmsi cd w = ra at hcore ⊢
  rcases ra with ⟨⟨⟨d1, c1⟩, e1⟩, w1, l1⟩
  obtain ⟨hd, hc⟩ := hcore
  simp only at hd hc
  have hk := artifactKey_core cfg dmsi d1 cd c1 hd hc
  have hp : c1.Spec = cd.Spec :=
    (congrArg ClusterDeployment.Spec hc : (cdCore c1).Spec = (cdCore cd).Spec)
  cases e1 with
  | some e =>
    left
    simp [pure_apply]
  | none =>
    right
    simp only [bind_apply]
    have hx := snitchResourcesExist_faithful cfg d1 c1 w1
    have hxl := snitchResourcesExist_logAll Event.isRead faithful cfg d1 c1 (fun _ _ => rfl)
      (fun _ _ => rfl) w1
    generalize snitchResourcesExist faithful cfg d1 c1 w1 = rx at hx hxl ⊢
    rcases rx with ⟨⟨se, ye, ex⟩, w2, lx⟩
    obtain ⟨hxv, hxw⟩ := hx
    simp only [Prod.mk.injEq] at hxv hxw
    obtain ⟨rfl, rfl, rfl⟩ := hxv
    subst hxw
    refine ⟨d1, c1, w2, l1, lx, rfl, hxl, ?_⟩
    simp only [hk, hp]
    by_cases hh : (cd.Spec.PowerState == HibernatingClusterPowerState) = true
    · simp only [hh, if_true]
      by_cases hs : w2.hasSecret (artifactKey cfg dmsi cd) = true
      · simp only [hs, Bool.true_or, if_true, bind_apply]
        generalize deleteDMSClusterDeployment faithful cfg d1 c1 faithfulDms w2 = rd
        rcases rd with ⟨⟨c2, e2⟩, w3, l3⟩
        cases e2 <;> simp [pure_apply]
      · by_cases hy : w2.hasSyncSet (artifactKey cfg dmsi cd) = true
        · simp only [hy, Bool.or_true, if_true, bind_apply]
          generalize deleteDMSClusterDeployment faithful cfg d1 c1 faithfulDms w2 = rd
          rcases rd with ⟨⟨c2, e2⟩, w3, l3⟩
          cases e2 <;> simp [pure_apply]
        · simp [hs, hy, pure_apply]
    · simp only [hh, Bool.false_eq_true, if_false]
      have key : ∀ (h : (w2.hasSecret (artifactKey cfg dmsi cd) &&
          w2.hasSyncSet (artifactKey cfg dmsi cd)) = false),
          (!w2.hasSecret (artifactKey cfg dmsi cd) || !w2.hasSyncSet (artifactKey cfg dmsi cd)) =
            true := by
        intro h
        cases h1 : w2.hasSecret (artifactKey cfg dmsi cd) <;>
          cases h2 : w2.hasSyncSet (artifactKey cfg dmsi cd) <;> simp_all
      by_cases hb : (w2.hasSecret (artifactKey cfg dmsi cd) &&
          w2.hasSyncSet (artifactKey cfg dmsi cd)) = true
      · have hb2 := hb
        simp only [Bool.and_eq_true] at hb2
        simp [hb2.1, hb2.2, pure_apply]
      · have hb3 : (w2.hasSecret (artifactKey cfg dmsi cd) &&
            w2.hasSyncSet (artifactKey cfg dmsi cd)) = false := by simpa using hb
        simp only [hb3, key hb3, Bool.false_eq_true, if_false, if_true, bind_apply]
        generalize createSnitch faithful cfg d1 c1 faithfulDms w2 = r1
        rcases r1 with ⟨e1, w3, l3⟩
        cases e1 with
        | some e => simp [pure_apply]
        | none =>
          simp only [bind_apply, if_true]
          generalize createSecret faithful cfg d1 faithfulDms c1 w3 = r2
          rcases r2 with ⟨e2, w4, l4⟩
          cases e2 with
          | some e => simp [pure_apply]
          | none =>
            simp only [bind_apply, if_true]
            generalize createSyncset faithful cfg d1 c1 w4 = r3
            rcases r3 with ⟨e3, w5, l5⟩
            cases e3 <;> simp [pure_apply]

theorem hasSecret_congr (w w2 : World) (h : w2.secrets = w.secrets) (k : NamespacedName) :
    w2.hasSecret k = w.hasSecret k := by
  simp only [World.hasSecret, h]

theorem hasSyncSet_congr (w w2 : World) (h : w2.syncsets = w.syncsets) (k : NamespacedName) :
    w2.hasSyncSet k = w.hasSyncSet k := by
  simp only [World.hasSyncSet, h]

theorem hasSnitch_congr (w w2 : World) (h : w2.snitches = w.snitches) (n : String) :
    w2.hasSnitch n = w.hasSnitch n := by
  simp only [World.hasSnitch, h]

theorem settledArtifacts_congr (cfg : Config) (dmsi : DeadmansSnitchIntegration)
    (cd : ClusterDeployment) (w w2 : World) (h1 : w2.secrets = w.secrets)
    (h2 : w2.syncsets = w.syncsets) (h3 : w2.snitches = w.snitches) :
    settledArtifacts cfg dmsi cd w2 = settledArtifacts cfg dmsi cd w := by
  simp only [settledArtifacts, hasSecret_congr w w2 h1, hasSyncSet_congr w w2 h2,
    hasSnitch_congr w w2 h3]

/-- After the convergence of a managed, installed resource went through, its artifacts
are settled. -/
theorem reconcileClusterDeployment_settles (cfg : Config) (matching : List ClusterDeployment)
    (f : String) (dmsi : DeadmansSnitchIntegration) (cd : ClusterDeployment) (w : World)
    (hA : unmanaged matching cd = false) (hI : cd.Spec.Installed = true)
    (hok : (reconcileClusterDeployment faithful cfg faithfulDms matching f dmsi cd w).val.2 =
      Ctl.next) :
    settledArtifacts cfg dmsi cd
      (reconcileClusterDeployment faithful cfg faithfulDms matching f dmsi cd w).world = true := by
  have hcore := dmsAddFinalizer_core faithful dmsi cd w
  rcases reconcileClusterDeployment_main cfg matching f dmsi cd w hA hI with
    ⟨_, hne, _, _⟩ | ⟨d1, c1, w1, l1, lx, ha, hlx, h⟩
  · exact absurd hok hne
  · rw [ha] at hcore
    obtain ⟨hd, hc⟩ := hcore
    simp only at hd hc
    have hk := artifactKey_core cfg dmsi d1 cd c1 hd hc
    have hn := monitorName_core cfg dmsi d1 cd c1 hd hc
    unfold settledArtifacts
    by_cases hh : (cd.Spec.PowerState == HibernatingClusterPowerState) = true
    · simp only [hh, if_true] at h ⊢
      split at h
      · rw [h.1]
        have hg := deleteDMS_gone cfg d1 c1 w1
        rw [hk, hn] at hg
        simp [hg.1, hg.2.1]
      · rename_i hno
        rw [h.1]
        simpa using hno
    · simp only [hh, Bool.false_eq_true, if_false] at h ⊢
      split at h
      · rename_i hyes
        rw [h.1]
        simp only [Bool.and_eq_true] at hyes
        simp [hyes.1, hyes.2]
      · obtain ⟨hw, _, hv⟩ := h
        obtain ⟨v1, v2, v3⟩ := hv hok
        rw [hw, if_pos v1, if_pos v2]
        have e3 := createSyncset_establish cfg d1 c1 _ v3
        have k3 := (createSyncset_keeps cfg d1 c1).run
          (createSecret faithful cfg d1 faithfulDms c1
            (createSnitch faithful cfg d1 c1 faithfulDms w1).world).world
        have e2 := createSecret_establish cfg d1 c1
          (createSnitch faithful cfg d1 c1 faithfulDms w1).world
        simp only [Keeps, Prod.mk.injEq] at k3
        rw [hk] at e3 e2
        rw [hn] at e2
        rw [e3, hasSecret_congr _ _ k3.1, hasSnitch_congr _ _ k3.2.1]
        rcases e2 with e2 | e2 <;> simp [e2]

/-- When the SyncSet of a managed, installed, non-hibernating resource is missing and its
convergence went through, a live monitor of its derived name exists. -/
theorem reconcileClusterDeployment_monitor (cfg : Config) (matching : List ClusterDeployment)
    (f : String) (dmsi : DeadmansSnitchIntegration) (cd : ClusterDeployment) (w : World)
    (hA : unmanaged matching cd = false) (hI : cd.Spec.Installed = true)
    (hh : (cd.Spec.PowerState == HibernatingClusterPowerState) = false)
    (hy : w.hasSyncSet (artifactKey cfg dmsi cd) = false)
    (hok : (reconcileClusterDeployment faithful cfg faithfulDms matching f dmsi cd w).val.2 =
      Ctl.next) :
    (reconcileClusterDeployment faithful cfg faithfulDms matching f dmsi cd w).world.hasSnitch
      (monitorName cfg dmsi cd) = true := by
  have hcore := dmsAddFinalizer_core faithful dmsi cd w
  have hkeep := (dmsAddFinalizer_keeps dmsi cd).run w
  rcases reconcileClusterDeployment_main cfg matching f dmsi cd w hA hI with
    ⟨_, hne, _, _⟩ | ⟨d1, c1, w1, l1, lx, ha, hlx, h⟩
  · exact absurd hok hne
  · rw [ha] at hcore hkeep
    obtain ⟨hd, hc⟩ := hcore
    simp only at hd hc
    simp only [Keeps, Prod.mk.injEq] at hkeep
    have hk := artifactKey_core cfg dmsi d1 cd c1 hd hc
    have hn := monitorName_core cfg dmsi d1 cd c1 hd hc
    have hy1 : w1.hasSyncSet (artifactKey cfg dmsi cd) = false := by
      rw [hasSyncSet_congr _ _ hkeep.2.1]
      exact hy
    simp only [hh, Bool.false_eq_true, if_false, hy1, Bool.and_false] at h
    obtain ⟨hw, _, hv⟩ := h
    obtain ⟨v1, v2, v3⟩ := hv hok
    rw [hw, if_pos v1, if_pos v2]
    have e1 := createSnitch_establish cfg d1 c1 w1 v1 (by rw [hk]; exact hy1)
    have k2 := (createSecret_keeps cfg d1 c1).run (createSnitch faithful cfg d1 c1 faithfulDms w1).world
    have k3 := (createSyncset_keeps cfg d1 c1).run
      (createSecret faithful cfg d1 faithfulDms c1
        (createSnitch faithful cfg d1 c1 faithfulDms w1).world).world
    simp only [Keeps, Prod.mk.injEq] at k2 k3
    rw [hasSnitch_congr _ _ k3.2.1, hasSnitch_congr _ _ k2.2.1, ← hn]
    exact e1

theorem not_isMutation_of_isRead (l : List Event) (h : l.all Event.isRead = true) :
    l.all (fun x => !x.isMutation) = true := by
  rw [List.all_eq_true] at h ⊢
  intro x hx
  have := h x hx
  cases x <;> simp_all [Event.isRead, Event.isMutation]

/-- The convergence of a resource that needs nothing issues no create and no delete, and
leaves the secrets, the SyncSets and the monitors as they are: a resource to release that
does not carry the finalizer, a resource that is not installed, or a managed resource
whose artifacts are settled. -/
theorem reconcileClusterDeployment_quiet (cfg : Config) (matching : List ClusterDeployment)
    (f : String) (dmsi : DeadmansSnitchIntegration) (cd : ClusterDeployment) (w : World)
    (hfin : unmanaged matching cd = true → HasFinalizer cd.Finalizers f = false)
    (hart : unmanaged matching cd = false → cd.Spec.Installed = true →
      settledArtifacts cfg dmsi cd w = true) :
    (reconcileClusterDeployment faithful cfg faithfulDms matching f dmsi cd w).log.all
        (fun x => !x.isMutation) = true ∧
      (reconcileClusterDeployment faithful cfg faithfulDms matching f dmsi cd w).world.secrets =
        w.secrets ∧
      (reconcileClusterDeployment faithful cfg faithfulDms matching f dmsi cd w).world.syncsets =
        w.syncsets ∧
      (reconcileClusterDeployment faithful cfg faithfulDms matching f dmsi cd w).world.snitches =
        w.snitches := by
  by_cases hA : unmanaged matching cd = true
  · have hf := hfin hA
    unfold unmanaged at hA
    simp [reconcileClusterDeployment, hA, hf, pure_apply]
  · have hA2 : unmanaged matching cd = false := by simpa using hA
    by_cases hI : cd.Spec.Installed = true
    · have hcore := dmsAddFinalizer_core faithful dmsi cd w
      have hkeep := (dmsAddFinalizer_keeps dmsi cd).run w
      have hlog := dmsAddFinalizer_logAll (fun x => !x.isMutation) faithful dmsi cd
        (fun _ _ => rfl) (fun _ _ => rfl) w
      simp only [Keeps, Prod.mk.injEq] at hkeep
      rcases reconcileClusterDeployment_main cfg matching f dmsi cd w hA2 hI with
        ⟨_, _, hw, hl⟩ | ⟨d1, c1, w1, l1, lx, ha, hlx, h⟩
      · rw [hw, hl]
        exact ⟨hlog, hkeep⟩
      · rw [ha] at hcore hkeep hlog
        obtain ⟨hd, hc⟩ := hcore
        simp only at hd hc hkeep hlog
        have hk := artifactKey_core cfg dmsi d1 cd c1 hd hc
        have hn := monitorName_core cfg dmsi d1 cd c1 hd hc
        have hlx2 := not_isMutation_of_isRead lx hlx
        have hs := hart hA2 hI
        rw [← settledArtifacts_congr cfg dmsi cd w w1 hkeep.1 hkeep.2.1 hkeep.2.2] at hs
        unfold settledArtifacts at hs
        by_cases hh : (cd.Spec.PowerState == HibernatingClusterPowerState) = true
        · simp only [hh, if_true, Bool.and_eq_true, Bool.not_eq_true'] at hs h
          simp only [hs.1, hs.2, Bool.or_self, Bool.false_eq_true, if_false] at h
          rw [h.1, h.2]
          exact ⟨by simp [hlog, hlx2], hkeep⟩
        · simp only [hh, Bool.false_eq_true, if_false, Bool.and_eq_true, Bool.or_eq_true,
            Bool.not_eq_true'] at hs h
          by_cases hsec : w1.hasSecret (artifactKey cfg dmsi cd) = true
          · simp only [hs.1, hsec, and_self, if_true] at h
            rw [h.1, h.2]
            exact ⟨by simp [hlog, hlx2], hkeep⟩
          · have hsn : w1.hasSnitch (monitorName cfg dmsi cd) = false := by
              rcases hs.2 with h1 | h1
              · exact absurd h1 hsec
              · exact h1
            simp only [hsec, false_and, if_false] at h
            obtain ⟨hw, hl, _⟩ := h
            have q1 := createSnitch_quiet cfg d1 c1 w1 (by rw [hk]; exact hs.1)
            rw [q1.1] at hw hl
            have q2 := createSecret_quiet cfg d1 c1 w1 (Or.inr (by rw [hn]; exact hsn))
            rw [q2.1] at hw hl
            have q3 := createSyncset_quiet cfg d1 c1 w1 (by rw [hk]; exact hs.1)
            rw [q3.1] at hw
            have hw1 : (reconcileClusterDeployment faithful cfg faithfulDms matching f dmsi cd
                w).world = w1 := by
              rw [hw]
              split
              · split <;> rfl
              · rfl
            rw [hw1, hl]
            refine ⟨?_, hkeep⟩
            simp only [List.all_append, Bool.and_eq_true]
            refine ⟨hlog, hlx2, q1.2, ?_⟩
            split
            · simp only [List.all_append, Bool.and_eq_true]
              refine ⟨q2.2, ?_⟩
              split
              · exact q3.2
              · rfl
            · rfl
    · have hI2 : cd.Spec.Installed = false := by simpa using hI
      unfold unmanaged at hA2
      simp [reconcileClusterDeployment, hA2, hI2, pure_apply]

/-! ## The convergence loop over the faithful collaborators -/

theorem FrameOver_refl (ks : List NamespacedName) (ns : List String)
    (keys : List NamespacedName) (w : World) : FrameOver ks ns keys w w :=
  ⟨fun _ _ => rfl, fun _ _ => rfl, fun _ _ => rfl, id, by simp, fun _ _ => rfl, fun _ => rfl⟩

theorem FrameOver_trans (ks : List NamespacedName) (ns : List String)
    (keys : List NamespacedName) (a b c : World) (h1 : FrameOver ks ns keys a b)
    (h2 : FrameOver ks ns keys b c) : FrameOver ks ns keys a c := by
  obtain ⟨s1, y1, m1, g1, hg1, hk1, hc1⟩ := h1
  obtain ⟨s2, y2, m2, g2, hg2, hk2, hc2⟩ := h2
  refine ⟨fun k2 h => (s2 k2 h).trans (s1 k2 h), fun k2 h => (y2 k2 h).trans (y1 k2 h),
    fun n2 h => (m2 n2 h).trans (m1 n2 h), g2 ∘ g1, ?_, ?_, ?_⟩
  · rw [hg2, hg1, List.map_map]
  · intro x hx
    simp only [Function.comp]
    rw [hk1 x hx, hk2 x hx]
  · intro x
    simp only [Function.comp]
    rw [hc2, hc1]

theorem Frame_over (k : NamespacedName) (n : String) (key : NamespacedName)
    (ks : List NamespacedName) (ns : List String) (keys : List NamespacedName) (w w2 : World)
    (h : Frame k n key w w2) (hk : k ∈ ks) (hn : n ∈ ns) (hkey : key ∈ keys) :
    FrameOver ks ns keys w w2 := by
  obtain ⟨s1, y1, m1, g1, hg1, hk1, hc1⟩ := h
  refine ⟨fun k2 h2 => s1 k2 ?_, fun k2 h2 => y1 k2 ?_, fun n2 h2 => m1 n2 ?_, g1, hg1,
    fun x hx => hk1 x ?_, hc1⟩
  · rintro rfl; exact h2 hk
  · rintro rfl; exact h2 hk
  · rintro rfl; exact h2 hn
  · intro h3; exact hx (h3 ▸ hkey)

theorem FrameOver_mono (ks ks2 : List NamespacedName) (ns ns2 : List String)
    (keys keys2 : List NamespacedName) (w w2 : World) (h : FrameOver ks ns keys w w2)
    (hk : ∀ k ∈ ks, k ∈ ks2) (hn : ∀ n ∈ ns, n ∈ ns2) (hkey : ∀ k ∈ keys, k ∈ keys2) :
    FrameOver ks2 ns2 keys2 w w2 := by
  obtain ⟨s1, y1, m1, g1, hg1, hk1, hc1⟩ := h
  exact ⟨fun k2 h2 => s1 k2 (fun h3 => h2 (hk _ h3)), fun k2 h2 => y1 k2 (fun h3 => h2 (hk _ h3)),
    fun n2 h2 => m1 n2 (fun h3 => h2 (hn _ h3)), g1, hg1,
    fun x hx => hk1 x (fun h3 => hx (hkey _ h3)), hc1⟩

/-- The convergence loop changes at most the artifacts, the monitors and the finalizers
of the resources it runs over. -/
theorem reconcileClusterDeployments_frame (cfg : Config) (matching : List ClusterDeployment)
    (f : String) (d0 : DeadmansSnitchIntegration) (l : List ClusterDeployment)
    (dmsi : DeadmansSnitchIntegration) (h0 : dmsiCore dmsi = dmsiCore d0) (w : World) :
    FrameOver (l.map (artifactKey cfg d0)) (l.map (monitorName cfg d0))
      (l.map ClusterDeployment.key) w
      (reconcileClusterDeployments faithful cfg faithfulDms matching f dmsi l w).world := by
  induction l generalizing dmsi w with
  | nil => exact FrameOver_refl _ _ _ w
  | cons x rest ih =>
    unfold reconcileClusterDeployments
    simp only [bind_apply]
    have hb := (reconcileClusterDeployment_frame cfg matching f dmsi x).run w
    have hy := (reconcileClusterDeployment_yields faithful cfg faithfulDms matching f dmsi x).run w
    rw [artifactKey_core cfg d0 dmsi x x h0 rfl, monitorName_core cfg d0 dmsi x x h0 rfl] at hb
    generalize reconcileClusterDeployment faithful cfg faithfulDms matching f dmsi x w = rb
      at hb hy ⊢
    rcases rb with ⟨⟨d1, c⟩, w1, l1⟩
    have hbo := Frame_over _ _ _ ((x :: rest).map (artifactKey cfg d0))
      ((x :: rest).map (monitorName cfg d0)) ((x :: rest).map ClusterDeployment.key) w w1 hb
      (by simp) (by simp) (by simp)
    cases c with
    | ret e => exact hbo
    | next =>
      refine FrameOver_trans _ _ _ w w1 _ hbo ?_
      exact FrameOver_mono _ _ _ _ _ _ _ _ (ih d1 (hy.1.trans h0) w1)
        (fun k hk => by simp only [List.map_cons, List.mem_cons]; exact Or.inr hk)
        (fun k hk => by simp only [List.map_cons, List.mem_cons]; exact Or.inr hk)
        (fun k hk => by simp only [List.map_cons, List.mem_cons]; exact Or.inr hk)

theorem settledArtifacts_core (cfg : Config) (d d2 : DeadmansSnitchIntegration)
    (c c2 : ClusterDeployment) (hd : dmsiCore d2 = dmsiCore d) (hc : cdCore c2 = cdCore c)
    (w : World) : settledArtifacts cfg d2 c2 w = settledArtifacts cfg d c w := by
  have h2 : c2.Spec = c.Spec :=
    (congrArg ClusterDeployment.Spec hc : (cdCore c2).Spec = (cdCore c).Spec)
  simp only [settledArtifacts, artifactKey_core cfg d d2 c c2 hd hc,
    monitorName_core cfg d d2 c c2 hd hc, h2]

theorem unmanaged_core (matching : List ClusterDeployment) (c c2 : ClusterDeployment)
    (hc : cdCore c2 = cdCore c) : unmanaged matching c2 = unmanaged matching c := by
  have h1 : c2.UID = c.UID :=
    (congrArg ClusterDeployment.UID hc : (cdCore c2).UID = (cdCore c).UID)
  have h2 : c2.DeletionTimestamp = c.DeletionTimestamp :=
    (congrArg ClusterDeployment.DeletionTimestamp hc :
      (cdCore c2).DeletionTimestamp = (cdCore c).DeletionTimestamp)
  simp only [unmanaged, h1, h2]

/-- A settled resource stays settled through the convergence of other resources. -/
theorem settled_over (cfg : Config) (matching : List ClusterDeployment) (f : String)
    (dmsi : DeadmansSnitchIntegration) (z : ClusterDeployment) (ks : List NamespacedName)
    (ns : List String) (keys : List NamespacedName) (w w2 : World)
    (h : FrameOver ks ns keys w w2) (hk : artifactKey cfg dmsi z ∉ ks)
    (hn : monitorName cfg dmsi z ∉ ns) (hkey : z.key ∉ keys)
    (hs : settled cfg matching f dmsi z w) : settled cfg matching f dmsi z w2 := by
  obtain ⟨s1, y1, m1, g1, hg1, hk1, hc1⟩ := h
  unfold settled at hs ⊢
  split
  · rename_i hu
    rw [if_pos hu] at hs
    intro c hc hck
    rw [hg1] at hc
    obtain ⟨c0, hc0, rfl⟩ := List.mem_map.mp hc
    have hkk : (g1 c0).key = c0.key := key_core c0 (g1 c0) (hc1 c0)
    have : g1 c0 = c0 := hk1 c0 (by rw [← hkk, hck]; exact hkey)
    rw [this] at hck ⊢
    exact hs c0 hc0 hck
  · rename_i hu
    rw [if_neg hu] at hs
    intro hI
    have := hs hI
    unfold settledArtifacts at this ⊢
    rw [s1 _ hk, y1 _ hk, m1 _ hn]
    exact this

/-- After the convergence of a resource to release went through, no stored
ClusterDeployment of its key carries the finalizer. -/
theorem reconcileClusterDeployment_releases (cfg : Config) (matching : List ClusterDeployment)
    (dmsi : DeadmansSnitchIntegration) (cd : ClusterDeployment) (w : World)
    (hA : unmanaged matching cd = true) (hmem : cd ∈ w.cds)
    (hnd : (w.cds.map ClusterDeployment.key).Nodup)
    (hok : (reconcileClusterDeployment faithful cfg faithfulDms matching
      (DeadMansSnitchFinalizerPrefix ++ dmsi.Name) dmsi cd w).val.2 = Ctl.next) :
    ∀ c ∈ (reconcileClusterDeployment faithful cfg faithfulDms matching
        (DeadMansSnitchFinalizerPrefix ++ dmsi.Name) dmsi cd w).world.cds,
      c.key = cd.key →
        HasFinalizer c.Finalizers (DeadMansSnitchFinalizerPrefix ++ dmsi.Name) = false := by
  unfold unmanaged at hA
  revert hok
  simp only [reconcileClusterDeployment, hA, if_true]
  by_cases hf : HasFinalizer cd.Finalizers (DeadMansSnitchFinalizerPrefix ++ dmsi.Name) = true
  · simp only [hf, if_true, bind_apply]
    have hu := deleteDMS_unguards cfg dmsi cd w
    generalize deleteDMSClusterDeployment faithful cfg dmsi cd faithfulDms w = rd at hu ⊢
    rcases rd with ⟨⟨c2, e2⟩, w3, l3⟩
    cases e2 with
    | some e => simp [pure_apply]
    | none =>
      intro _
      exact (hu rfl hf).2
  · have hf2 : HasFinalizer cd.Finalizers (DeadMansSnitchFinalizerPrefix ++ dmsi.Name) = false := by
      simpa using hf
    simp only [hf2, Bool.false_eq_true, if_false, pure_apply]
    intro _ c hc hck
    have := List.inj_on_of_nodup_map hnd hc hmem hck
    rw [this]
    exact hf2

theorem map_key_of_frame (k : NamespacedName) (n : String) (key : NamespacedName) (w w2 : World)
    (h : Frame k n key w w2) :
    w2.cds.map ClusterDeployment.key = w.cds.map ClusterDeployment.key := by
  obtain ⟨_, _, _, g, hg, _, hc⟩ := h
  rw [hg, List.map_map]
  apply List.map_congr_left
  intro x _
  exact key_core x (g x) (hc x)

theorem mem_of_frame (k : NamespacedName) (n : String) (key : NamespacedName) (w w2 : World)
    (h : Frame k n key w w2) (y : ClusterDeployment) (hy : y ∈ w.cds) (hk : y.key ≠ key) :
    y ∈ w2.cds := by
  obtain ⟨_, _, _, g, hg, hkk, _⟩ := h
  rw [hg]
  exact List.mem_map.mpr ⟨y, hy, hkk y hk⟩

/-- After a convergence loop over resources of pairwise distinct keys, artifact keys and
monitor names went through, every resource it ran over is settled. -/
theorem reconcileClusterDeployments_settles (cfg : Config) (matching : List ClusterDeployment)
    (d0 : DeadmansSnitchIntegration) (l : List ClusterDeployment)
    (dmsi : DeadmansSnitchIntegration) (w : World) (h0 : dmsiCore dmsi = dmsiCore d0)
    (hnd : (w.cds.map ClusterDeployment.key).Nodup) (hmem : ∀ y ∈ l, y ∈ w.cds)
    (hkeys : (l.map ClusterDeployment.key).Nodup)
    (harts : (l.map (artifactKey cfg d0)).Nodup)
    (hmons : (l.map (monitorName cfg d0)).Nodup)
    (hok : (reconcileClusterDeployments faithful cfg faithfulDms matching
      (DeadMansSnitchFinalizerPrefix ++ d0.Name) dmsi l w).val.2 = Ctl.next) :
    ∀ y ∈ l, settled cfg matching (DeadMansSnitchFinalizerPrefix ++ d0.Name) d0 y
      (reconcileClusterDeployments faithful cfg faithfulDms matching
        (DeadMansSnitchFinalizerPrefix ++ d0.Name) dmsi l w).world := by
  induction l generalizing dmsi w with
  | nil => intro y hy; cases hy
  | cons x rest ih =>
    have hname : dmsi.Name = d0.Name := name_core d0 dmsi h0
    have hfr := (reconcileClusterDeployment_frame cfg matching
      (DeadMansSnitchFinalizerPrefix ++ d0.Name) dmsi x).run w
    have hy := (reconcileClusterDeployment_yields faithful cfg faithfulDms matching
      (DeadMansSnitchFinalizerPrefix ++ d0.Name) dmsi x).run w
    have hset : (reconcileClusterDeployment faithful cfg faithfulDms matching
        (DeadMansSnitchFinalizerPrefix ++ d0.Name) dmsi x w).val.2 = Ctl.next →
        settled cfg matching (DeadMansSnitchFinalizerPrefix ++ d0.Name) d0 x
          (reconcileClusterDeployment faithful cfg faithfulDms matching
            (DeadMansSnitchFinalizerPrefix ++ d0.Name) dmsi x w).world := by
      intro hnext
      unfold settled
      split
      · rename_i hu
        rw [← hname] at hnext ⊢
        exact reconcileClusterDeployment_releases cfg matching dmsi x w hu
          (hmem x (List.mem_cons_self _ _)) hnd hnext
      · rename_i hu
        intro hI
        rw [← settledArtifacts_core cfg d0 dmsi x x h0 rfl]
        exact reconcileClusterDeployment_settles cfg matching _ dmsi x w (by simpa using hu) hI
          hnext
    revert hok
    unfold reconcileClusterDeployments
    simp only [bind_apply]
    generalize reconcileClusterDeployment faithful cfg faithfulDms matching
      (DeadMansSnitchFinalizerPrefix ++ d0.Name) dmsi x w = rb at hfr hy hset ⊢
    rcases rb with ⟨⟨d1, c⟩, w1, l1⟩
    simp only at hfr hy hset
    cases c with
    | ret e => simp [pure_apply]
    | next =>
      simp only
      intro hok y hyl
      simp only [List.map_cons, List.nodup_cons, List.mem_map, not_exists, not_and] at hkeys
      simp only [List.map_cons, List.nodup_cons, List.mem_map, not_exists, not_and] at harts
      simp only [List.map_cons, List.nodup_cons, List.mem_map, not_exists, not_and] at hmons
      have hd1 : dmsiCore d1 = dmsiCore d0 := hy.1.trans h0
      rcases List.mem_cons.mp hyl with rfl | hyr
      · refine settled_over cfg matching _ d0 y _ _ _ w1 _
          (reconcileClusterDeployments_frame cfg matching _ d0 rest d1 hd1 w1) ?_ ?_ ?_ (hset rfl)
        · simp only [List.mem_map, not_exists, not_and]
          exact harts.1
        · simp only [List.mem_map, not_exists, not_and]
          exact hmons.1
        · simp only [List.mem_map, not_exists, not_and]
          exact hkeys.1
      · refine ih d1 w1 hd1 ?_ ?_ hkeys.2 harts.2 hmons.2 hok y hyr
        · rw [map_key_of_frame _ _ _ w w1 hfr]
          exact hnd
        · intro z hz
          exact mem_of_frame _ _ _ w w1 hfr z (hmem z (List.mem_cons_of_mem _ hz))
            (hkeys.1 z hz)

/-- A convergence loop over resources that need nothing issues no create and no delete,
and leaves the secrets, the SyncSets and the monitors as they are. -/
theorem reconcileClusterDeployments_quiet (cfg : Config) (matching : List ClusterDeployment)
    (f : String) (d0 : DeadmansSnitchIntegration) (l : List ClusterDeployment)
    (dmsi : DeadmansSnitchIntegration) (w : World) (h0 : dmsiCore dmsi = dmsiCore d0)
    (h : ∀ x ∈ l, (unmanaged matching x = true → HasFinalizer x.Finalizers f = false) ∧
      (unmanaged matching x = false → x.Spec.Installed = true →
        settledArtifacts cfg d0 x w = true)) :
    (reconcileClusterDeployments faithful cfg faithfulDms matching f dmsi l w).log.all
        (fun x => !x.isMutation) = true ∧
      (reconcileClusterDeployments faithful cfg faithfulDms matching f dmsi l w).world.secrets =
        w.secrets ∧
      (reconcileClusterDeployments faithful cfg faithfulDms matching f dmsi l w).world.syncsets =
        w.syncsets ∧
      (reconcileClusterDeployments faithful cfg faithfulDms matching f dmsi l w).world.snitches =
        w.snitches := by
  induction l generalizing dmsi w with
  | nil => exact ⟨rfl, rfl, rfl, rfl⟩
  | cons x rest ih =>
    have hx := h x (List.mem_cons_self _ _)
    have hq := reconcileClusterDeployment_quiet cfg matching f dmsi x w hx.1
      (fun hu hI => by
        rw [settledArtifacts_core cfg d0 dmsi x x h0 rfl]
        exact hx.2 hu hI)
    have hy := (reconcileClusterDeployment_yields faithful cfg faithfulDms matching f dmsi x).run w
    unfold reconcileClusterDeployments
    simp only [bind_apply]
    generalize reconcileClusterDeployment faithful cfg faithfulDms matching f dmsi x w = rb
      at hq hy ⊢
    rcases rb with ⟨⟨d1, c⟩, w1, l1⟩
    simp only at hq hy
    obtain ⟨q1, q2, q3, q4⟩ := hq
    cases c with
    | ret e => simp [pure_apply, q1, q2, q3, q4]
    | next =>
      simp only
      have := ih d1 w1 (hy.1.trans h0) (fun z hz => by
        have hz2 := h z (List.mem_cons_of_mem _ hz)
        refine ⟨hz2.1, fun hu hI => ?_⟩
        rw [settledArtifacts_congr cfg d0 z w w1 q2 q3 q4]
        exact hz2.2 hu hI)
      obtain ⟨r1, r2, r3, r4⟩ := this
      exact ⟨by simp [q1, r1], r2.trans q2, r3.trans q3, r4.trans q4⟩

/-! ## A pass over the faithful collaborators -/

theorem LoadSecretData_world (name ns key : String) (w : World) :
    (World.LoadSecretData name ns key w).2 = w := by
  unfold World.LoadSecretData
  split
  · rfl
  · split <;> rfl

theorem getMatchingClusterDeployment_faithful (dmsi : DeadmansSnitchIntegration) (w : World) :
    (getMatchingClusterDeployment faithful dmsi w).world = w ∧
      (getMatchingClusterDeployment faithful dmsi w).log.all Event.isRead = true := by
  unfold getMatchingClusterDeployment
  generalize LabelSelectorAsSelector dmsi.Spec.ClusterDeploymentSelector = s
  cases s <;> exact ⟨rfl, rfl⟩

theorem getAllClusterDeployment_faithful (w : World) :
    getAllClusterDeployment faithful w =
      ⟨(w.cds, none), w, [Event.listClusterDeployments none none]⟩ := rfl

theorem intentCore_update (req : NamespacedName) (obj : DeadmansSnitchIntegration) (w : World) :
    KeepsIntent req (dmsiCore obj) w (World.UpdateDMSI obj w).2 := by
  intro h
  unfold World.UpdateDMSI
  split
  · unfold intentCore at h ⊢
    dsimp only
    rw [List.find?_map]
    cases hf : w.dmsis.find? (fun d => d.key == req) with
    | none => rw [hf] at h; cases h
    | some d0 =>
      rw [hf] at h
      simp only [Option.map_some', Option.some.injEq] at h
      have hp := List.find?_some hf
      have hk0 : d0.key = req := by simpa using hp
      have hkk : d0.key = obj.key := by
        have h1 : d0.Name = obj.Name :=
          (congrArg DeadmansSnitchIntegration.Name h : (dmsiCore d0).Name = (dmsiCore obj).Name)
        have h2 : d0.Namespace = obj.Namespace :=
          (congrArg DeadmansSnitchIntegration.Namespace h :
            (dmsiCore d0).Namespace = (dmsiCore obj).Namespace)
        simp only [DeadmansSnitchIntegration.key, h1, h2]
      have hcomp : ((fun d : DeadmansSnitchIntegration => d.key == req) ∘ applyUpdate obj) =
          fun d => d.key == req := by
        funext d
        simp only [Function.comp, applyUpdate]
        split
        · rename_i hd
          have hd2 : d.key = obj.key := by simpa using hd
          rw [hd2]
        · rfl
      rw [hcomp, hf]
      simp only [Option.map_some', applyUpdate, hkk, beq_self_eq_true, if_true]
  · exact h

/-- A pass over the faithful collaborators, step by step: it ends after lookups only
(the intent is not found, or the credential lookup or the selector conversion fails), or
it runs the teardown loop and then removes the intent's finalizer, or it runs the
convergence loop. -/
theorem Reconcile_faithful (cfg : Config) (req : NamespacedName) (w : World) :
    ((w.dmsis.find? (fun d => d.key == req) = none ∨ (Reconcile faithful cfg req w).val ≠ none) ∧
      (Reconcile faithful cfg req w).world = w ∧
      (Reconcile faithful cfg req w).log.all Event.isRead = true) ∨
    ∃ dmsi pre, w.dmsis.find? (fun d => d.key == req) = some dmsi ∧
      pre.all Event.isRead = true ∧
      if dmsi.DeletionTimestamp.isSome then
        ∃ u : List Event, u.all (fun x => !x.isMutation) = true ∧
          (Reconcile faithful cfg req w).log = pre ++
            ((teardownGuarded faithful cfg dmsi faithfulDms
              (DeadMansSnitchFinalizerPrefix ++ dmsi.Name) w.cds w).log ++ u) ∧
          (Reconcile faithful cfg req w).world.cds =
            (teardownGuarded faithful cfg dmsi faithfulDms
              (DeadMansSnitchFinalizerPrefix ++ dmsi.Name) w.cds w).world.cds ∧
          KeepsIntent req (dmsiCore dmsi)
            (teardownGuarded faithful cfg dmsi faithfulDms
              (DeadMansSnitchFinalizerPrefix ++ dmsi.Name) w.cds w).world
            (Reconcile faithful cfg req w).world ∧
          ((Reconcile faithful cfg req w).val = none →
            (teardownGuarded faithful cfg dmsi faithfulDms
              (DeadMansSnitchFinalizerPrefix ++ dmsi.Name) w.cds w).val = Ctl.next)
      else
        (Reconcile faithful cfg req w).log = pre ++
            (reconcileClusterDeployments faithful cfg faithfulDms
              (getMatchingClusterDeployment faithful dmsi w).val.1
              (DeadMansSnitchFinalizerPrefix ++ dmsi.Name) dmsi w.cds w).log ∧
          (Reconcile faithful cfg req w).world =
            (reconcileClusterDeployments faithful cfg faithfulDms
              (getMatchingClusterDeployment faithful dmsi w).val.1
              (DeadMansSnitchFinalizerPrefix ++ dmsi.Name) dmsi w.cds w).world ∧
          ((Reconcile faithful cfg req w).val = none →
            (reconcileClusterDeployments faithful cfg faithfulDms
              (getMatchingClusterDeployment faithful dmsi w).val.1
              (DeadMansSnitchFinalizerPrefix ++ dmsi.Name) dmsi w.cds w).val.2 = Ctl.next) := by
  simp only [Reconcile, bind_apply, getDMSI, call_apply,
    show faithful.client.GetDMSI = World.GetDMSI from rfl, World.GetDMSI]
  cases hfind : w.dmsis.find? (fun d => d.key == req) with
  | none =>
    left
    simp [IsNotFound, pure_apply, Event.isRead]
  | some dmsi =>
    simp only [bind_apply, LoadSecretData, call_apply,
      show faithful.client.LoadSecretData = World.LoadSecretData from rfl]
    have hl := LoadSecretData_world dmsi.Spec.DmsAPIKeySecretRef.Name
      dmsi.Spec.DmsAPIKeySecretRef.Namespace deadMansSnitchAPISecretKey w
    generalize World.LoadSecretData dmsi.Spec.DmsAPIKeySecretRef.Name
      dmsi.Spec.DmsAPIKeySecretRef.Namespace deadMansSnitchAPISecretKey w = rl at hl ⊢
    rcases rl with ⟨⟨key, ek⟩, wl⟩
    simp only at hl
    subst hl
    cases ek with
    | some e =>
      left
      simp [pure_apply, Event.isRead]
    | none =>
      simp only [bind_apply, show faithful.dmsclient key = faithfulDms from rfl]
      have hm := getMatchingClusterDeployment_faithful dmsi wl
      generalize hrm : getMatchingClusterDeployment faithful dmsi wl = rm at hm ⊢
      rcases rm with ⟨⟨M, em⟩, wm, lm⟩
      obtain ⟨hm1, hm2⟩ := hm
      simp only at hm1 hm2
      subst hm1
      cases em with
      | some e =>
        left
        simp [pure_apply, Event.isRead, hm2]
      | none =>
        right
        simp only [bind_apply, getAllClusterDeployment_faithful]
        refine ⟨dmsi, [Event.getDMSI req none,
          Event.loadSecretData dmsi.Spec.DmsAPIKeySecretRef.Name
            dmsi.Spec.DmsAPIKeySecretRef.Namespace deadMansSnitchAPISecretKey none] ++ lm ++
          [Event.listClusterDeployments none none], rfl, by simp [Event.isRead, hm2], ?_⟩
        by_cases hdel : dmsi.DeletionTimestamp.isSome = true
        · simp only [hdel, if_true, bind_apply, hrm]
          have hy := (teardownGuarded_yields faithful cfg dmsi faithfulDms
            (DeadMansSnitchFinalizerPrefix ++ dmsi.Name) wm.cds).run wm
          generalize teardownGuarded faithful cfg dmsi faithfulDms
            (DeadMansSnitchFinalizerPrefix ++ dmsi.Name) wm.cds wm = rt at hy ⊢
          rcases rt with ⟨c, w1, l1⟩
          cases c with
          | ret e =>
            refine ⟨[], rfl, by simp [pure_apply], rfl, fun h => h, ?_⟩
            simp only [pure_apply]
            intro he
            subst he
            exact absurd rfl hy
          | next =>
            simp only
            by_cases hf : HasFinalizer dmsi.Finalizers (DeadMansSnitchFinalizerPrefix ++ dmsi.Name) =
                true
            · simp only [hf, if_true, bind_apply, updateDMSI, call_apply,
                show faithful.client.UpdateDMSI = World.UpdateDMSI from rfl]
              have h1 : (World.UpdateDMSI { dmsi with Finalizers :=
                  (DeleteFinalizer dmsi.Finalizers (DeadMansSnitchFinalizerPrefix ++ dmsi.Name)) }
                  w1).2.cds = w1.cds := by
                unfold World.UpdateDMSI
                split <;> rfl
              have h2 := intentCore_update req { dmsi with Finalizers :=
                (DeleteFinalizer dmsi.Finalizers (DeadMansSnitchFinalizerPrefix ++ dmsi.Name)) } w1
              generalize World.UpdateDMSI _ w1 = ru at h1 h2 ⊢
              rcases ru with ⟨eu, wu⟩
              refine ⟨[Event.updateDMSI { dmsi with Finalizers :=
                (DeleteFinalizer dmsi.Finalizers (DeadMansSnitchFinalizerPrefix ++ dmsi.Name)) } eu],
                rfl, ?_, ?_, ?_, fun _ => trivial⟩
              · cases eu <;> simp [pure_apply]
              · cases eu <;> simpa [pure_apply] using h1
              · cases eu <;> exact h2
            · simp only [hf, Bool.false_eq_true, if_false, pure_apply]
              exact ⟨[], rfl, by simp, trivial, fun h => h, fun _ => trivial⟩
        · simp only [hdel, Bool.false_eq_true, if_false, bind_apply, hrm]
          have hy := (reconcileClusterDeployments_yields faithful cfg faithfulDms M
            (DeadMansSnitchFinalizerPrefix ++ dmsi.Name) wm.cds dmsi dmsi rfl).run wm
          generalize reconcileClusterDeployments faithful cfg faithfulDms M
            (DeadMansSnitchFinalizerPrefix ++ dmsi.Name) dmsi wm.cds wm = rc at hy ⊢
          rcases rc with ⟨⟨d1, c⟩, w1, l1⟩
          cases c with
          | ret e =>
            simp only [pure_apply, List.append_nil, List.append_assoc, List.cons_append,
              List.nil_append, true_and]
            intro he
            subst he
            exact absurd rfl hy.2
          | next => simp [pure_apply]

/-! ## The stored intent through a pass -/

theorem KeepsIntent_refl (req : NamespacedName) (c : DeadmansSnitchIntegration) (w : World) :
    KeepsIntent req c w w := fun h => h

theorem KeepsIntent_trans (req : NamespacedName) (c : DeadmansSnitchIntegration) (a b d : World)
    (h1 : KeepsIntent req c a b) (h2 : KeepsIntent req c b d) : KeepsIntent req c a d :=
  fun h => h2 (h1 h)

theorem KeepsIntent_of_dmsis (req : NamespacedName) (c : DeadmansSnitchIntegration) (w w2 : World)
    (h : w2.dmsis = w.dmsis) : KeepsIntent req c w w2 := by
  intro h1
  unfold intentCore at h1 ⊢
  rw [h]
  exact h1

theorem sat_of_keeps {α β : Type} {π : World → β} {R : World → World → Prop} {m : Op World α}
    (h : Op.sat (Keeps π) m) (hr : ∀ w w2, π w2 = π w → R w w2) : Op.sat R m :=
  ⟨fun w => hr _ _ (h.run w)⟩

theorem intentCore_update_of (req : NamespacedName) (c obj : DeadmansSnitchIntegration)
    (w : World) (h : dmsiCore obj = c) : KeepsIntent req c w (World.UpdateDMSI obj w).2 := by
  rw [← h]
  exact intentCore_update req obj w

theorem dmsAddFinalizer_intent (req : NamespacedName) (c dmsi : DeadmansSnitchIntegration)
    (cd : ClusterDeployment) (h : dmsiCore dmsi = c) :
    Op.sat (KeepsIntent req c) (dmsAddFinalizer faithful dmsi cd) := by
  unfold dmsAddFinalizer
  repeat' first
    | exact sat_pure (KeepsIntent_refl _ _) _
    | exact sat_call (fun w => by
        show KeepsIntent _ _ w (World.PatchClusterDeployment _ _ w).2
        apply KeepsIntent_of_dmsis
        unfold World.PatchClusterDeployment
        split <;> rfl)
    | exact sat_call (fun w => intentCore_update_of req c _ w h)
    | apply sat_bind (KeepsIntent_trans _ _)
    | split
    | intro _
    | dsimp only

theorem reconcileClusterDeployment_intent (req : NamespacedName) (c : DeadmansSnitchIntegration)
    (cfg : Config) (matching : List ClusterDeployment) (f : String)
    (dmsi : DeadmansSnitchIntegration) (cd : ClusterDeployment) (h : dmsiCore dmsi = c) :
    Op.sat (KeepsIntent req c)
      (reconcileClusterDeployment faithful cfg faithfulDms matching f dmsi cd) := by
  unfold reconcileClusterDeployment
  repeat' first
    | exact sat_pure (KeepsIntent_refl _ _) _
    | exact dmsAddFinalizer_intent req c dmsi cd h
    | exact ⟨fun w => KeepsIntent_of_dmsis _ _ _ _ (deleteDMS_keeps cfg _ _ w)⟩
    | exact ⟨fun w => by
        rw [(snitchResourcesExist_faithful cfg _ _ w).2]
        exact KeepsIntent_refl _ _ w⟩
    | exact sat_of_keeps (createSnitch_keeps cfg _ _) (fun w w2 hk =>
        KeepsIntent_of_dmsis _ _ _ _ (by simp only [Prod.mk.injEq] at hk; exact hk.2.2.1))
    | exact sat_of_keeps (createSecret_keeps cfg _ _) (fun w w2 hk =>
        KeepsIntent_of_dmsis _ _ _ _ (by simp only [Prod.mk.injEq] at hk; exact hk.2.2.1))
    | exact sat_of_keeps (createSyncset_keeps cfg _ _) (fun w w2 hk =>
        KeepsIntent_of_dmsis _ _ _ _ (by simp only [Prod.mk.injEq] at hk; exact hk.2.2.1))
    | apply sat_bind (KeepsIntent_trans _ _)
    | split
    | intro _
    | dsimp only

theorem reconcileClusterDeployments_intent (req : NamespacedName)
    (c : DeadmansSnitchIntegration) (cfg : Config) (matching : List ClusterDeployment)
    (f : String) (l : List ClusterDeployment) (dmsi : DeadmansSnitchIntegration)
    (h : dmsiCore dmsi = c) :
    Op.sat (KeepsIntent req c)
      (reconcileClusterDeployments faithful cfg faithfulDms matching f dmsi l) := by
  induction l generalizing dmsi with
  | nil => exact sat_pure (KeepsIntent_refl _ _) _
  | cons x rest ih =>
    unfold reconcileClusterDeployments
    apply sat_bind_val (KeepsIntent_trans _ _) (fun b => dmsiCore b.1 = c)
      (reconcileClusterDeployment_intent req c cfg matching f dmsi x h)
      (fun w => ((reconcileClusterDeployment_yields faithful cfg faithfulDms matching f dmsi
        x).run w).1.trans h)
    intro b hb
    split
    · exact sat_pure (KeepsIntent_refl _ _) _
    · exact ih b.1 hb

theorem teardownGuarded_intent (req : NamespacedName) (c : DeadmansSnitchIntegration)
    (cfg : Config) (dmsi : DeadmansSnitchIntegration) (f : String) (l : List ClusterDeployment) :
    Op.sat (KeepsIntent req c) (teardownGuarded faithful cfg dmsi faithfulDms f l) := by
  induction l with
  | nil => exact sat_pure (KeepsIntent_refl _ _) _
  | cons x rest ih =>
    unfold teardownGuarded
    repeat' first
      | exact ih
      | exact sat_pure (KeepsIntent_refl _ _) _
      | exact ⟨fun w => KeepsIntent_of_dmsis _ _ _ _ (deleteDMS_keeps cfg _ _ w)⟩
      | apply sat_bind (KeepsIntent_trans _ _)
      | split
      | intro _

/-! ## The teardown loop over the faithful collaborators -/

/-- The teardown loop does nothing when no listed resource carries the finalizer. -/
theorem teardownGuarded_quiet {σ : Type} (r : ReconcileDeadmansSnitchIntegration σ)
    (cfg : Config) (dmsi : DeadmansSnitchIntegration) (dmsc : DmsClient σ) (f : String)
    (l : List ClusterDeployment) (s : σ)
    (h : ∀ x ∈ l, HasFinalizer x.Finalizers f = false) :
    teardownGuarded r cfg dmsi dmsc f l s = ⟨Ctl.next, s, []⟩ := by
  induction l with
  | nil => rfl
  | cons x rest ih =>
    unfold teardownGuarded
    rw [if_neg (by rw [h x (List.mem_cons_self _ _)]; simp)]
    exact ih (fun z hz => h z (List.mem_cons_of_mem _ hz))

/-- After a teardown loop that went through, no stored ClusterDeployment carries the
finalizer, provided every stored one that carried it had a listed one of its key that
carried it. -/
theorem teardownGuarded_releases (cfg : Config) (dmsi : DeadmansSnitchIntegration)
    (l : List ClusterDeployment) (w : World)
    (hinv : ∀ c ∈ w.cds,
      HasFinalizer c.Finalizers (DeadMansSnitchFinalizerPrefix ++ dmsi.Name) = true →
        ∃ y ∈ l, y.key = c.key ∧
          HasFinalizer y.Finalizers (DeadMansSnitchFinalizerPrefix ++ dmsi.Name) = true)
    (hok : (teardownGuarded faithful cfg dmsi faithfulDms
      (DeadMansSnitchFinalizerPrefix ++ dmsi.Name) l w).val = Ctl.next) :
    ∀ c ∈ (teardownGuarded faithful cfg dmsi faithfulDms
        (DeadMansSnitchFinalizerPrefix ++ dmsi.Name) l w).world.cds,
      HasFinalizer c.Finalizers (DeadMansSnitchFinalizerPrefix ++ dmsi.Name) = false := by
  induction l generalizing w with
  | nil =>
    intro c hc
    cases hfc : HasFinalizer c.Finalizers (DeadMansSnitchFinalizerPrefix ++ dmsi.Name) with
    | false => rfl
    | true =>
      obtain ⟨y, hy, _⟩ := hinv c hc hfc
      cases hy
  | cons x rest ih =>
    revert hok
    unfold teardownGuarded
    by_cases hx : HasFinalizer x.Finalizers (DeadMansSnitchFinalizerPrefix ++ dmsi.Name) = true
    · simp only [hx, if_true, bind_apply]
      have hu := deleteDMS_unguards cfg dmsi x w
      generalize deleteDMSClusterDeployment faithful cfg dmsi x faithfulDms w = rd at hu ⊢
      rcases rd with ⟨⟨c2, e2⟩, w3, l3⟩
      cases e2 with
      | some e => simp [pure_apply]
      | none =>
        simp only
        obtain ⟨hcds, hno⟩ := hu rfl hx
        simp only at hcds hno
        intro hok
        refine ih w3 ?_ hok
        intro c hc hfc
        have hkne : c.key ≠ x.key := by
          intro hk
          rw [hno c hc hk] at hfc
          cases hfc
        rw [hcds] at hc
        obtain ⟨c0, hc0, rfl⟩ := List.mem_map.mp hc
        rw [key_applyPatch] at hkne
        rw [applyPatch_of_key_ne { x with Finalizers :=
          (DeleteFinalizer x.Finalizers (DeadMansSnitchFinalizerPrefix ++ dmsi.Name)) } x c0
          hkne] at hfc ⊢
        obtain ⟨y, hy, hyk, hyf⟩ := hinv c0 hc0 hfc
        rcases List.mem_cons.mp hy with rfl | hyr
        · exact absurd hyk (fun h => hkne h.symm)
        · exact ⟨y, hyr, hyk, hyf⟩
    · rw [if_neg hx]
      intro hok
      refine ih w ?_ hok
      intro c hc hfc
      obtain ⟨y, hy, hyk, hyf⟩ := hinv c hc hfc
      rcases List.mem_cons.mp hy with rfl | hyr
      · exact absurd hyf hx
      · exact ⟨y, hyr, hyk, hyf⟩

/-! ## Two passes in a row -/

theorem FrameOver_cores (ks : List NamespacedName) (ns : List String)
    (keys : List NamespacedName) (w w2 : World) (h : FrameOver ks ns keys w w2) :
    w2.cds.map cdCore = w.cds.map cdCore := by
  obtain ⟨_, _, _, g, hg, _, hc⟩ := h
  rw [hg, List.map_map]
  apply List.map_congr_left
  intro x _
  exact hc x

theorem any_of_cores (F : ClusterDeployment → Bool) (hF : ∀ x, F (cdCore x) = F x)
    (l l2 : List ClusterDeployment) (h : l2.map cdCore = l.map cdCore) : l2.any F = l.any F := by
  have key : ∀ l : List ClusterDeployment, l.any F = (l.map cdCore).any F := by
    intro l
    rw [List.any_map]
    congr 1
    funext x
    exact (hF x).symm
  rw [key l2, key l, h]

/-- Whether a UID is in the matched set depends on the intent and on the stored
ClusterDeployments up to their finalizers only. -/
theorem matched_congr (d d2 : DeadmansSnitchIntegration) (w w2 : World)
    (hd : dmsiCore d2 = dmsiCore d) (hc : w2.cds.map cdCore = w.cds.map cdCore) (u : String) :
    ((getMatchingClusterDeployment faithful d2 w2).val.1.any fun m => u == m.UID) =
      ((getMatchingClusterDeployment faithful d w).val.1.any fun m => u == m.UID) := by
  have hs : d2.Spec = d.Spec :=
    (congrArg DeadmansSnitchIntegration.Spec hd : (dmsiCore d2).Spec = (dmsiCore d).Spec)
  unfold getMatchingClusterDeployment
  rw [hs]
  generalize LabelSelectorAsSelector d.Spec.ClusterDeploymentSelector = s
  cases s with
  | error e => rfl
  | ok sel =>
    simp only [bind_apply, listClusterDeployments, call_apply,
      show faithful.client.ListClusterDeployments = World.ListClusterDeployments from rfl,
      World.ListClusterDeployments, pure_apply]
    split
    · simp only [List.any_filter]
      refine any_of_cores _ ?_ _ _ hc
      intro x
      rfl
    · simp only [List.any_filter]
      refine any_of_cores _ ?_ _ _ hc
      intro x
      rfl

theorem unmanaged_congr (matching matching2 : List ClusterDeployment) (c c2 : ClusterDeployment)
    (hM : ∀ u : String, (matching2.any fun m => u == m.UID) = (matching.any fun m => u == m.UID))
    (hc : cdCore c2 = cdCore c) : unmanaged matching2 c2 = unmanaged matching c := by
  rw [unmanaged_core matching2 c c2 hc]
  simp only [unmanaged, hM]

theorem intentCore_of_find (req : NamespacedName) (w : World) (dmsi : DeadmansSnitchIntegration)
    (h : w.dmsis.find? (fun d => d.key == req) = some dmsi) :
    intentCore req w = some (dmsiCore dmsi) := by
  simp only [intentCore, h, Option.map_some']

/-- C7 (amended): over the faithful collaborators, when the stored ClusterDeployments
have pairwise distinct keys and, for the intents of the request key, pairwise distinct
artifact keys and pairwise distinct derived monitor names, a second pass on the state a
pass that returned success left issues no monitor create or delete call and no secret or
SyncSet create or delete. -/
theorem Reconcile_twice (cfg : Config) (req : NamespacedName) (w : World)
    (hkeys : (w.cds.map ClusterDeployment.key).Nodup)
    (hdist : ∀ d ∈ w.dmsis, d.key = req →
      (w.cds.map (artifactKey cfg d)).Nodup ∧ (w.cds.map (monitorName cfg d)).Nodup)
    (hok : (Reconcile faithful cfg req w).val = none) :
    (Reconcile faithful cfg req (Reconcile faithful cfg req w).world).log.all
      (fun x => !x.isMutation) = true := by
  rcases Reconcile_faithful cfg req w with ⟨_, hw, hl⟩ | ⟨dmsi, pre, hfind, hpre, h⟩
  · rw [hw]
    exact not_isMutation_of_isRead _ hl
  · have hi := intentCore_of_find req w dmsi hfind
    have hmemd : dmsi ∈ w.dmsis := List.mem_of_find?_eq_some hfind
    have hkeyd : dmsi.key = req := by simpa using List.find?_some hfind
    rcases Reconcile_faithful cfg req (Reconcile faithful cfg req w).world with
      ⟨_, _, hl2⟩ | ⟨dmsi2, pre2, hfind2, hpre2, h2⟩
    · exact not_isMutation_of_isRead _ hl2
    · have hi2 := intentCore_of_find req _ dmsi2 hfind2
      by_cases hdel : dmsi.DeletionTimestamp.isSome = true
      · rw [if_pos hdel] at h
        obtain ⟨u, _, _, hcds, hk, hnext⟩ := h
        have hk0 := (teardownGuarded_intent req (dmsiCore dmsi) cfg dmsi
          (DeadMansSnitchFinalizerPrefix ++ dmsi.Name) w.cds).run w
        have hi1 := hk (hk0 hi)
        rw [hi2] at hi1
        have hcore : dmsiCore dmsi2 = dmsiCore dmsi := Option.some.inj hi1
        have hdel2 : dmsi2.DeletionTimestamp.isSome = true := by
          have : dmsi2.DeletionTimestamp = dmsi.DeletionTimestamp :=
            (congrArg DeadmansSnitchIntegration.DeletionTimestamp hcore :
              (dmsiCore dmsi2).DeletionTimestamp = (dmsiCore dmsi).DeletionTimestamp)
          rw [this]
          exact hdel
        rw [if_pos hdel2] at h2
        obtain ⟨u2, hu2, hlog2, _, _, _⟩ := h2
        have hrel := teardownGuarded_releases cfg dmsi w.cds w
          (fun c hc hf => ⟨c, hc, rfl, hf⟩) (hnext hok)
        rw [← hcds] at hrel
        rw [name_core dmsi dmsi2 hcore] at hlog2
        rw [teardownGuarded_quiet faithful cfg dmsi2 faithfulDms _ _ _ hrel] at hlog2
        rw [hlog2]
        simp [not_isMutation_of_isRead pre2 hpre2, hu2]
      · rw [if_neg hdel] at h
        obtain ⟨_, hworld, hnext⟩ := h
        have hk0 := (reconcileClusterDeployments_intent req (dmsiCore dmsi) cfg
          (getMatchingClusterDeployment faithful dmsi w).val.1
          (DeadMansSnitchFinalizerPrefix ++ dmsi.Name) w.cds dmsi rfl).run w
        rw [← hworld] at hk0
        have hi1 := hk0 hi
        rw [hi2] at hi1
        have hcore : dmsiCore dmsi2 = dmsiCore dmsi := Option.some.inj hi1
        have hdel2 : ¬ dmsi2.DeletionTimestamp.isSome = true := by
          have : dmsi2.DeletionTimestamp = dmsi.DeletionTimestamp :=
            (congrArg DeadmansSnitchIntegration.DeletionTimestamp hcore :
              (dmsiCore dmsi2).DeletionTimestamp = (dmsiCore dmsi).DeletionTimestamp)
          rw [this]
          exact hdel
        rw [if_neg hdel2] at h2
        obtain ⟨hlog2, _, _⟩ := h2
        have hset := reconcileClusterDeployments_settles cfg
          (getMatchingClusterDeployment faithful dmsi w).val.1 dmsi w.cds dmsi w rfl hkeys
          (fun _ hy => hy) hkeys (hdist dmsi hmemd hkeyd).1 (hdist dmsi hmemd hkeyd).2 (hnext hok)
        have hcores := FrameOver_cores _ _ _ _ _ (reconcileClusterDeployments_frame cfg
          (getMatchingClusterDeployment faithful dmsi w).val.1
          (DeadMansSnitchFinalizerPrefix ++ dmsi.Name) dmsi w.cds dmsi rfl w)
        rw [← hworld] at hset hcores
        have hM := matched_congr dmsi dmsi2 w (Reconcile faithful cfg req w).world hcore hcores
        have hq := reconcileClusterDeployments_quiet cfg
          (getMatchingClusterDeployment faithful dmsi2 (Reconcile faithful cfg req w).world).val.1
          (DeadMansSnitchFinalizerPrefix ++ dmsi2.Name) dmsi
          (Reconcile faithful cfg req w).world.cds dmsi2 (Reconcile faithful cfg req w).world hcore
          (by
            intro x hx
            have hxc : cdCore x ∈ w.cds.map cdCore := by
              rw [← hcores]
              exact List.mem_map_of_mem _ hx
            obtain ⟨y, hy, hyx⟩ := List.mem_map.mp hxc
            have hun := unmanaged_congr _ _ x y (fun u => (hM u).symm) hyx
            have hsy := hset y hy
            unfold settled at hsy
            rw [hun] at hsy
            refine ⟨fun hu => ?_, fun hu hI => ?_⟩
            · rw [if_pos hu] at hsy
              rw [name_core dmsi dmsi2 hcore]
              exact hsy x hx (key_core x y hyx).symm
            · rw [if_neg (by simp [hu])] at hsy
              rw [← settledArtifacts_core cfg dmsi dmsi x y rfl hyx]
              apply hsy
              have : y.Spec = x.Spec :=
                (congrArg ClusterDeployment.Spec hyx : (cdCore y).Spec = (cdCore x).Spec)
              rw [this]
              exact hI)
        rw [hlog2]
        simp [not_isMutation_of_isRead pre2 hpre2, hq.1]

/-! ## One resource within a pass -/

/-- The convergence loop over a list that went through is the loop over a first part
followed by the loop over the rest. -/
theorem reconcileClusterDeployments_append {σ : Type} (r : ReconcileDeadmansSnitchIntegration σ)
    (cfg : Config) (dmsc : DmsClient σ) (matching : List ClusterDeployment) (f : String)
    (l1 l2 : List ClusterDeployment) (dmsi : DeadmansSnitchIntegration) (s : σ)
    (h : (reconcileClusterDeployments r cfg dmsc matching f dmsi (l1 ++ l2) s).val.2 = Ctl.next) :
    (reconcileClusterDeployments r cfg dmsc matching f dmsi l1 s).val.2 = Ctl.next ∧
      (reconcileClusterDeployments r cfg dmsc matching f
          (reconcileClusterDeployments r cfg dmsc matching f dmsi l1 s).val.1 l2
          (reconcileClusterDeployments r cfg dmsc matching f dmsi l1 s).world).val.2 = Ctl.next ∧
      (reconcileClusterDeployments r cfg dmsc matching f dmsi (l1 ++ l2) s).world =
        (reconcileClusterDeployments r cfg dmsc matching f
          (reconcileClusterDeployments r cfg dmsc matching f dmsi l1 s).val.1 l2
          (reconcileClusterDeployments r cfg dmsc matching f dmsi l1 s).world).world ∧
      (reconcileClusterDeployments r cfg dmsc matching f dmsi (l1 ++ l2) s).log =
        (reconcileClusterDeployments r cfg dmsc matching f dmsi l1 s).log ++
        (reconcileClusterDeployments r cfg dmsc matching f
          (reconcileClusterDeployments r cfg dmsc matching f dmsi l1 s).val.1 l2
          (reconcileClusterDeployments r cfg dmsc matching f dmsi l1 s).world).log := by
  induction l1 generalizing dmsi s with
  | nil => exact ⟨rfl, h, rfl, rfl⟩
  | cons x rest ih =>
    revert h
    simp only [List.cons_append]
    rw [reconcileClusterDeployments, reconcileClusterDeployments]
    simp only [bind_apply]
    generalize reconcileClusterDeployment r cfg dmsc matching f dmsi x s = rb
    rcases rb with ⟨⟨d1, c⟩, s1, l1⟩
    cases c with
    | ret e => simp [pure_apply]
    | next =>
      simp only
      intro h
      obtain ⟨h1, h2, h3, h4⟩ := ih d1 s1 h
      exact ⟨h1, h2, h3, by rw [h4, List.append_assoc]⟩

/-- The convergence loop from a resource on, when it went through: the convergence of
that resource went through, and the loop over the rest followed. -/
theorem reconcileClusterDeployments_cons {σ : Type} (r : ReconcileDeadmansSnitchIntegration σ)
    (cfg : Config) (dmsc : DmsClient σ) (matching : List ClusterDeployment) (f : String)
    (x : ClusterDeployment) (l2 : List ClusterDeployment) (dmsi : DeadmansSnitchIntegration)
    (s : σ)
    (h : (reconcileClusterDeployments r cfg dmsc matching f dmsi (x :: l2) s).val.2 = Ctl.next) :
    (reconcileClusterDeployment r cfg dmsc matching f dmsi x s).val.2 = Ctl.next ∧
      (reconcileClusterDeployments r cfg dmsc matching f dmsi (x :: l2) s).world =
        (reconcileClusterDeployments r cfg dmsc matching f
          (reconcileClusterDeployment r cfg dmsc matching f dmsi x s).val.1 l2
          (reconcileClusterDeployment r cfg dmsc matching f dmsi x s).world).world ∧
      (reconcileClusterDeployments r cfg dmsc matching f dmsi (x :: l2) s).log =
        (reconcileClusterDeployment r cfg dmsc matching f dmsi x s).log ++
        (reconcileClusterDeployments r cfg dmsc matching f
          (reconcileClusterDeployment r cfg dmsc matching f dmsi x s).val.1 l2
          (reconcileClusterDeployment r cfg dmsc matching f dmsi x s).world).log := by
  revert h
  rw [reconcileClusterDeployments]
  simp only [bind_apply]
  generalize reconcileClusterDeployment r cfg dmsc matching f dmsi x s = rb
  rcases rb with ⟨⟨d1, c⟩, s1, l1⟩
  cases c with
  | ret e => simp [pure_apply]
  | next =>
    simp only
    intro _
    exact ⟨trivial, trivial, trivial⟩

/-- A pass for an intent that is not being deleted, when it went through: it is the
convergence loop over all stored ClusterDeployments, after lookups only. -/
theorem Reconcile_converging (cfg : Config) (req : NamespacedName) (w : World)
    (dmsi : DeadmansSnitchIntegration)
    (hfind : w.dmsis.find? (fun d => d.key == req) = some dmsi)
    (hlive : dmsi.DeletionTimestamp = none)
    (hok : (Reconcile faithful cfg req w).val = none) :
    (∃ pre : List Event, pre.all Event.isRead = true ∧
      (Reconcile faithful cfg req w).log = pre ++
        (reconcileClusterDeployments faithful cfg faithfulDms
          (getMatchingClusterDeployment faithful dmsi w).val.1
          (DeadMansSnitchFinalizerPrefix ++ dmsi.Name) dmsi w.cds w).log) ∧
      (Reconcile faithful cfg req w).world =
        (reconcileClusterDeployments faithful cfg faithfulDms
          (getMatchingClusterDeployment faithful dmsi w).val.1
          (DeadMansSnitchFinalizerPrefix ++ dmsi.Name) dmsi w.cds w).world ∧
      (reconcileClusterDeployments faithful cfg faithfulDms
        (getMatchingClusterDeployment faithful dmsi w).val.1
        (DeadMansSnitchFinalizerPrefix ++ dmsi.Name) dmsi w.cds w).val.2 = Ctl.next := by
  rcases Reconcile_faithful cfg req w with ⟨h1 | h1, _, _⟩ | ⟨dmsi2, pre, hfind2, hpre, h⟩
  · rw [hfind] at h1
    cases h1
  · exact absurd hok h1
  · rw [hfind] at hfind2
    cases hfind2
    rw [if_neg (by simp [hlive])] at h
    exact ⟨⟨pre, hpre, h.1⟩, h.2.1, h.2.2 hok⟩

/-- A pass for an intent that is not being deleted, when it went through, seen from one
listed resource: the loop ran over the resources listed before it, the convergence of the
resource went through, and the loop ran over the resources listed after it. -/
theorem Reconcile_at (cfg : Config) (req : NamespacedName) (w : World)
    (dmsi : DeadmansSnitchIntegration) (pre : List ClusterDeployment) (cd : ClusterDeployment)
    (post : List ClusterDeployment)
    (hfind : w.dmsis.find? (fun d => d.key == req) = some dmsi)
    (hlive : dmsi.DeletionTimestamp = none) (hcds : w.cds = pre ++ cd :: post)
    (hok : (Reconcile faithful cfg req w).val = none) :
    ∃ d1 w1, dmsiCore d1 = dmsiCore dmsi ∧
      FrameOver (pre.map (artifactKey cfg dmsi)) (pre.map (monitorName cfg dmsi))
        (pre.map ClusterDeployment.key) w w1 ∧
      (reconcileClusterDeployment faithful cfg faithfulDms
        (getMatchingClusterDeployment faithful dmsi w).val.1
        (DeadMansSnitchFinalizerPrefix ++ dmsi.Name) d1 cd w1).val.2 = Ctl.next ∧
      FrameOver (post.map (artifactKey cfg dmsi)) (post.map (monitorName cfg dmsi))
        (post.map ClusterDeployment.key)
        (reconcileClusterDeployment faithful cfg faithfulDms
          (getMatchingClusterDeployment faithful dmsi w).val.1
          (DeadMansSnitchFinalizerPrefix ++ dmsi.Name) d1 cd w1).world
        (Reconcile faithful cfg req w).world ∧
      ∀ ev ∈ (reconcileClusterDeployment faithful cfg faithfulDms
          (getMatchingClusterDeployment faithful dmsi w).val.1
          (DeadMansSnitchFinalizerPrefix ++ dmsi.Name) d1 cd w1).log,
        ev ∈ (Reconcile faithful cfg req w).log := by
  obtain ⟨⟨lp, _, hlog⟩, hworld, hnext⟩ := Reconcile_converging cfg req w dmsi hfind hlive hok
  rw [hcds] at hlog hworld hnext
  obtain ⟨a1, a2, a3, a4⟩ := reconcileClusterDeployments_append faithful cfg faithfulDms _ _ pre
    (cd :: post) dmsi w hnext
  obtain ⟨c1, c2, c3⟩ := reconcileClusterDeployments_cons faithful cfg faithfulDms _ _ cd post _ _
    a2
  have hy1 := (reconcileClusterDeployments_yields faithful cfg faithfulDms
    (getMatchingClusterDeployment faithful dmsi w).val.1
    (DeadMansSnitchFinalizerPrefix ++ dmsi.Name) pre dmsi dmsi rfl).run w
  have hy2 := (reconcileClusterDeployment_yields faithful cfg faithfulDms
    (getMatchingClusterDeployment faithful dmsi w).val.1
    (DeadMansSnitchFinalizerPrefix ++ dmsi.Name)
    (reconcileClusterDeployments faithful cfg faithfulDms
      (getMatchingClusterDeployment faithful dmsi w).val.1
      (DeadMansSnitchFinalizerPrefix ++ dmsi.Name) dmsi pre w).val.1 cd).run
    (reconcileClusterDeployments faithful cfg faithfulDms
      (getMatchingClusterDeployment faithful dmsi w).val.1
      (DeadMansSnitchFinalizerPrefix ++ dmsi.Name) dmsi pre w).world
  refine ⟨_, _, hy1.1, reconcileClusterDeployments_frame cfg _ _ dmsi pre dmsi rfl w, c1, ?_, ?_⟩
  · rw [hworld, a3, c2]
    exact reconcileClusterDeployments_frame cfg _ _ dmsi post _ (hy2.1.trans hy1.1) _
  · intro ev hev
    rw [hlog, a4, c3]
    simp only [List.mem_append]
    exact Or.inr (Or.inr (Or.inl hev))

theorem unmanaged_of_mem (matching : List ClusterDeployment) (cd : ClusterDeployment)
    (hm : cd ∈ matching) (hnd : cd.DeletionTimestamp = none) : unmanaged matching cd = false := by
  have : (matching.any fun m => cd.UID == m.UID) = true :=
    List.any_eq_true.mpr ⟨cd, hm, by simp⟩
  simp [unmanaged, this, hnd]

/-- C6 (amended): over the faithful collaborators, after a pass that went through for
an intent that is not being deleted, a matched, installed, non-deleting, hibernating
resource has neither its secret nor its SyncSet, provided no resource listed after it has
the same artifact key (namespace and derived secret name); so a live monitor of its
derived name does not exist together with a secret or a SyncSet of the pair. -/
theorem hibernating_artifacts_absent (cfg : Config) (req : NamespacedName) (w : World)
    (dmsi : DeadmansSnitchIntegration) (pre : List ClusterDeployment) (cd : ClusterDeployment)
    (post : List ClusterDeployment)
    (hfind : w.dmsis.find? (fun d => d.key == req) = some dmsi)
    (hlive : dmsi.DeletionTimestamp = none) (hcds : w.cds = pre ++ cd :: post)
    (hmatched : cd ∈ (getMatchingClusterDeployment faithful dmsi w).val.1)
    (hnd : cd.DeletionTimestamp = none) (hinst : cd.Spec.Installed = true)
    (hhib : cd.Spec.PowerState = HibernatingClusterPowerState)
    (hpost : ∀ y ∈ post, artifactKey cfg dmsi y ≠ artifactKey cfg dmsi cd)
    (hok : (Reconcile faithful cfg req w).val = none) :
    (Reconcile faithful cfg req w).world.hasSecret (artifactKey cfg dmsi cd) = false ∧
      (Reconcile faithful cfg req w).world.hasSyncSet (artifactKey cfg dmsi cd) = false ∧
      ¬((Reconcile faithful cfg req w).world.hasSnitch (monitorName cfg dmsi cd) = true ∧
        ((Reconcile faithful cfg req w).world.hasSecret (artifactKey cfg dmsi cd) = true ∨
          (Reconcile faithful cfg req w).world.hasSyncSet (artifactKey cfg dmsi cd) = true)) := by
  obtain ⟨d1, w1, hd1, _, hbody, hpostf, _⟩ :=
    Reconcile_at cfg req w dmsi pre cd post hfind hlive hcds hok
  have hset := reconcileClusterDeployment_settles cfg _ _ d1 cd w1
    (unmanaged_of_mem _ cd hmatched hnd) hinst hbody
  rw [settledArtifacts_core cfg dmsi d1 cd cd hd1 rfl] at hset
  unfold settledArtifacts at hset
  rw [if_pos (by simp [hhib])] at hset
  simp only [Bool.and_eq_true, Bool.not_eq_true'] at hset
  obtain ⟨s1, y1, _, _⟩ := hpostf
  have hk : artifactKey cfg dmsi cd ∉ post.map (artifactKey cfg dmsi) := by
    simp only [List.mem_map, not_exists, not_and]
    exact hpost
  have e1 := (s1 _ hk).trans hset.1
  have e2 := (y1 _ hk).trans hset.2
  refine ⟨e1, e2, ?_⟩
  rintro ⟨_, h | h⟩
  · rw [e1] at h; cases h
  · rw [e2] at h; cases h

/-- When the SyncSet is missing and `createSnitch` went through, it found a live monitor
of the derived name or created one. -/
theorem createSnitch_finds (cfg : Config) (dmsi : DeadmansSnitchIntegration)
    (cd : ClusterDeployment) (w : World)
    (h : (createSnitch faithful cfg dmsi cd faithfulDms w).val = none)
    (hy : w.hasSyncSet (artifactKey cfg dmsi cd) = false) :
    ∃ ev ∈ (createSnitch faithful cfg dmsi cd faithfulDms w).log,
      ev.findsOrCreates (monitorName cfg dmsi cd) = true := by
  simp only [artifactKey] at hy
  revert h
  unfold createSnitch
  generalize (getClusterID cd cfg.IsFedramp).2 = c
  cases c with
  | some e => simp [pure_apply]
  | none =>
    intro _
    cases hf : w.findSnitches (getSnitchName cd dmsi.Spec.SnitchNamePostFix cfg.IsFedramp) with
    | nil =>
      refine ⟨Event.snitchCreate { NewSnitch
        (getSnitchName cd dmsi.Spec.SnitchNamePostFix cfg.IsFedramp) dmsi.Spec.Tags "15_minute"
        "basic" with Notes := snitchNotes (getClusterID cd cfg.IsFedramp).1 } none, ?_, ?_⟩
      · simp only [bind_apply, getSyncSet, call_apply,
          show faithful.client.GetSyncSet = World.GetSyncSet from rfl, World.GetSyncSet, hy,
          IsNotFound, Bool.false_eq_true, if_false, Option.isSome_some, Bool.and_self, if_true,
          FindSnitchesByName,
          show faithfulDms.FindSnitchesByName = World.FindSnitchesByName from rfl,
          World.FindSnitchesByName, hf, List.length_nil, Nat.le_refl, snitchCreate,
          show faithfulDms.Create = World.Create from rfl,
          show ∀ s : Snitch, (World.Create s w).1.2 = none from fun _ => rfl]
        simp
      · simp [Event.findsOrCreates, monitorName, NewSnitch]
    | cons x rest =>
      refine ⟨Event.findSnitchesByName
        (getSnitchName cd dmsi.Spec.SnitchNamePostFix cfg.IsFedramp) (x :: rest) none, ?_, ?_⟩
      · simp only [bind_apply, getSyncSet, call_apply,
          show faithful.client.GetSyncSet = World.GetSyncSet from rfl, World.GetSyncSet, hy,
          IsNotFound, Bool.false_eq_true, if_false, Option.isSome_some, Bool.and_self, if_true,
          FindSnitchesByName,
          show faithfulDms.FindSnitchesByName = World.FindSnitchesByName from rfl,
          World.FindSnitchesByName, hf]
        simp
      · simp [Event.findsOrCreates, monitorName]

/-- When the SyncSet of a managed, installed, non-hibernating resource is missing and its
convergence went through, one of its calls found a live monitor of the derived name or
created one. -/
theorem reconcileClusterDeployment_finds (cfg : Config) (matching : List ClusterDeployment)
    (f : String) (dmsi : DeadmansSnitchIntegration) (cd : ClusterDeployment) (w : World)
    (hA : unmanaged matching cd = false) (hI : cd.Spec.Installed = true)
    (hh : (cd.Spec.PowerState == HibernatingClusterPowerState) = false)
    (hy : w.hasSyncSet (artifactKey cfg dmsi cd) = false)
    (hok : (reconcileClusterDeployment faithful cfg faithfulDms matching f dmsi cd w).val.2 =
      Ctl.next) :
    ∃ ev ∈ (reconcileClusterDeployment faithful cfg faithfulDms matching f dmsi cd w).log,
      ev.findsOrCreates (monitorName cfg dmsi cd) = true := by
  have hcore := dmsAddFinalizer_core faithful dmsi cd w
  have hkeep := (dmsAddFinalizer_keeps dmsi cd).run w
  rcases reconcileClusterDeployment_main cfg matching f dmsi cd w hA hI with
    ⟨_, hne, _, _⟩ | ⟨d1, c1, w1, l1, lx, ha, hlx, h⟩
  · exact absurd hok hne
  · rw [ha] at hcore hkeep
    obtain ⟨hd, hc⟩ := hcore
    simp only at hd hc
    simp only [Keeps, Prod.mk.injEq] at hkeep
    have hk := artifactKey_core cfg dmsi d1 cd c1 hd hc
    have hn := monitorName_core cfg dmsi d1 cd c1 hd hc
    have hy1 : w1.hasSyncSet (artifactKey cfg dmsi cd) = false := by
      rw [hasSyncSet_congr _ _ hkeep.2.1]
      exact hy
    simp only [hh, Bool.false_eq_true, if_false, hy1, Bool.and_false] at h
    obtain ⟨_, hl, hv⟩ := h
    obtain ⟨v1, _, _⟩ := hv hok
    obtain ⟨ev, hev, hfc⟩ := createSnitch_finds cfg d1 c1 w1 v1 (by rw [hk]; exact hy1)
    refine ⟨ev, ?_, by rw [← hn]; exact hfc⟩
    rw [hl]
    simp only [List.mem_append]
    exact Or.inr (Or.inr (Or.inl hev))

/-! ## Monitor creation within a pass -/

section Logs
variable {σ : Type}

theorem logs_pure {α : Type} {P : List Event → Prop} (h : P []) (a : α) :
    Op.logs P (pure a : Op σ α) := ⟨fun _ => h⟩

theorem logs_bind {α β : Type} {P : List Event → Prop} (happ : ∀ a b, P a → P b → P (a ++ b))
    {m : Op σ α} {f : α → Op σ β} (h1 : Op.logs P m) (h2 : ∀ a, Op.logs P (f a)) :
    Op.logs P (m >>= f) := ⟨fun w => happ _ _ (h1.run w) ((h2 _).run _)⟩

theorem createsAfterEmptyFind_nil : createsAfterEmptyFind [] := by
  intro l1 ns e l2 h
  cases l1 <;> cases h

theorem createsAfterEmptyFind_of_all (l : List Event)
    (h : l.all (fun x => !x.isSnitchCreate) = true) : createsAfterEmptyFind l := by
  intro l1 ns e l2 hl
  exfalso
  refine not_mem_of_all_not Event.isSnitchCreate l (Event.snitchCreate ns e) h rfl ?_
  rw [hl]
  simp

theorem createsAfterEmptyFind_append (a b : List Event) (ha : createsAfterEmptyFind a)
    (hb : createsAfterEmptyFind b) : createsAfterEmptyFind (a ++ b) := by
  intro l1 ns e l2 h
  rcases List.append_eq_append_iff.mp h with ⟨a', h1, h2⟩ | ⟨c', h1, h2⟩
  · obtain ⟨l0, hl0⟩ := hb a' ns e l2 h2
    exact ⟨a ++ l0, by rw [h1, hl0, List.append_assoc]⟩
  · cases c' with
    | nil =>
      simp only [List.append_nil] at h1
      simp only [List.nil_append] at h2
      obtain ⟨l0, hl0⟩ := hb [] ns e l2 h2.symm
      cases l0 <;> cases hl0
    | cons x c' =>
      simp only [List.cons_append, List.cons.injEq] at h2
      obtain ⟨rfl, _⟩ := h2
      exact ha l1 ns e c' h1

theorem logs_call {α : Type} (f : σ → α × σ) (ev : α → Event)
    (h : ∀ a, (ev a).isSnitchCreate = false) : Op.logs createsAfterEmptyFind (call f ev) :=
  ⟨fun w => createsAfterEmptyFind_of_all _ (by simp [call_apply, h])⟩

theorem createSnitch_logs (r : ReconcileDeadmansSnitchIntegration σ) (cfg : Config)
    (dmsi : DeadmansSnitchIntegration) (cd : ClusterDeployment) (dmsc : DmsClient σ) :
    Op.logs createsAfterEmptyFind (createSnitch r cfg dmsi cd dmsc) := by
  refine ⟨fun w => ?_⟩
  intro l1 ns e l2 h
  have hmem : Event.snitchCreate ns e ∈ (createSnitch r cfg dmsi cd dmsc w).log := by
    rw [h]
    simp
  obtain ⟨hname, post, hlog, hpost⟩ := createSnitch_create r cfg dmsi cd dmsc w ns e hmem
  rw [hlog] at h
  rw [hname]
  match l1, h with
  | [], h => simp at h
  | [_], h => simp at h
  | [a, b], h =>
    simp only [List.cons_append, List.nil_append, List.cons.injEq] at h
    exact ⟨[a], by rw [← h.2.1]; rfl⟩
  | a :: b :: c :: l1, h =>
    exfalso
    simp only [List.cons_append, List.nil_append, List.cons.injEq] at h
    refine not_mem_of_all_not Event.isSnitchCreate post (Event.snitchCreate ns e) hpost rfl ?_
    rw [h.2.2.2]
    simp

theorem deleteDMSClusterDeployment_logs (r : ReconcileDeadmansSnitchIntegration σ)
    (cfg : Config) (dmsi : DeadmansSnitchIntegration) (cd : ClusterDeployment)
    (dmsc : DmsClient σ) :
    Op.logs createsAfterEmptyFind (deleteDMSClusterDeployment r cfg dmsi cd dmsc) :=
  ⟨fun w => createsAfterEmptyFind_of_all _ (noCreate_deleteDMS r cfg dmsi cd dmsc w)⟩

theorem dmsAddFinalizer_logs (r : ReconcileDeadmansSnitchIntegration σ)
    (dmsi : DeadmansSnitchIntegration) (cd : ClusterDeployment) :
    Op.logs createsAfterEmptyFind (dmsAddFinalizer r dmsi cd) :=
  ⟨fun w => createsAfterEmptyFind_of_all _
    (dmsAddFinalizer_logAll (fun x => !x.isSnitchCreate) r dmsi cd (fun _ _ => rfl)
      (fun _ _ => rfl) w)⟩

theorem snitchResourcesExist_logs (r : ReconcileDeadmansSnitchIntegration σ) (cfg : Config)
    (dmsi : DeadmansSnitchIntegration) (cd : ClusterDeployment) :
    Op.logs createsAfterEmptyFind (snitchResourcesExist r cfg dmsi cd) :=
  ⟨fun w => createsAfterEmptyFind_of_all _
    (snitchResourcesExist_logAll (fun x => !x.isSnitchCreate) r cfg dmsi cd (fun _ _ => rfl)
      (fun _ _ => rfl) w)⟩

theorem createSecret_logs (r : ReconcileDeadmansSnitchIntegration σ) (cfg : Config)
    (dmsi : DeadmansSnitchIntegration) (dmsc : DmsClient σ) (cd : ClusterDeployment) :
    Op.logs createsAfterEmptyFind (createSecret r cfg dmsi dmsc cd) :=
  ⟨fun w => createsAfterEmptyFind_of_all _
    (createSecret_logAll (fun x => !x.isSnitchCreate) r cfg dmsi dmsc cd (fun _ _ => rfl)
      (fun _ _ _ => rfl) (fun _ _ => rfl) w)⟩

theorem createSyncset_logs (r : ReconcileDeadmansSnitchIntegration σ) (cfg : Config)
    (dmsi : DeadmansSnitchIntegration) (cd : ClusterDeployment) :
    Op.logs createsAfterEmptyFind (createSyncset r cfg dmsi cd) :=
  ⟨fun w => createsAfterEmptyFind_of_all _
    (createSyncset_logAll (fun x => !x.isSnitchCreate) r cfg dmsi cd (fun _ _ => rfl)
      (fun _ _ => rfl) w)⟩

theorem reconcileClusterDeployment_logs (r : ReconcileDeadmansSnitchIntegration σ)
    (cfg : Config) (dmsc : DmsClient σ) (matching : List ClusterDeployment) (f : String)
    (dmsi : DeadmansSnitchIntegration) (cd : ClusterDeployment) :
    Op.logs createsAfterEmptyFind (reconcileClusterDeployment r cfg dmsc matching f dmsi cd) := by
  unfold reconcileClusterDeployment
  repeat' first
    | exact logs_pure createsAfterEmptyFind_nil _
    | exact deleteDMSClusterDeployment_logs r cfg _ _ dmsc
    | exact dmsAddFinalizer_logs r _ _
    | exact snitchResourcesExist_logs r cfg _ _
    | exact createSnitch_logs r cfg _ _ dmsc
    | exact createSecret_logs r cfg _ dmsc _
    | exact createSyncset_logs r cfg _ _
    | apply logs_bind createsAfterEmptyFind_append
    | split
    | intro _
    | dsimp only

theorem reconcileClusterDeployments_logs (r : ReconcileDeadmansSnitchIntegration σ)
    (cfg : Config) (dmsc : DmsClient σ) (matching : List ClusterDeployment) (f : String)
    (l : List ClusterDeployment) (dmsi : DeadmansSnitchIntegration) :
    Op.logs createsAfterEmptyFind (reconcileClusterDeployments r cfg dmsc matching f dmsi l) := by
  induction l generalizing dmsi with
  | nil => exact logs_pure createsAfterEmptyFind_nil _
  | cons x rest ih =>
    unfold reconcileClusterDeployments
    apply logs_bind createsAfterEmptyFind_append
      (reconcileClusterDeployment_logs r cfg dmsc matching f dmsi x)
    intro b
    split
    · exact logs_pure createsAfterEmptyFind_nil _
    · exact ih b.1

theorem teardownGuarded_logs (r : ReconcileDeadmansSnitchIntegration σ) (cfg : Config)
    (dmsi : DeadmansSnitchIntegration) (dmsc : DmsClient σ) (f : String)
    (l : List ClusterDeployment) :
    Op.logs createsAfterEmptyFind (teardownGuarded r cfg dmsi dmsc f l) := by
  induction l with
  | nil => exact logs_pure createsAfterEmptyFind_nil _
  | cons x rest ih =>
    unfold teardownGuarded
    repeat' first
      | exact ih
      | exact logs_pure createsAfterEmptyFind_nil _
      | exact deleteDMSClusterDeployment_logs r cfg _ _ dmsc
      | apply logs_bind createsAfterEmptyFind_append
      | split
      | intro _

theorem getMatchingClusterDeployment_logs (r : ReconcileDeadmansSnitchIntegration σ)
    (dmsi : DeadmansSnitchIntegration) :
    Op.logs createsAfterEmptyFind (getMatchingClusterDeployment r dmsi) := by
  unfold getMatchingClusterDeployment
  generalize LabelSelectorAsSelector dmsi.Spec.ClusterDeploymentSelector = s
  cases s with
  | error e => exact logs_pure createsAfterEmptyFind_nil _
  | ok sel =>
    dsimp only
    apply logs_bind createsAfterEmptyFind_append (logs_call _ _ (by intro _; rfl))
    intro _
    exact logs_pure createsAfterEmptyFind_nil _

theorem getAllClusterDeployment_logs (r : ReconcileDeadmansSnitchIntegration σ) :
    Op.logs createsAfterEmptyFind (getAllClusterDeployment r) := by
  unfold getAllClusterDeployment listClusterDeployments
  exact logs_call _ _ (by intro _; rfl)

/-- In a pass, whatever the collaborators do, every monitor create call comes right after
a find-by-name of the same name that returned no monitor and no error. -/
theorem Reconcile_logs (r : ReconcileDeadmansSnitchIntegration σ) (cfg : Config)
    (req : NamespacedName) : Op.logs createsAfterEmptyFind (Reconcile r cfg req) := by
  unfold Reconcile
  repeat' first
    | exact logs_pure createsAfterEmptyFind_nil _
    | exact logs_call _ _ (by intro _; rfl)
    | exact getMatchingClusterDeployment_logs r _
    | exact getAllClusterDeployment_logs r
    | exact teardownGuarded_logs r cfg _ _ _ _
    | exact reconcileClusterDeployments_logs r cfg _ _ _ _ _
    | apply logs_bind createsAfterEmptyFind_append
    | split
    | intro _
    | dsimp only

end Logs

/-- Over the faithful collaborators, a pass that went through for a managed, installed,
non-hibernating resource whose SyncSet was missing has found a live monitor of the
derived name or created one, and one exists afterwards, when no resource listed before
has its artifact key and none listed after has its monitor name. -/
theorem Reconcile_monitor (cfg : Config) (req : NamespacedName) (w : World)
    (dmsi : DeadmansSnitchIntegration) (pre : List ClusterDeployment) (cd : ClusterDeployment)
    (post : List ClusterDeployment)
    (hfind : w.dmsis.find? (fun d => d.key == req) = some dmsi)
    (hlive : dmsi.DeletionTimestamp = none) (hcds : w.cds = pre ++ cd :: post)
    (hmatched : cd ∈ (getMatchingClusterDeployment faithful dmsi w).val.1)
    (hnd : cd.DeletionTimestamp = none) (hinst : cd.Spec.Installed = true)
    (hpow : cd.Spec.PowerState ≠ HibernatingClusterPowerState)
    (hmiss : w.hasSyncSet (artifactKey cfg dmsi cd) = false)
    (hpre : ∀ x ∈ pre, artifactKey cfg dmsi x ≠ artifactKey cfg dmsi cd)
    (hpost : ∀ y ∈ post, monitorName cfg dmsi y ≠ monitorName cfg dmsi cd)
    (hok : (Reconcile faithful cfg req w).val = none) :
    (∃ ev ∈ (Reconcile faithful cfg req w).log,
        ev.findsOrCreates (monitorName cfg dmsi cd) = true) ∧
      (Reconcile faithful cfg req w).world.hasSnitch (monitorName cfg dmsi cd) = true := by
  obtain ⟨d1, w1, hd1, hpref, hbody, hpostf, hlog⟩ :=
    Reconcile_at cfg req w dmsi pre cd post hfind hlive hcds hok
  have hA := unmanaged_of_mem _ cd hmatched hnd
  have hh : (cd.Spec.PowerState == HibernatingClusterPowerState) = false := by simpa using hpow
  have hk := artifactKey_core cfg dmsi d1 cd cd hd1 rfl
  have hn := monitorName_core cfg dmsi d1 cd cd hd1 rfl
  obtain ⟨_, y0, _, _⟩ := hpref
  obtain ⟨_, _, m1, _⟩ := hpostf
  have hy1 : w1.hasSyncSet (artifactKey cfg d1 cd) = false := by
    rw [hk, y0 _ (by
      simp only [List.mem_map, not_exists, not_and]
      exact hpre)]
    exact hmiss
  obtain ⟨ev, hev, hfc⟩ := reconcileClusterDeployment_finds cfg _ _ d1 cd w1 hA hinst hh hy1 hbody
  have hmon := reconcileClusterDeployment_monitor cfg _ _ d1 cd w1 hA hinst hh hy1 hbody
  rw [hn] at hfc hmon
  refine ⟨⟨ev, hlog ev hev, hfc⟩, ?_⟩
  rw [m1 _ (by
    simp only [List.mem_map, not_exists, not_and]
    exact hpost)]
  exact hmon

/-! ## C5: find-or-create of the monitor -/

set_option maxRecDepth 100000 in
/-- C5 as stated fails: cluster `a` is matched, installed, not being deleted and running,
and its secret is missing, but its SyncSet exists: the pass returns success without
having found or created a monitor of the derived name, and none exists afterwards
(`createSnitch` looks for a monitor only when the SyncSet is missing); and when a resource
listed before has the same artifact key, the pass creates the artifacts for that one and
returns success without a monitor of the derived name of cluster `a`, whose SyncSet and
secret were both missing. -/
theorem Reconcile_without_monitor :
    (clusterA ∈ (getMatchingClusterDeployment faithful exampleIntent orphanedSyncSetWorld).val.1 ∧
      clusterA.Spec.Installed = true ∧ clusterA.DeletionTimestamp = none ∧
      clusterA.Spec.PowerState ≠ HibernatingClusterPowerState ∧
      orphanedSyncSetWorld.hasSecret (artifactKey exampleConfig exampleIntent clusterA) = false ∧
      (Reconcile faithful exampleConfig exampleRequest orphanedSyncSetWorld).val = none ∧
      (Reconcile faithful exampleConfig exampleRequest orphanedSyncSetWorld).log.any
        (Event.findsOrCreates (monitorName exampleConfig exampleIntent clusterA)) = false ∧
      (Reconcile faithful exampleConfig exampleRequest orphanedSyncSetWorld).world.hasSnitch
        (monitorName exampleConfig exampleIntent clusterA) = false) ∧
    (clusterA ∈ (getMatchingClusterDeployment faithful exampleIntent otherDomainWorld).val.1 ∧
      otherDomainWorld.hasSecret (artifactKey exampleConfig exampleIntent clusterA) = false ∧
      otherDomainWorld.hasSyncSet (artifactKey exampleConfig exampleIntent clusterA) = false ∧
      (Reconcile faithful exampleConfig exampleRequest otherDomainWorld).val = none ∧
      (Reconcile faithful exampleConfig exampleRequest otherDomainWorld).log.any
        (Event.findsOrCreates (monitorName exampleConfig exampleIntent clusterA)) = false ∧
      (Reconcile faithful exampleConfig exampleRequest otherDomainWorld).world.hasSnitch
        (monitorName exampleConfig exampleIntent clusterA) = false) := by
  decide

/-- C5 (amended): over the faithful collaborators, for an intent that is not being
deleted and a matched, installed, non-deleting resource whose power state is not
Hibernating and whose SyncSet is missing, when no resource listed before it has its
artifact key and no resource listed after it has its derived monitor name, a pass that
returns success has found a live monitor of the derived name or created one, and one
exists afterwards; and in every pass, whatever the collaborators do, a monitor create call
comes right after a find-by-name of the same name that returned no monitor. -/
theorem monitor_found_or_created (cfg : Config) (req : NamespacedName) (w : World)
    (dmsi : DeadmansSnitchIntegration) (pre : List ClusterDeployment) (cd : ClusterDeployment)
    (post : List ClusterDeployment)
    (hfind : w.dmsis.find? (fun d => d.key == req) = some dmsi)
    (hlive : dmsi.DeletionTimestamp = none) (hcds : w.cds = pre ++ cd :: post)
    (hmatched : cd ∈ (getMatchingClusterDeployment faithful dmsi w).val.1)
    (hnd : cd.DeletionTimestamp = none) (hinst : cd.Spec.Installed = true)
    (hpow : cd.Spec.PowerState ≠ HibernatingClusterPowerState)
    (hmiss : w.hasSyncSet (artifactKey cfg dmsi cd) = false)
    (hpre : ∀ x ∈ pre, artifactKey cfg dmsi x ≠ artifactKey cfg dmsi cd)
    (hpost : ∀ y ∈ post, monitorName cfg dmsi y ≠ monitorName cfg dmsi cd)
    (hok : (Reconcile faithful cfg req w).val = none) :
    (∃ ev ∈ (Reconcile faithful cfg req w).log,
        ev.findsOrCreates (monitorName cfg dmsi cd) = true) ∧
      (Reconcile faithful cfg req w).world.hasSnitch (monitorName cfg dmsi cd) = true ∧
      ∀ (σ : Type) (r : ReconcileDeadmansSnitchIntegration σ) (s : σ),
        createsAfterEmptyFind (Reconcile r cfg req s).log :=
  ⟨(Reconcile_monitor cfg req w dmsi pre cd post hfind hlive hcds hmatched hnd hinst hpow hmiss
      hpre hpost hok).1,
    (Reconcile_monitor cfg req w dmsi pre cd post hfind hlive hcds hmatched hnd hinst hpow hmiss
      hpre hpost hok).2,
    fun _ r s => (Reconcile_logs r cfg req).run s⟩

set_option maxRecDepth 100000 in
/-- The amended C5 at the example state without monitor and artifacts: the pass returns
success and a monitor named `a.example.com` exists afterwards. -/
theorem monitor_found_or_created_witness :
    (Reconcile faithful exampleConfig exampleRequest freshWorld).val = none ∧
      (Reconcile faithful exampleConfig exampleRequest freshWorld).world.hasSnitch
        "a.example.com" = true :=
  ⟨by decide,
    (monitor_found_or_created exampleConfig exampleRequest freshWorld exampleIntent [] clusterA []
      (by decide) rfl rfl (by decide) rfl rfl (by decide) (by decide)
      (fun _ h => by cases h) (fun _ h => by cases h) (by decide)).2.1⟩

/-! ## C6, C7: counterexamples and instances -/

set_option maxRecDepth 100000 in
/-- C6 as stated fails: the hibernating twin is matched, installed and not being deleted;
it is converged first, when nothing exists, and cluster `a`, which has the same artifact
key and derived monitor name, is converged after it: the pass returns success, and
afterwards a live monitor of the derived name exists together with the secret and the
SyncSet. -/
theorem Reconcile_hibernating_with_monitor_and_artifacts :
    hibernatingTwinA ∈ (getMatchingClusterDeployment faithful exampleIntent twinWorld).val.1 ∧
      hibernatingTwinA.Spec.Installed = true ∧ hibernatingTwinA.DeletionTimestamp = none ∧
      hibernatingTwinA.Spec.PowerState = HibernatingClusterPowerState ∧
      (Reconcile faithful exampleConfig exampleRequest twinWorld).val = none ∧
      (Reconcile faithful exampleConfig exampleRequest twinWorld).world.hasSnitch
        (monitorName exampleConfig exampleIntent hibernatingTwinA) = true ∧
      (Reconcile faithful exampleConfig exampleRequest twinWorld).world.hasSecret
        (artifactKey exampleConfig exampleIntent hibernatingTwinA) = true ∧
      (Reconcile faithful exampleConfig exampleRequest twinWorld).world.hasSyncSet
        (artifactKey exampleConfig exampleIntent hibernatingTwinA) = true := by
  decide

set_option maxRecDepth 100000 in
/-- The amended C6 at the example state with the hibernating cluster `a` and its
monitor, secret and SyncSet: the pass returns success, and afterwards neither the secret
nor the SyncSet exists. -/
theorem hibernating_artifacts_absent_witness :
    (Reconcile faithful exampleConfig exampleRequest hibernatedWorld).val = none ∧
      hibernatedWorld.hasSecret ⟨"uhc-a", "a-dms-secret"⟩ = true ∧
      (Reconcile faithful exampleConfig exampleRequest hibernatedWorld).world.hasSecret
        ⟨"uhc-a", "a-dms-secret"⟩ = false ∧
      (Reconcile faithful exampleConfig exampleRequest hibernatedWorld).world.hasSyncSet
        ⟨"uhc-a", "a-dms-secret"⟩ = false :=
  ⟨by decide, by decide,
    (hibernating_artifacts_absent exampleConfig exampleRequest hibernatedWorld exampleIntent []
      hibernatingA [] (by decide) rfl rfl (by decide) rfl rfl rfl (fun _ h => by cases h)
      (by decide)).1,
    (hibernating_artifacts_absent exampleConfig exampleRequest hibernatedWorld exampleIntent []
      hibernatingA [] (by decide) rfl rfl (by decide) rfl rfl rfl (fun _ h => by cases h)
      (by decide)).2.1⟩

set_option maxRecDepth 100000 in
set_option maxHeartbeats 4000000 in
/-- C7 as stated fails: with the hibernating twin listed before cluster `a`, the first
pass returns success and leaves the monitor, the secret and the SyncSet that cluster `a`
needs; the second pass, on the state the first one left, tears them down for the twin and
creates them again for cluster `a`. -/
theorem Reconcile_second_pass_mutates :
    (Reconcile faithful exampleConfig exampleRequest twinWorld).val = none ∧
      (Reconcile faithful exampleConfig exampleRequest twinWorld).world = twinWorldConverged ∧
      ((Reconcile faithful exampleConfig exampleRequest twinWorldConverged).log.filter
          Event.isMutation).map (fun ev =>
            match ev with
            | Event.snitchDelete _ _ _ => "monitor delete"
            | Event.deleteSyncSet _ _ => "SyncSet delete"
            | Event.deleteSecret _ _ => "secret delete"
            | Event.snitchCreate _ _ => "monitor create"
            | Event.createSecret _ _ => "secret create"
            | Event.createSyncSet _ _ => "SyncSet create"
            | _ => "") =
        ["monitor delete", "SyncSet delete", "secret delete", "monitor create", "secret create",
          "SyncSet create"] := by
  refine ⟨?_, ?_, ?_⟩
  · decide
  · decide
  · decide

set_option maxRecDepth 100000 in
/-- The amended C7 at the example state without monitor and artifacts: the first pass
returns success and creates the monitor, and the second pass issues no create and no
delete. -/
theorem Reconcile_twice_witness :
    (Reconcile faithful exampleConfig exampleRequest freshWorld).val = none ∧
      (Reconcile faithful exampleConfig exampleRequest freshWorld).log.any Event.isMutation =
        true ∧
      (Reconcile faithful exampleConfig exampleRequest
        (Reconcile faithful exampleConfig exampleRequest freshWorld).world).log.all
          (fun x => !x.isMutation) = true :=
  ⟨by decide, by decide,
    Reconcile_twice exampleConfig exampleRequest freshWorld (by decide) (by decide) (by decide)⟩

/-! ## C11: resources to release -/

section Release
variable {σ : Type}

/-- The loop body at a resource that is not matched by UID or has a deletion timestamp:
with the finalizer it is `deleteDMSClusterDeployment`, without it it does nothing. -/
theorem reconcileClusterDeployment_unmanaged (r : ReconcileDeadmansSnitchIntegration σ)
    (cfg : Config) (dmsc : DmsClient σ) (matching : List ClusterDeployment) (f : String)
    (dmsi : DeadmansSnitchIntegration) (cd : ClusterDeployment) (s : σ)
    (h : (∀ m ∈ matching, m.UID ≠ cd.UID) ∨ cd.DeletionTimestamp ≠ none) :
    reconcileClusterDeployment r cfg dmsc matching f dmsi cd s =
      if HasFinalizer cd.Finalizers f = true then
        ⟨(dmsi,
            match (deleteDMSClusterDeployment r cfg dmsi cd dmsc s).val.2 with
            | some e => Ctl.ret (some e)
            | none => Ctl.next),
          (deleteDMSClusterDeployment r cfg dmsi cd dmsc s).world,
          (deleteDMSClusterDeployment r cfg dmsi cd dmsc s).log⟩
      else ⟨(dmsi, Ctl.next), s, []⟩ := by
  have hA : (!matching.any (fun m => cd.UID == m.UID) || cd.DeletionTimestamp.isSome) = true := by
    rcases h with h | h
    · have : (matching.any fun m => cd.UID == m.UID) = false := by
        rw [List.any_eq_false]
        intro m hm
        simpa using fun h2 => h m hm h2.symm
      simp [this]
    · cases hd : cd.DeletionTimestamp with
      | none => exact absurd hd h
      | some t => simp
  cases hf : HasFinalizer cd.Finalizers f
  · simp only [reconcileClusterDeployment, hA, hf, if_true, Bool.false_eq_true, if_false]
    rfl
  · simp only [reconcileClusterDeployment, hA, hf, if_true, bind_apply]
    generalize deleteDMSClusterDeployment r cfg dmsi cd dmsc s = rd
    rcases rd with ⟨⟨c2, e2⟩, s2, l2⟩
    cases e2 <;> simp [pure_apply]

/-- The loop over `l1 ++ l2` when the loop over `l1` falls through: the loop over `l2`
follows, from the intent and the state the loop over `l1` leaves. -/
theorem reconcileClusterDeployments_through (r : ReconcileDeadmansSnitchIntegration σ)
    (cfg : Config) (dmsc : DmsClient σ) (matching : List ClusterDeployment) (f : String)
    (l2 : List ClusterDeployment) :
    ∀ (l1 : List ClusterDeployment) (dmsi d1 : DeadmansSnitchIntegration) (s s1 : σ)
      (lp : List Event),
      reconcileClusterDeployments r cfg dmsc matching f dmsi l1 s = ⟨(d1, Ctl.next), s1, lp⟩ →
      reconcileClusterDeployments r cfg dmsc matching f dmsi (l1 ++ l2) s =
        ⟨(reconcileClusterDeployments r cfg dmsc matching f d1 l2 s1).val,
          (reconcileClusterDeployments r cfg dmsc matching f d1 l2 s1).world,
          lp ++ (reconcileClusterDeployments r cfg dmsc matching f d1 l2 s1).log⟩ := by
  intro l1
  induction l1 with
  | nil =>
    intro dmsi d1 s s1 lp h
    simp only [reconcileClusterDeployments, pure_apply] at h
    injection h with hv hw hl
    injection hv with hd _
    subst hd; subst hw; subst hl
    rfl
  | cons x rest ih =>
    intro dmsi d1 s s1 lp h
    simp only [List.cons_append]
    rw [reconcileClusterDeployments] at h ⊢
    simp only [bind_apply] at h ⊢
    generalize reconcileClusterDeployment r cfg dmsc matching f dmsi x s = rb at h ⊢
    rcases rb with ⟨⟨d0, c⟩, s0, l0⟩
    cases c with
    | ret e =>
      simp only [pure_apply] at h
      injection h with hv _ _
      injection hv with _ hc
      cases hc
    | next =>
      dsimp only at h ⊢
      generalize hr : reconcileClusterDeployments r cfg dmsc matching f d0 rest s0 = rr at h
      rcases rr with ⟨⟨d2, c2⟩, s2, l2'⟩
      dsimp only at h
      injection h with hv hw hl
      injection hv with hd hc
      subst hd; subst hc; subst hw; subst hl
      rw [ih d0 d2 s0 s2 l2' hr]
      simp

/-- The pass of `Reconcile` for an intent without a deletion timestamp, when the four
lookups succeed: the convergence loop over the listed resources follows. -/
theorem Reconcile_live (r : ReconcileDeadmansSnitchIntegration σ) (cfg : Config)
    (req : NamespacedName) (s s1 s2 s3 s4 : σ) (dmsi : DeadmansSnitchIntegration)
    (key : String) (matching listed : List ClusterDeployment) (lm la : List Event)
    (hget : r.client.GetDMSI req s = ((dmsi, none), s1))
    (hlive : dmsi.DeletionTimestamp = none)
    (hkey : r.client.LoadSecretData dmsi.Spec.DmsAPIKeySecretRef.Name
      dmsi.Spec.DmsAPIKeySecretRef.Namespace deadMansSnitchAPISecretKey s1 = ((key, none), s2))
    (hmatch : getMatchingClusterDeployment r dmsi s2 = ⟨(matching, none), s3, lm⟩)
    (hall : getAllClusterDeployment r s3 = ⟨(listed, none), s4, la⟩) :
    Reconcile r cfg req s =
      ⟨(match (reconcileClusterDeployments r cfg (r.dmsclient key) matching
            (DeadMansSnitchFinalizerPrefix ++ dmsi.Name) dmsi listed s4).val.2 with
          | Ctl.ret e => e
          | Ctl.next => none),
        (reconcileClusterDeployments r cfg (r.dmsclient key) matching
          (DeadMansSnitchFinalizerPrefix ++ dmsi.Name) dmsi listed s4).world,
        [Event.getDMSI req none,
          Event.loadSecretData dmsi.Spec.DmsAPIKeySecretRef.Name
            dmsi.Spec.DmsAPIKeySecretRef.Namespace deadMansSnitchAPISecretKey none] ++ lm ++
          la ++
          (reconcileClusterDeployments r cfg (r.dmsclient key) matching
            (DeadMansSnitchFinalizerPrefix ++ dmsi.Name) dmsi listed s4).log⟩ := by
  simp only [Reconcile, bind_apply, getDMSI, LoadSecretData, call_apply, hget, hkey, hmatch,
    hall, hlive, Option.isSome_none, Bool.false_eq_true, if_false]
  generalize reconcileClusterDeployments r cfg (r.dmsclient key) matching
    (DeadMansSnitchFinalizerPrefix ++ dmsi.Name) dmsi listed s4 = rl
  rcases rl with ⟨⟨d, c⟩, w, l⟩
  cases c <;> simp [pure_apply]

end Release

/-- C11: a pass of `Reconcile` over arbitrary collaborators, for an intent the store
returns without a deletion timestamp, with the credential found, the matched resources
returned by `getMatchingClusterDeployment` and the resources `pre ++ cd :: post` listed
by `getAllClusterDeployment`. Let no matched resource have the UID of `cd`, or let `cd`
have a deletion timestamp, and let the loop over `pre` reach `cd` (it falls through,
leaving the intent `d1` and the state `s5`). When `cd` carries the intent's finalizer,
the pass runs `deleteDMSClusterDeployment` for `cd` right there: its calls follow those of
the lookups and of `pre`; if it fails the pass ends with its error in the state it leaves,
and if it succeeds the pass goes on with `post` from that state. When `cd` does not carry
the finalizer, the pass is the pass without `cd`: after `pre` it goes on with `post` from
the same intent and the same state, so no call is issued and nothing is changed for
`cd`. -/
theorem Reconcile_releases_or_skips {σ : Type} (r : ReconcileDeadmansSnitchIntegration σ)
    (cfg : Config) (req : NamespacedName) (s s1 s2 s3 s4 s5 : σ)
    (dmsi d1 : DeadmansSnitchIntegration) (key : String)
    (matching pre post : List ClusterDeployment) (cd : ClusterDeployment)
    (lm la lp : List Event)
    (hget : r.client.GetDMSI req s = ((dmsi, none), s1))
    (hlive : dmsi.DeletionTimestamp = none)
    (hkey : r.client.LoadSecretData dmsi.Spec.DmsAPIKeySecretRef.Name
      dmsi.Spec.DmsAPIKeySecretRef.Namespace deadMansSnitchAPISecretKey s1 = ((key, none), s2))
    (hmatch : getMatchingClusterDeployment r dmsi s2 = ⟨(matching, none), s3, lm⟩)
    (hall : getAllClusterDeployment r s3 = ⟨(pre ++ cd :: post, none), s4, la⟩)
    (hpre : reconcileClusterDeployments r cfg (r.dmsclient key) matching
      (DeadMansSnitchFinalizerPrefix ++ dmsi.Name) dmsi pre s4 = ⟨(d1, Ctl.next), s5, lp⟩)
    (hcd : (∀ m ∈ matching, m.UID ≠ cd.UID) ∨ cd.DeletionTimestamp ≠ none) :
    dmsiCore d1 = dmsiCore dmsi ∧
    (HasFinalizer cd.Finalizers (DeadMansSnitchFinalizerPrefix ++ dmsi.Name) = true →
      (∀ e, (deleteDMSClusterDeployment r cfg d1 cd (r.dmsclient key) s5).val.2 = some e →
        Reconcile r cfg req s =
          ⟨some e, (deleteDMSClusterDeployment r cfg d1 cd (r.dmsclient key) s5).world,
            [Event.getDMSI req none,
              Event.loadSecretData dmsi.Spec.DmsAPIKeySecretRef.Name
                dmsi.Spec.DmsAPIKeySecretRef.Namespace deadMansSnitchAPISecretKey none] ++
              lm ++ la ++ lp ++
              (deleteDMSClusterDeployment r cfg d1 cd (r.dmsclient key) s5).log⟩) ∧
      ((deleteDMSClusterDeployment r cfg d1 cd (r.dmsclient key) s5).val.2 = none →
        Reconcile r cfg req s =
          ⟨(match (reconcileClusterDeployments r cfg (r.dmsclient key) matching
                (DeadMansSnitchFinalizerPrefix ++ dmsi.Name) d1 post
                (deleteDMSClusterDeployment r cfg d1 cd (r.dmsclient key) s5).world).val.2 with
              | Ctl.ret e => e
              | Ctl.next => none),
            (reconcileClusterDeployments r cfg (r.dmsclient key) matching
              (DeadMansSnitchFinalizerPrefix ++ dmsi.Name) d1 post
              (deleteDMSClusterDeployment r cfg d1 cd (r.dmsclient key) s5).world).world,
            [Event.getDMSI req none,
              Event.loadSecretData dmsi.Spec.DmsAPIKeySecretRef.Name
                dmsi.Spec.DmsAPIKeySecretRef.Namespace deadMansSnitchAPISecretKey none] ++
              lm ++ la ++ lp ++
              (deleteDMSClusterDeployment r cfg d1 cd (r.dmsclient key) s5).log ++
              (reconcileClusterDeployments r cfg (r.dmsclient key) matching
                (DeadMansSnitchFinalizerPrefix ++ dmsi.Name) d1 post
                (deleteDMSClusterDeployment r cfg d1 cd (r.dmsclient key) s5).world).log⟩)) ∧
    (HasFinalizer cd.Finalizers (DeadMansSnitchFinalizerPrefix ++ dmsi.Name) = false →
      Reconcile r cfg req s =
        ⟨(match (reconcileClusterDeployments r cfg (r.dmsclient key) matching
              (DeadMansSnitchFinalizerPrefix ++ dmsi.Name) d1 post s5).val.2 with
            | Ctl.ret e => e
            | Ctl.next => none),
          (reconcileClusterDeployments r cfg (r.dmsclient key) matching
            (DeadMansSnitchFinalizerPrefix ++ dmsi.Name) d1 post s5).world,
          [Event.getDMSI req none,
            Event.loadSecretData dmsi.Spec.DmsAPIKeySecretRef.Name
              dmsi.Spec.DmsAPIKeySecretRef.Namespace deadMansSnitchAPISecretKey none] ++
            lm ++ la ++ lp ++
            (reconcileClusterDeployments r cfg (r.dmsclient key) matching
              (DeadMansSnitchFinalizerPrefix ++ dmsi.Name) d1 post s5).log⟩) := by
  have hcore : dmsiCore d1 = dmsiCore dmsi := by
    have h := ((reconcileClusterDeployments_yields r cfg (r.dmsclient key) matching
      (DeadMansSnitchFinalizerPrefix ++ dmsi.Name) pre dmsi dmsi rfl).run s4).1
    rw [hpre] at h
    exact h
  have hpass := Reconcile_live r cfg req s s1 s2 s3 s4 dmsi key matching (pre ++ cd :: post)
    lm la hget hlive hkey hmatch hall
  have hloop := reconcileClusterDeployments_through r cfg (r.dmsclient key) matching
    (DeadMansSnitchFinalizerPrefix ++ dmsi.Name) (cd :: post) pre dmsi d1 s4 s5 lp hpre
  have hbody := reconcileClusterDeployment_unmanaged r cfg (r.dmsclient key) matching
    (DeadMansSnitchFinalizerPrefix ++ dmsi.Name) d1 cd s5 hcd
  have hcons : reconcileClusterDeployments r cfg (r.dmsclient key) matching
      (DeadMansSnitchFinalizerPrefix ++ dmsi.Name) d1 (cd :: post) s5 =
      ((reconcileClusterDeployment r cfg (r.dmsclient key) matching
        (DeadMansSnitchFinalizerPrefix ++ dmsi.Name) d1 cd) >>= fun b =>
        match b.2 with
        | Ctl.ret e => pure (b.1, Ctl.ret e)
        | Ctl.next => reconcileClusterDeployments r cfg (r.dmsclient key) matching
            (DeadMansSnitchFinalizerPrefix ++ dmsi.Name) b.1 post) s5 := by
    first
      | rfl
      | rw [reconcileClusterDeployments]
  rw [hpass, hloop, hcons, bind_apply, hbody]
  refine ⟨hcore, ?_, ?_⟩
  · intro hf
    rw [if_pos hf]
    constructor
    · intro e he
      simp [he, pure_apply]
    · intro he
      simp [he]
  · intro hf
    rw [if_neg (by simp [hf])]
    simp

set_option maxRecDepth 100000 in
set_option maxHeartbeats 4000000 in
/-- C11 at an example state: cluster `a` is matched and not installed, cluster `b` is
excluded and unguarded, cluster `c` is not selected, guarded and fully provisioned. The
pass issues no call for `a` and `b` and tears `c` down: it deletes the monitor, the
SyncSet and the secret of `c` and removes the finalizer. -/
theorem Reconcile_releases_or_skips_witness :
    (Reconcile faithful exampleConfig exampleRequest staleWorld).val = none ∧
      (Reconcile faithful exampleConfig exampleRequest staleWorld).world = staleWorldReleased ∧
      (Reconcile faithful exampleConfig exampleRequest staleWorld).log =
        [Event.getDMSI exampleRequest none,
          Event.loadSecretData "api" "dms" deadMansSnitchAPISecretKey none,
          Event.listClusterDeployments
            (some ⟨[⟨"tier", SelectionOp.isIn, ["prod"]⟩]⟩) none,
          Event.listClusterDeployments none none,
          Event.findSnitchesByName "c.example.com" [monitorC] none,
          Event.snitchDelete 0 true none,
          Event.getSyncSet ⟨"uhc-c", "c-dms-secret"⟩ none,
          Event.deleteSyncSet ⟨"uhc-c", "c-dms-secret"⟩ none,
          Event.getSecret ⟨"uhc-c", "c-dms-secret"⟩ none,
          Event.deleteSecret ⟨"uhc-c", "c-dms-secret"⟩ none,
          Event.patchClusterDeployment clusterC none] := by
  have h := ((Reconcile_releases_or_skips faithful exampleConfig exampleRequest
    staleWorld staleWorld staleWorld staleWorld staleWorld staleWorld
    exampleIntent exampleIntent "key" [uninstalledA] [uninstalledA, clusterB] []
    guardedClusterC
    [Event.listClusterDeployments (some ⟨[⟨"tier", SelectionOp.isIn, ["prod"]⟩]⟩) none]
    [Event.listClusterDeployments none none] []
    rfl rfl rfl rfl rfl rfl (Or.inl (by decide))).2.1 (by decide)).2 (by decide)
  rw [h]
  exact ⟨by decide, by decide, by decide⟩

/-! ## C12: the secret of a resource -/

section Secret
variable {σ : Type}

/-- When the secret lookup finds the secret, `createSecret` issues no other call and
returns success. -/
theorem createSecret_present (r : ReconcileDeadmansSnitchIntegration σ) (cfg : Config)
    (dmsi : DeadmansSnitchIntegration) (dmsc : DmsClient σ) (cd : ClusterDeployment) (s : σ)
    (h : (r.client.GetSecret (artifactKey cfg dmsi cd) s).1 = none) :
    createSecret r cfg dmsi dmsc cd s =
      ⟨none, (r.client.GetSecret (artifactKey cfg dmsi cd) s).2,
        [Event.getSecret (artifactKey cfg dmsi cd) none]⟩ := by
  simp only [artifactKey] at h ⊢
  simp only [createSecret, bind_apply, getSecret, call_apply, h, IsNotFound, Option.isSome_none,
    Bool.false_and, Bool.false_eq_true, if_false, pure_apply, List.append_nil]

/-- When the secret is absent and find-by-name returns one monitor, `createSecret` issues
one create call, for a secret of the derived name in the namespace of the resource whose
data holds the check-in URL of the monitor under `KeySnitchURL`, and returns what the
create call returns. -/
theorem createSecret_single (r : ReconcileDeadmansSnitchIntegration σ) (cfg : Config)
    (dmsi : DeadmansSnitchIntegration) (dmsc : DmsClient σ) (cd : ClusterDeployment) (s : σ)
    (m : Snitch) (hk : r.scheme.kinds.contains "ClusterDeployment" = true)
    (h : (r.client.GetSecret (artifactKey cfg dmsi cd) s).1 = some Err.notFound)
    (hf : (dmsc.FindSnitchesByName (monitorName cfg dmsi cd)
      (r.client.GetSecret (artifactKey cfg dmsi cd) s).2).1 = ([m], none)) :
    ∃ obj e, (createSecret r cfg dmsi dmsc cd s).log =
        [Event.getSecret (artifactKey cfg dmsi cd) (some Err.notFound),
          Event.findSnitchesByName (monitorName cfg dmsi cd) [m] none,
          Event.createSecret obj e] ∧
      (createSecret r cfg dmsi dmsc cd s).val = e ∧
      obj.Name = cfg.SecretName cd.Spec.ClusterName dmsi.Spec.SnitchNamePostFix ∧
      obj.Namespace = cd.Namespace ∧ obj.Data = [(cfg.KeySnitchURL, m.CheckInURL)] ∧
      obj.OwnerReferences = [⟨"ClusterDeployment", cd.Name, cd.UID, true⟩] := by
  simp only [artifactKey, monitorName] at h hf ⊢
  have hS : ∀ url, SetControllerReference cd (newDMSSecret cfg cd.Namespace
      (cfg.SecretName cd.Spec.ClusterName dmsi.Spec.SnitchNamePostFix) url).OwnerReferences
      r.scheme = Except.ok [⟨"ClusterDeployment", cd.Name, cd.UID, true⟩] := by
    intro url
    have hk2 : "ClusterDeployment" ∈ r.scheme.kinds := by simpa using hk
    simp [SetControllerReference, controllerReference, hk2, newDMSSecret]
  simp only [createSecret, bind_apply, getSecret, call_apply, h, IsNotFound, Option.isSome_some,
    Bool.not_true, Bool.and_false, Bool.false_eq_true, if_false, if_true, FindSnitchesByName, hf,
    createSecretLoop, hS, createSecretObject]
  generalize r.client.CreateSecret _ _ = rc
  rcases rc with ⟨e, s2⟩
  refine ⟨{ newDMSSecret cfg cd.Namespace
      (cfg.SecretName cd.Spec.ClusterName dmsi.Spec.SnitchNamePostFix) m.CheckInURL with
      OwnerReferences := [⟨"ClusterDeployment", cd.Name, cd.UID, true⟩] }, e, ?_, ?_, rfl, rfl,
    rfl, rfl⟩
  · cases e <;> simp [pure_apply]
  · cases e <;> simp [pure_apply]

end Secret

/-- Over the faithful collaborators, when the secret is absent and two or more live
monitors of the derived name exist, `createSecret` creates the secret with the check-in
URL of the first monitor and returns the error of the second create call: the secret
exists already. -/
theorem createSecret_duplicates (cfg : Config) (dmsi : DeadmansSnitchIntegration)
    (cd : ClusterDeployment) (w : World) (m1 m2 : Snitch) (rest : List Snitch)
    (hs : w.hasSecret (artifactKey cfg dmsi cd) = false)
    (hf : w.findSnitches (monitorName cfg dmsi cd) = m1 :: m2 :: rest) :
    (createSecret faithful cfg dmsi faithfulDms cd w).val = some Err.alreadyExists ∧
      (createSecret faithful cfg dmsi faithfulDms cd w).world.secrets = w.secrets ++
        [{ newDMSSecret cfg cd.Namespace
            (cfg.SecretName cd.Spec.ClusterName dmsi.Spec.SnitchNamePostFix) m1.CheckInURL with
          OwnerReferences := [⟨"ClusterDeployment", cd.Name, cd.UID, true⟩] }] := by
  simp only [artifactKey, monitorName] at hs hf
  have hS : ∀ url, SetControllerReference cd (newDMSSecret cfg cd.Namespace
      (cfg.SecretName cd.Spec.ClusterName dmsi.Spec.SnitchNamePostFix) url).OwnerReferences
      faithful.scheme = Except.ok [⟨"ClusterDeployment", cd.Name, cd.UID, true⟩] :=
    fun _ => SetControllerReference_fresh cd
  have hc1 : ∀ (url : String) (refs : List OwnerReference),
      World.CreateSecret { newDMSSecret cfg cd.Namespace
        (cfg.SecretName cd.Spec.ClusterName dmsi.Spec.SnitchNamePostFix) url with
        OwnerReferences := refs } w =
      (none, { w with secrets := w.secrets ++ [{ newDMSSecret cfg cd.Namespace
        (cfg.SecretName cd.Spec.ClusterName dmsi.Spec.SnitchNamePostFix) url with
        OwnerReferences := refs }] }) := by
    intro url refs
    unfold World.CreateSecret
    rw [if_neg]
    simp only [Secret.key, newDMSSecret, hs]
    simp
  have hc2 : ∀ (url url2 : String) (refs refs2 : List OwnerReference),
      World.CreateSecret { newDMSSecret cfg cd.Namespace
        (cfg.SecretName cd.Spec.ClusterName dmsi.Spec.SnitchNamePostFix) url2 with
        OwnerReferences := refs2 }
        { w with secrets := w.secrets ++ [{ newDMSSecret cfg cd.Namespace
          (cfg.SecretName cd.Spec.ClusterName dmsi.Spec.SnitchNamePostFix) url with
          OwnerReferences := refs }] } =
      (some Err.alreadyExists, { w with secrets := w.secrets ++ [{ newDMSSecret cfg cd.Namespace
        (cfg.SecretName cd.Spec.ClusterName dmsi.Spec.SnitchNamePostFix) url with
        OwnerReferences := refs }] }) := by
    intro url url2 refs refs2
    unfold World.CreateSecret
    rw [if_pos]
    simp [World.hasSecret, Secret.key, newDMSSecret]
  simp only [createSecret, bind_apply, getSecret, call_apply,
    show faithful.client.GetSecret = World.GetSecret from rfl, World.GetSecret, hs,
    IsNotFound, Bool.false_eq_true, if_false, Option.isSome_some, Bool.not_true,
    Bool.and_false, if_true, FindSnitchesByName,
    show faithfulDms.FindSnitchesByName = World.FindSnitchesByName from rfl,
    World.FindSnitchesByName, hf, createSecretLoop, hS, createSecretObject,
    show faithful.client.CreateSecret = World.CreateSecret from rfl, hc1, hc2, pure_apply,
    and_self]

set_option maxRecDepth 100000 in
/-- C12: cluster `a` has no secret and two live monitors of its derived name exist:
`createSecret` creates the secret with the check-in URL of the first monitor, then issues
a second create call for a secret of the same name with the check-in URL of the second
monitor, which the store refuses, and returns that error instead of success. -/
theorem createSecret_fails_on_duplicate_monitors :
    duplicateMonitorsWorld.hasSecret (artifactKey exampleConfig exampleIntent clusterA) = false ∧
    (createSecret faithful exampleConfig exampleIntent faithfulDms clusterA
        duplicateMonitorsWorld).val = some Err.alreadyExists ∧
    (createSecret faithful exampleConfig exampleIntent faithfulDms clusterA
        duplicateMonitorsWorld).log =
      [Event.getSecret ⟨"uhc-a", "a-dms-secret"⟩ (some Err.notFound),
        Event.findSnitchesByName "a.example.com" [monitorA, monitorA2] none,
        Event.createSecret
          { secretA with OwnerReferences := [⟨"ClusterDeployment", "a", "uid-a", true⟩] } none,
        Event.createSecret
          { secretA with
            Data := [("SNITCH_URL", "https://nosnch.in/1")]
            OwnerReferences := [⟨"ClusterDeployment", "a", "uid-a", true⟩] }
          (some Err.alreadyExists)] ∧
    (createSecret faithful exampleConfig exampleIntent faithfulDms clusterA
        duplicateMonitorsWorld).world.secrets =
      [apiKeySecret,
        { secretA with OwnerReferences := [⟨"ClusterDeployment", "a", "uid-a", true⟩] }] := by
  decide

/-! ## C13: the internal cluster identifier -/

theorem splitOnChar_length (sep : Char) (l : List Char) :
    (splitOnChar sep l).length = l.count sep + 1 := by
  induction l with
  | nil => simp [splitOnChar]
  | cons c cs ih =>
    unfold splitOnChar
    by_cases hc : c = sep
    · subst hc
      simp [ih]
    · have hne : (c == sep) = false := by simpa using hc
      simp only [hc, if_false, List.count_cons, hne, Bool.false_eq_true]
      cases hs : splitOnChar sep cs with
      | nil => exact absurd hs (splitOnChar_ne_nil sep cs)
      | cons a as =>
        rw [hs] at ih
        simpa using ih

/-- C13: for every namespace, `strings.Split(namespace, "-")` yields one segment more
than there are `-` in it, so at least one, and the index `len(cns)-1` that
`getInternalClusterID` reads is in range; the segment it returns has no `-` and is a
suffix of the namespace, the whole namespace when the namespace has no `-`. -/
theorem getInternalClusterID_in_range (cd : ClusterDeployment) :
    (strings_Split_dash cd.Namespace).length = cd.Namespace.data.count '-' + 1 ∧
      (strings_Split_dash cd.Namespace).length - 1 < (strings_Split_dash cd.Namespace).length ∧
      (strings_Split_dash cd.Namespace)[(strings_Split_dash cd.Namespace).length - 1]? =
        some (getInternalClusterID cd) ∧
      '-' ∉ (getInternalClusterID cd).data ∧
      (getInternalClusterID cd).data <:+ cd.Namespace.data ∧
      ('-' ∉ cd.Namespace.data → getInternalClusterID cd = cd.Namespace) := by
  have hlen : (strings_Split_dash cd.Namespace).length = cd.Namespace.data.count '-' + 1 := by
    simp [strings_Split_dash, splitOnChar_length]
  have hlt : (strings_Split_dash cd.Namespace).length - 1 <
      (strings_Split_dash cd.Namespace).length := by omega
  obtain ⟨pre, h1, h2, h3⟩ := getInternalClusterID_last cd
  refine ⟨hlen, hlt, ?_, h2, ⟨pre, h1.symm⟩, ?_⟩
  · unfold getInternalClusterID
    rw [List.getD_eq_getElem?_getD, List.getElem?_eq_getElem hlt]
    simp
  · intro hno
    rcases h3 with h3 | ⟨p, hp⟩
    · subst h3
      exact String.ext (by simpa using h1.symm)
    · exfalso
      apply hno
      rw [h1, hp]
      simp

end DeadMansSnitch
